import Mathlib

/-!
# iiifserver: the FIF command handler and the tile transforms

A shallow embedding of `src/FIF.cc` (the request-path decoder, the image
descriptor cache and the conditional-request check of `FIF::run`), of
`IIPImage::Initialise` from `src/IIPImage.cc`, and of the tile transforms of
`src/Transforms.cc` (namespace `Transforms`, with its own conventions).

Conventions of the embedding

* a `std::string` is a `List Char`, one `Char` per byte;
* an iterator into `src` is the suffix of `src` that starts at it, so that
  `distance(iter, src.end())` is the length of the suffix and `*(iter + k)` is
  its `k`-th element;
* `std::string` keeps a NUL terminator behind its last character: this is the
  value read by `*(iter + k)` when `iter + k == src.end()`;
* logging (`session->logfile`, `command_timer`) is left out: it does not feed
  back into any value computed by the handler.
-/

namespace FIF

/-- A `std::string`, byte by byte. -/
abbrev Str := List Char

/-- The byte that a `std::string` stores at `end()`. -/
def NUL : Char := Char.ofNat 0

/-! ## URL decoding: FIF.cc lines 39-99 -/

/-- The C-locale `isxdigit`. -/
def isxdigit (c : Char) : Bool :=
  ('0' ≤ c && c ≤ '9') || ('a' ≤ c && c ≤ 'f') || ('A' ≤ c && c ≤ 'F')

/-- One operand of `hexToChar`:
`(c >= 'A' ? ((c & 0xDF) - 'A') + 10 : (c - '0'))`, in `int` arithmetic. -/
def hexDigit (c : Char) : Int :=
  if 'A' ≤ c then ((c.toNat &&& 0xDF : Nat) : Int) - ('A'.toNat : Int) + 10
  else (c.toNat : Int) - ('0'.toNat : Int)

/-- The function `hexToChar` of FIF.cc lines 40-46; the final
`static_cast<char>` keeps the low eight bits. -/
def hexToChar (first second : Char) : Char :=
  Char.ofNat ((hexDigit first * 16 + hexDigit second) % 256).toNat

/-- The call `distance(iter, src.end())` for the suffix `s` starting at `iter`. -/
def distance (s : Str) : Nat := s.length

/-- The read `*(iter + k)` for the suffix `s` starting at `iter`; at
`iter + k == src.end()` it yields the terminator. -/
def deref (s : Str) (k : Nat) : Char := s.getD k NUL

/-- The guard of FIF.cc lines 72-73,
`distance(iter, src.end()) >= 2 && isxdigit(*(iter+1)) && isxdigit(*(iter+2))`. -/
def escapeGuard (s : Str) : Bool :=
  decide (2 ≤ distance s) && isxdigit (deref s 1) && isxdigit (deref s 2)

/-- How many of the reads `*(iter + k)` made while evaluating `escapeGuard`
(left to right, short-circuiting) fall on `src.end()` or behind it. -/
def guardEndReads (s : Str) : Nat :=
  if 2 ≤ distance s then
    (if distance s ≤ 1 then 1 else 0)
      + (if isxdigit (deref s 1) then (if distance s ≤ 2 then 1 else 0) else 0)
  else 0

/-- Result of the decoding loop: the string `argument`, and the number of
reads at or behind `src.end()` that the loop made. -/
structure Decoded where
  argument : Str
  endReads : Nat
deriving DecidableEq, Repr

/-- The call `argument.append(1, c)`, seen from the rest of the loop. -/
def Decoded.append (c : Char) (d : Decoded) : Decoded :=
  { d with argument := c :: d.argument }

/-- Account for `n` reads at or behind `src.end()`. -/
def Decoded.noteReads (n : Nat) (d : Decoded) : Decoded :=
  { d with endReads := d.endReads + n }

/-- The loop of FIF.cc lines 65-99. The list is the suffix of `src` at `iter`;
the first argument is the number of positions `iter` has been wound
forward inside the current iteration (`iter += 2`, or `++iter` twice) and
that the loop still has to step over. -/
def decodeFrom : Nat → Str → Decoded
  | _, [] => ⟨[], 0⟩
  | skip + 1, _ :: rest => decodeFrom skip rest
  | 0, c :: rest =>
    if c = '+' then (decodeFrom 0 rest).append ' '
    else if c = '%' then
      if escapeGuard (c :: rest) then
        if deref (c :: rest) 1 = '0' ∧ deref (c :: rest) 2 = '0' then
          (decodeFrom 2 rest).noteReads (guardEndReads (c :: rest))
        else
          ((decodeFrom 2 rest).append
            (hexToChar (deref (c :: rest) 1) (deref (c :: rest) 2))).noteReads
              (guardEndReads (c :: rest))
      else ((decodeFrom 0 rest).append '%').noteReads (guardEndReads (c :: rest))
    else (decodeFrom 0 rest).append c

/-- The string `argument` after the decoding loop, FIF.cc lines 61-99. -/
def urlDecode (src : Str) : Str := (decodeFrom 0 src).argument

/-! ## Removal of "../": FIF.cc lines 101-103 -/

/-- The value `std::string::npos`, for a 64-bit `size_t`. -/
def npos : Nat := 2 ^ 64 - 1

/-- Index of the leftmost occurrence of `pat` in the string. -/
def findIdx (pat : Str) : Str → Option Nat
  | [] => if pat.isEmpty then some 0 else none
  | c :: s => if pat.isPrefixOf (c :: s) then some 0 else (findIdx pat s).map (· + 1)

/-- The call `s.find(pat)`. -/
def find (s pat : Str) : Nat := (findIdx pat s).getD npos

/-- The call `s.erase(pos, len)`, for `pos ≤ s.length`. -/
def erase (s : Str) (pos len : Nat) : Str := s.take pos ++ s.drop (pos + len)

/-- The loop `while( (n=argument.find("../")) < argument.length() ) argument.erase(n,3);`
with `unsigned int n`, run for at most `fuel` evaluations of its condition;
`none` when the fuel runs out before the condition turns false. -/
def eraseLoop : Nat → Str → Option Str
  | 0, _ => none
  | fuel + 1, argument =>
    let n := find argument "../".toList % 2 ^ 32
    if n < argument.length then eraseLoop fuel (erase argument n 3) else some argument

/-- The sanitizer, FIF.cc lines 61-103: decoding, then the removal loop with
one more unit of fuel than the decoded string has characters. -/
def sanitize (src : Str) : Option Str :=
  eraseLoop ((urlDecode src).length + 1) (urlDecode src)

/-! ## The reference decoder of the specification -/

/-- Value of a hexadecimal digit, upper and lower case alike. -/
def specHexValue (c : Char) : Nat :=
  if '0' ≤ c ∧ c ≤ '9' then c.toNat - '0'.toNat
  else if 'a' ≤ c ∧ c ≤ 'f' then c.toNat - 'a'.toNat + 10
  else c.toNat - 'A'.toNat + 10

/-- Is the character one of `0-9`, `a-f`, `A-F`. -/
def specIsHex (c : Char) : Bool := c ∈ "0123456789abcdefABCDEF".toList

/-- The decoder as section 4.1 of the specification words it, left to right:
`+` gives a space; `%` followed by two hex digits gives nothing for `%00` and
the decoded byte otherwise, consuming three characters; any other `%` is
passed through; any other character is copied. -/
def specDecode : Str → Str
  | [] => []
  | c :: rest =>
    if c = '+' then ' ' :: specDecode rest
    else if c = '%' then
      match rest with
      | x :: y :: rest2 =>
        if specIsHex x ∧ specIsHex y then
          if 16 * specHexValue x + specHexValue y = 0 then specDecode rest2
          else Char.ofNat (16 * specHexValue x + specHexValue y) :: specDecode rest2
        else '%' :: specDecode (x :: y :: rest2)
      | r => '%' :: specDecode r
    else c :: specDecode rest

/-- The characters accepted by `isxdigit`. -/
def hexChars : List Char := "0123456789abcdefABCDEF".toList

/-! ## Image descriptors: IIPImage.cc -/

/-- The members of `IIPImage` that `IIPImage::Initialise`, `FIF::run` and the
decoder's `openImage` read or write (compare `IIPImage::swap`). -/
structure IIPImage where
  imagePath : Str
  isFile : Bool
  type : Str
  fileSystemPrefix : Str
  fileNamePattern : Str
  horizontalAnglesList : List Int
  verticalAnglesList : List Int
  image_widths : List Nat
  image_heights : List Nat
  tile_width : Nat
  tile_height : Nat
  numResolutions : Nat
  bpp : Nat
  channels : Nat
  timestamp : Int
deriving DecidableEq, Repr

/-- Modelled from the spec: the constructor `IIPImage( const std::string& )` is
declared in IIPImage.h, which is not among the sources; it yields a
descriptor that holds the canonical path and nothing else yet. -/
def IIPImage.ofPath (s : Str) : IIPImage :=
  { imagePath := s, isFile := false, type := [], fileSystemPrefix := [],
    fileNamePattern := [], horizontalAnglesList := [], verticalAnglesList := [],
    image_widths := [], image_heights := [], tile_width := 0, tile_height := 0,
    numResolutions := 0, bpp := 0, channels := 0, timestamp := 0 }

/-- What `stat` reports about a path: `S_ISREG(st_mode)` and `st_mtime`. -/
structure StatBuf where
  isReg : Bool
  st_mtime : Int
deriving DecidableEq, Repr

/-- A `struct tm`. -/
structure Tm where
  tm_sec : Int
  tm_min : Int
  tm_hour : Int
  tm_mday : Int
  tm_mon : Int
  tm_year : Int
  tm_wday : Int
  tm_yday : Int
  tm_isdst : Int
deriving DecidableEq, Repr

/-- The decoder classes that `FIF::run` can instantiate, FIF.cc lines 165 and 170. -/
inductive Decoder where
  | TPTImage
  | KakaduImage
deriving DecidableEq, Repr

/-- Everything outside the three source files that one request depends on:
the file system, the C library, the decoder, the configuration and the
build flags. -/
structure Env where
  /-- The call `stat(path, &sb)`: `none` when it does not return 0. -/
  stat : Str → Option StatBuf
  /-- The call `glob(pattern, 0, NULL, &gdat)`: `none` when it does not
  return 0, else `gdat.gl_pathv`. -/
  glob : Str → Option (List Str)
  /-- The extraction `istringstream(s) >> angle`. -/
  readInt : Str → Int
  /-- The `openImage()` of the selected decoder class on the object built from
  a descriptor: the message it throws, or the descriptor with dimensions,
  channels, bit depth and timestamp filled in. -/
  openImage : Decoder → IIPImage → Except Str IIPImage
  /-- The value of `Environment::getFileSystemPrefix()`. -/
  fileSystemPrefix : Str
  /-- The value of `Environment::getFileNamePattern()`. -/
  fileNamePattern : Str
  /-- The call `strptime(s, "%a, %d %b %Y %H:%M:%S %Z", &mod_t)` on a given
  content of `mod_t`: whether it returns non-NULL, and `mod_t` afterwards. -/
  strptime : Str → Tm → Bool × Tm
  /-- The call `mktime(&mod_t)`. -/
  mktime : Tm → Int
  /-- The content of the local `tm mod_t` before `strptime` writes to it. -/
  uninitialised_tm : Tm
  /-- Whether the build defines `HAVE_GLOB_H`. -/
  HAVE_GLOB_H : Bool
  /-- Whether the build defines `HAVE_KAKADU`. -/
  HAVE_KAKADU : Bool

/-- The conversion `int dot = s.find_last_of(c)`: the last index of `c`, or
`npos` converted to `int`, which is -1. -/
def find_last_of (s : Str) (c : Char) : Int :=
  match (s.reverse.indexOf? c) with
  | some i => (s.length - 1 - i : Nat)
  | none => -1

/-- The call `s.substr(pos, n)` for `pos ≤ s.length`. -/
def substr (s : Str) (pos n : Nat) : Str := (s.drop pos).take n

/-- The method `IIPImage::updateTimestamp`, IIPImage.cc lines 132-142. -/
def updateTimestamp (env : Env) (img : IIPImage) (path : Str) : Except Str IIPImage :=
  match env.stat path with
  | none => .error ("Unable to open file ".toList ++ path)
  | some sb => .ok { img with timestamp := sb.st_mtime }

/-- The method `IIPImage::testImageType`, IIPImage.cc lines 77-128. -/
def testImageType (env : Env) (img : IIPImage) : Except Str IIPImage :=
  let path := img.fileSystemPrefix ++ img.imagePath
  match (env.stat path).filter (fun sb => sb.isReg) with
  | some sb =>
    let dot := find_last_of img.imagePath '.'
    .ok { img with
      isFile := true
      type := substr img.imagePath (dot + 1).toNat img.imagePath.length
      timestamp := sb.st_mtime }
  | none =>
    if env.HAVE_GLOB_H then
      let filename := path ++ img.fileNamePattern ++ "000_090.*".toList
      match env.glob filename with
      | none => .error (path ++ " is neither a file nor part of an image sequence".toList)
      | some gl_pathv =>
        if gl_pathv.length ≠ 1 then
          .error ("There are multiple file extensions matching ".toList ++ filename)
        else
          let tmp := gl_pathv.headD []
          let dot := find_last_of tmp '.'
          updateTimestamp env
            { img with isFile := false, type := substr tmp (dot + 1).toNat tmp.length } tmp
    else .error (path ++ " is not a file and no glob support enabled".toList)

/-- The method `IIPImage::measureVerticalAngles`, IIPImage.cc lines 159-191.
A failed `glob` leaves no path to loop over. -/
def measureVerticalAngles (env : Env) (img : IIPImage) : IIPImage :=
  if env.HAVE_GLOB_H then
    let filename := img.fileSystemPrefix ++ img.imagePath ++ img.fileNamePattern
      ++ "000_*.".toList ++ img.type
    let angles := ((env.glob filename).getD []).map (fun tmp =>
      let len := tmp.length - img.type.length - 1
      env.readInt (substr tmp (len - 3) 3))
    { img with verticalAnglesList := angles.insertionSort (· ≤ ·) }
  else { img with verticalAnglesList := [] }

/-- The method `IIPImage::measureHorizontalAngles`, IIPImage.cc lines 195-228. -/
def measureHorizontalAngles (env : Env) (img : IIPImage) : IIPImage :=
  if env.HAVE_GLOB_H then
    let filename := img.fileSystemPrefix ++ img.imagePath ++ img.fileNamePattern
      ++ "*_090.".toList ++ img.type
    let angles := ((env.glob filename).getD []).map (fun tmp =>
      let start := (img.fileSystemPrefix ++ img.imagePath ++ img.fileNamePattern).length
      let endPos := find_last_of tmp '_'
      env.readInt (substr tmp start (endPos - start).toNat))
    { img with horizontalAnglesList := angles.insertionSort (· ≤ ·) }
  else { img with horizontalAnglesList := [] }

/-- The method `IIPImage::Initialise`, IIPImage.cc lines 232-249. -/
def Initialise (env : Env) (img : IIPImage) : Except Str IIPImage :=
  match testImageType env img with
  | .error message => .error message
  | .ok img1 =>
    if !img1.isFile then
      .ok (measureVerticalAngles env (measureHorizontalAngles env img1))
    else
      .ok { img1 with
        horizontalAnglesList := 0 :: img1.horizontalAnglesList
        verticalAnglesList := 90 :: img1.verticalAnglesList }

/-! ## The session and the image cache -/

/-- The value of the macro `MAXIMAGECACHE`, FIF.cc line 31. -/
def MAXIMAGECACHE : Nat := 500

/-- Modelled from the spec: the container type of `session->imageCache` is
declared in Task.h, which is not among the sources. Section 3 of the
specification describes it as an insertion-ordered mapping from canonical
path to descriptor: the entries are listed oldest first, so that `begin()`
is the oldest-inserted entry. -/
abbrev imageCacheMapType := List (Str × IIPImage)

/-- The test `cache.find(k) != cache.end()` and, where it holds, the value `cache[k]`. -/
def cacheFind (cache : imageCacheMapType) (k : Str) : Option IIPImage := cache.lookup k

/-- The call `cache.erase( cache.begin() )`. -/
def cacheEraseBegin (cache : imageCacheMapType) : imageCacheMapType := cache.tail

/-- The assignment `cache[k] = v`: the value of an existing key is replaced
where it stands, a new key becomes the newest entry. -/
def cacheAssign (cache : imageCacheMapType) (k : Str) (v : IIPImage) : imageCacheMapType :=
  if (cache.lookup k).isSome then cache.map (fun e => if e.1 = k then (e.1, v) else e)
  else cache ++ [(k, v)]

/-- The part of `Session` (declared in Task.h) that `FIF::run` reads or
writes, with one ghost counter. -/
structure Session where
  /-- The map `*session->imageCache`. -/
  imageCache : imageCacheMapType
  /-- The object `*session->image`, once one has been created. -/
  image : Option IIPImage
  /-- The map `session->headers`. -/
  headers : List (Str × Str)
  /-- The member `session->view->xangle`. -/
  xangle : Int
  /-- The member `session->view->yangle`. -/
  yangle : Int
  /-- The time stamp handed to `session->response->setLastModified`. -/
  lastModified : Option Int
  /-- The arguments of the last `session->response->setError`. -/
  error : Option (Str × Str)
  /-- Ghost: how many times `IIPImage::Initialise` has been called. -/
  initialiseCalls : Nat
deriving DecidableEq, Repr

/-- How a call of `FIF::run` ends. `diverged` stands for a removal loop that
has used up its fuel. -/
inductive Outcome where
  | returned
  | threwString (message : Str)
  | threwInt (code : Int)
  | diverged
deriving DecidableEq, Repr

/-- The three statements `test = IIPImage( argument ); test.setFileNamePattern(..);
test.setFileSystemPrefix(..); test.Initialise();` of FIF.cc lines 126-129 and
143-146; the session counts the call of `Initialise`. -/
def buildImage (env : Env) (session : Session) (argument : Str) :
    Except Str IIPImage × Session :=
  (Initialise env
      { IIPImage.ofPath argument with
        fileNamePattern := env.fileNamePattern
        fileSystemPrefix := env.fileSystemPrefix },
    { session with initialiseCalls := session.initialiseCalls + 1 })

/-- The cache look-up of FIF.cc lines 123-150: the descriptor `test`, or the
message thrown by `Initialise`, and the session afterwards. -/
def lookupImage (env : Env) (session : Session) (argument : Str) :
    Except Str IIPImage × Session :=
  if session.imageCache.isEmpty then
    buildImage env session argument
  else
    match cacheFind session.imageCache argument with
    | some test => (.ok test, session)
    | none =>
      match buildImage env session argument with
      | (.error message, s1) => (.error message, s1)
      | (.ok test, s1) =>
        if MAXIMAGECACHE ≤ s1.imageCache.length then
          (.ok test, { s1 with imageCache := cacheEraseBegin s1.imageCache })
        else (.ok test, s1)

/-- The lower-cased suffix `imtype`, FIF.cc lines 158-161. -/
def imtypeOf (test : IIPImage) : Str := test.type.map Char.toLower

/-- The test that selects `TPTImage`, FIF.cc line 163. -/
def isTiffType (imtype : Str) : Bool :=
  imtype = "tif".toList || imtype = "tiff".toList || imtype = "ptif".toList
    || imtype = "dat".toList

/-- The test that selects `KakaduImage`, FIF.cc line 168. -/
def isJpeg2000Type (imtype : Str) : Bool :=
  imtype = "jpx".toList || imtype = "jp2".toList || imtype = "j2k".toList

/-- The dispatch on the lower-cased suffix, FIF.cc lines 163-173: the decoder
class to instantiate, or `none` where the code throws
"Unsupported image type". The test for JPEG2000 is compiled in only with
`HAVE_KAKADU`. -/
def selectDecoder (haveKakadu : Bool) (imtype : Str) : Option Decoder :=
  if isTiffType imtype then some .TPTImage
  else if haveKakadu && isJpeg2000Type imtype then some .KakaduImage
  else none

/-- The body of the `try` block, FIF.cc lines 123-232: the opened image, or
the string thrown, and the session as the block leaves it. -/
def tryBlock (env : Env) (session : Session) (argument : Str) :
    Except Str IIPImage × Session :=
  match lookupImage env session argument with
  | (.error message, s1) => (.error message, s1)
  | (.ok test, s1) =>
    let imtype := imtypeOf test
    match selectDecoder env.HAVE_KAKADU imtype with
    | some decoder =>
      let s2 := { s1 with image := some test }
      match env.openImage decoder test with
      | .error message => (.error message, s2)
      | .ok image =>
        (.ok image,
          { s2 with
            image := some image
            imageCache := cacheAssign s2.imageCache argument image
            lastModified := some image.timestamp })
    | none => (.error ("Unsupported image type: ".toList ++ imtype), s1)

/-- The condition under which FIF.cc lines 243-261 throw 304: the header
`HTTP_IF_MODIFIED_SINCE` is present and the image time stamp is at most the
value `t` that `mktime` computes from what `strptime` left in `mod_t`. -/
def notModified (env : Env) (session : Session) (image : IIPImage) : Bool :=
  match session.headers.lookup "HTTP_IF_MODIFIED_SINCE".toList with
  | none => false
  | some value =>
    let mod_t := (env.strptime value env.uninitialised_tm).2
    let t := env.mktime mod_t
    decide (image.timestamp ≤ t)

/-- The rest of `FIF::run` once the path has been decoded and filtered into
`argument`, FIF.cc lines 111-278. -/
def runArgument (env : Env) (session : Session) (argument : Str) : Outcome × Session :=
  match tryBlock env session argument with
  | (.error error, s1) =>
    (.threwString error, { s1 with error := some ("1 3".toList, "FIF".toList) })
  | (.ok image, s1) =>
    if notModified env s1 image then (.threwInt 304, s1)
    else (.returned, { s1 with xangle := 0, yangle := 90 })

/-- The method `FIF::run`, FIF.cc lines 50-278. -/
def run (env : Env) (session : Session) (src : Str) : Outcome × Session :=
  match sanitize src with
  | none => (.diverged, session)
  | some argument => runArgument env session argument

/-- A sequence of requests, each with the environment it meets, served one
after the other on the same session: the outcome and the session after each. -/
def runAll : Session → List (Env × Str) → List (Outcome × Session)
  | _, [] => []
  | session, (env, src) :: rest =>
    let r := run env session src
    r :: runAll r.2 rest

/-- The session after a sequence of requests has been served on it. -/
def runLast : Session → List (Env × Str) → Session
  | session, [] => session
  | session, (env, src) :: rest => runLast (run env session src).2 rest

/-- The cache key of a request: its sanitized path (the removal loop always
ends, so the default is never used). -/
def keyOf (q : Env × Str) : Str := (sanitize q.2).getD []

/-- The cache entry that a successful request leaves: its key and the image
of the session after it. -/
def cacheEntry (q : Env × Str) (r : Outcome × Session) : Str × IIPImage :=
  (keyOf q, r.2.image.getD (IIPImage.ofPath []))

/-! ## The branches of the cache look-up taken apart -/

/-- The branch of FIF.cc lines 124-130, taken where the cache is empty, on
its own. -/
def emptyCacheBranch (env : Env) (session : Session) (argument : Str) :
    Except Str IIPImage × Session :=
  buildImage env session argument

/-- The branch "Cache Miss" of FIF.cc lines 141-149 on its own. -/
def cacheMissBranch (env : Env) (session : Session) (argument : Str) :
    Except Str IIPImage × Session :=
  match buildImage env session argument with
  | (.error message, s1) => (.error message, s1)
  | (.ok test, s1) =>
    if MAXIMAGECACHE ≤ s1.imageCache.length then
      (.ok test, { s1 with imageCache := cacheEraseBegin s1.imageCache })
    else (.ok test, s1)

/-- The `try` block after the cache look-up, FIF.cc lines 152-232, for the
descriptor or the message and the session that the look-up has left. -/
def tryBlockAfter (env : Env) (argument : Str) (looked : Except Str IIPImage × Session) :
    Except Str IIPImage × Session :=
  match looked with
  | (.error message, s1) => (.error message, s1)
  | (.ok test, s1) =>
    let imtype := imtypeOf test
    match selectDecoder env.HAVE_KAKADU imtype with
    | some decoder =>
      let s2 := { s1 with image := some test }
      match env.openImage decoder test with
      | .error message => (.error message, s2)
      | .ok image =>
        (.ok image,
          { s2 with
            image := some image
            imageCache := cacheAssign s2.imageCache argument image
            lastModified := some image.timestamp })
    | none => (.error ("Unsupported image type: ".toList ++ imtype), s1)

/-- What follows the `try` block, FIF.cc lines 233-278, for the image or the
message and the session that the block has left. -/
def runAfter (env : Env) (tried : Except Str IIPImage × Session) : Outcome × Session :=
  match tried with
  | (.error error, s1) =>
    (.threwString error, { s1 with error := some ("1 3".toList, "FIF".toList) })
  | (.ok image, s1) =>
    if notModified env s1 image then (.threwInt 304, s1)
    else (.returned, { s1 with xangle := 0, yangle := 90 })

/-! ## Example data -/

/-- A `struct tm` content used in the examples. -/
def exampleTm : Tm := ⟨0, 0, 0, 1, 0, 70, 4, 0, 0⟩

/-- An environment for the examples: every path exists, last modified at
time 1000, but is no regular file; every pattern matches the one file
"/data/seq_pyr_000_090.tif"; the decoder opens every descriptor as it
stands; the date parser accepts every header and reads the time 2000. -/
def exampleEnv : Env :=
  { stat := fun _ => some ⟨false, 1000⟩
    glob := fun _ => some ["/data/seq_pyr_000_090.tif".toList]
    readInt := fun _ => 0
    openImage := fun _ img => .ok img
    fileSystemPrefix := "/data/".toList
    fileNamePattern := "_pyr_".toList
    strptime := fun _ tm => (true, { tm with tm_sec := 2000 })
    mktime := fun tm => tm.tm_sec
    uninitialised_tm := exampleTm
    HAVE_GLOB_H := true
    HAVE_KAKADU := false }

/-- As `exampleEnv`, but the decoder fails to open any image. -/
def corruptEnv : Env :=
  { exampleEnv with openImage := fun _ _ => .error "corrupt file".toList }

/-- As `exampleEnv`, but the one file that matches is a PNG file. -/
def pngEnv : Env :=
  { exampleEnv with glob := fun _ => some ["/data/seq_pyr_000_090.png".toList] }

/-- The `i`-th example path: the letter a, `i + 1` times. -/
def examplePath (i : Nat) : Str := List.replicate (i + 1) 'a'

/-- The descriptor that `Initialise` yields in `exampleEnv`. -/
def exampleImage (path : Str) : IIPImage :=
  { IIPImage.ofPath path with
    isFile := false
    type := "tif".toList
    fileSystemPrefix := "/data/".toList
    fileNamePattern := "_pyr_".toList
    horizontalAnglesList := [0]
    verticalAnglesList := [0]
    timestamp := 1000 }

/-- A cache that is full: the first 500 example paths, oldest first. -/
def fullCache : imageCacheMapType :=
  (List.range 500).map (fun i => (examplePath i, exampleImage (examplePath i)))

/-- A session with an empty cache. -/
def emptySession : Session :=
  { imageCache := [], image := none, headers := [], xangle := 30, yangle := 60,
    lastModified := none, error := none, initialiseCalls := 0 }

/-- A session whose cache is full. -/
def fullSession : Session := { emptySession with imageCache := fullCache }

/-- A session with one cached descriptor and a conditional header. -/
def conditionalSession : Session :=
  { emptySession with
    imageCache := [("b".toList, exampleImage "b".toList)]
    headers := [("HTTP_IF_MODIFIED_SINCE".toList, "Sat, 31 Oct 2026 00:00:00 GMT".toList)] }

/-- Requests in `exampleEnv` for the example paths `i` with `lo ≤ i < lo + n`. -/
def exampleRequests (lo n : Nat) : List (Env × Str) :=
  (List.range n).map (fun i => (exampleEnv, examplePath (lo + i)))

/-- As `exampleEnv`, but `strptime` accepts no header: it returns NULL and
leaves `mod_t` as it found it, and what it found there makes `mktime`
answer 5000. -/
def badDateEnv : Env :=
  { exampleEnv with
    strptime := fun _ tm => (false, tm)
    uninitialised_tm := { exampleTm with tm_sec := 5000 } }

/-- A session with one cached descriptor and a conditional header that is no date. -/
def badDateSession : Session :=
  { conditionalSession with
    headers := [("HTTP_IF_MODIFIED_SINCE".toList, "yesterday".toList)] }

/-- The suffixes for which FIF.cc line 163 selects `TPTImage`. -/
def tiffTypes : List Str := ["tif".toList, "tiff".toList, "ptif".toList, "dat".toList]

end FIF

namespace Transforms

/-! ## Raw tiles and their transforms: Transforms.cc

Conventions of the embedding

* the buffer `data` of a tile is a function from the index of a sample, at the
  sample width of the tile, to the value stored there; memory that has just
  been allocated holds arbitrary values, which the functions that allocate
  take as their first argument;
* a tile is assumed to have fewer than 2^31 samples, so that the index
  computations, done in `int` and `unsigned int`, do not wrap and are written
  in `Nat`; the fixed-point scale factors of the resampling, which can wrap on
  such tiles, carry their `% 2 ^ 32`;
* a loop is a fold of its body over the list of the values that its control
  variable takes.
-/

/-- Modelled from the spec: the enumeration `SampleType` is declared in
RawTile.h, which is not among the sources; section 3 of the specification
gives the two sample representations, integer and floating point. The
sources spell the second one both `FLOATINGPOINT` and `FLOATPOINT`. -/
inductive SampleType where
  | FIXEDPOINT
  | FLOATINGPOINT
deriving DecidableEq, Repr

/-- Modelled from the spec: the class `RawTile` is declared in RawTile.h, which
is not among the sources; section 3 of the specification lists the pixel
buffer, width, height, channel count, bits per channel, sample
representation, byte length of the buffer and the ownership flag. -/
structure RawTile where
  data : Nat → Nat
  width : Nat
  height : Nat
  channels : Nat
  bpc : Nat
  sampleType : SampleType
  dataLength : Nat
  memoryManaged : Bool

/-- The values of `i` in `for( i = lo; i < hi; i++ )`. -/
def countUp (lo hi : Nat) : List Nat := List.range' lo (hi - lo)

/-- The values of `i` in `for( i = hi; i > lo; i-- )`. -/
def countDown (hi lo : Nat) : List Nat := (List.range (hi - lo)).map (fun t => hi - t)

/-- The values of `i` in `for( int i = n - 1; i >= 0; i-- )`. -/
def countDownFrom (n : Nat) : List Nat := (List.range n).map (fun t => n - 1 - t)

/-- A loop: the body is run for each value of the control variable in turn. -/
def loop {σ : Type} (values : List Nat) (body : Nat → σ → σ) (s : σ) : σ :=
  values.foldl (fun s i => body i s) s

/-- A buffer that is being filled, with the counter `n` of the next write. -/
structure Cursor where
  n : Nat
  buffer : Nat → Nat

/-- The statement `buffer[n++] = v`. -/
def Cursor.put (st : Cursor) (v : Nat) : Cursor :=
  ⟨st.n + 1, Function.update st.buffer st.n v⟩

/-- The content of a buffer behind the pointer `NULL`: nothing is stored there. -/
def nullBuffer : Nat → Nat := fun _ => 0

/-- Whether one of the four branches
`bpc == 8`, `bpc == 16`, `bpc == 32 && sampleType == FIXEDPOINT`,
`bpc == 32 && sampleType == FLOATPOINT` applies to the tile. -/
def hasBranch (t : RawTile) : Bool :=
  t.bpc = 8 || t.bpc = 16 || (t.bpc = 32 && t.sampleType = .FIXEDPOINT)
    || (t.bpc = 32 && t.sampleType = .FLOATINGPOINT)

/-- The loop nest of the branch "Rotate 90", Transforms.cc lines 752-764. -/
def rotate90Loop (t : RawTile) (st : Cursor) : Cursor :=
  loop (countDown t.width 0) (fun i =>
    loop (countDown t.height 0) (fun j =>
      let index := (t.width * j - i) * t.channels
      loop (countUp 0 t.channels) (fun k st =>
        if hasBranch t then st.put (t.data (index + k)) else st))) st

/-- The loop nest of the branch "Rotate 270", Transforms.cc lines 767-779. -/
def rotate270Loop (t : RawTile) (st : Cursor) : Cursor :=
  loop (countDownFrom t.width) (fun i =>
    loop (countUp 0 t.height) (fun j =>
      let index := (t.width * j + i) * t.channels
      loop (countUp 0 t.channels) (fun k st =>
        if hasBranch t then st.put (t.data (index + k)) else st))) st

/-- The loop nest of the branch "Rotate 180", Transforms.cc lines 782-792. -/
def rotate180Loop (t : RawTile) (st : Cursor) : Cursor :=
  loop (countDownFrom (t.width * t.height)) (fun i =>
    let index := i * t.channels
    loop (countUp 0 t.channels) (fun k st =>
      if hasBranch t then st.put (t.data (index + k)) else st)) st

/-- The second definition of `filter_rotate`, Transforms.cc lines 736-810. The
argument `angle` is the value of `(int)angle`; `%` of C is `Int.tmod`. The
new buffer starts with the arbitrary content `fresh`. -/
def filter_rotate (fresh : Nat → Nat) (t : RawTile) (angle : Int) : RawTile :=
  if angle.tmod 90 = 0 ∧ angle.tmod 360 ≠ 0 then
    let st0 : Cursor := ⟨0, if hasBranch t then fresh else nullBuffer⟩
    let st :=
      if angle.tmod 360 = 90 then rotate90Loop t st0
      else if angle.tmod 360 = 270 then rotate270Loop t st0
      else if angle.tmod 360 = 180 then rotate180Loop t st0
      else st0
    if angle.tmod 180 = 90 then
      { t with data := st.buffer, height := t.width, width := t.height }
    else { t with data := st.buffer }
  else t

/-- The function `filter_crop`, Transforms.cc lines 812-831, for margins that
are not negative and leave `in.height - bottom` and `in.width - right`
without wrap-around. Reads and writes go to the same buffer. -/
def filter_crop (t : RawTile) (left top right bottom : Nat) : RawTile :=
  let st : Cursor :=
    loop (countUp top (t.height - bottom)) (fun i =>
      let index1 := i * t.width
      loop (countUp left (t.width - right)) (fun j =>
        let index := (index1 + j) * t.channels
        loop (countUp 0 t.channels) (fun k st =>
          if hasBranch t then st.put (st.buffer (index + k)) else st))) ⟨0, t.data⟩
  { t with
    data := st.buffer
    height := t.height - top - bottom
    width := t.width - left - right }

/-- The function `filter_interpolate_nearestneighbour`, Transforms.cc lines
374-445; `none` stands for the division by zero of a target size 0. The
scale factors and their products are `unsigned int`. -/
def filter_interpolate_nearestneighbour (fresh : Nat → Nat) (t : RawTile)
    (resampled_width resampled_height : Nat) : Option RawTile :=
  if resampled_width = 0 ∨ resampled_height = 0 then none
  else
    let sized : Bool := t.bpc = 8 || t.bpc = 16 || t.bpc = 32
    let xscale := (t.width <<< 16) % 2 ^ 32 / resampled_width
    let yscale := (t.height <<< 16) % 2 ^ 32 / resampled_height
    let buf : Nat → Nat :=
      loop (countUp 0 resampled_height) (fun j =>
        let jj := ((j * yscale) % 2 ^ 32) >>> 16
        loop (countUp 0 resampled_width) (fun i =>
          let ii := ((i * xscale) % 2 ^ 32) >>> 16
          let pyramid_index := t.channels * (ii + jj * t.width)
          let resampled_index := (i + j * resampled_width) * t.channels
          loop (countUp 0 t.channels) (fun k buf =>
            if sized then Function.update buf (resampled_index + k) (t.data (pyramid_index + k))
            else buf))) fresh
    some
      { t with
        data := if sized then buf else t.data
        memoryManaged := if sized then true else t.memoryManaged
        width := resampled_width
        height := resampled_height
        dataLength := resampled_width * resampled_height * t.channels * t.bpc / 8 }

/-- The grey level of one pixel, Transforms.cc line 722:
`(unsigned char)( ( 1254097*R + 2462056*G + 478151*B ) >> 22 )`. -/
def greyLevel (R G B : Nat) : Nat :=
  ((1254097 * R + 2462056 * G + 478151 * B) >>> 22) % 256

/-- The function `filter_greyscale`, Transforms.cc lines 702-733. The counter
of the cursor is the read index `n`; pixel `i` of the new buffer is written. -/
def filter_greyscale (fresh : Nat → Nat) (t : RawTile) : RawTile :=
  if t.bpc ≠ 8 ∨ t.channels ≠ 3 then t
  else
    let np := t.width * t.height
    let st : Cursor :=
      loop (countUp 0 np) (fun i st =>
        let R := t.data st.n % 256
        let G := t.data (st.n + 1) % 256
        let B := t.data (st.n + 2) % 256
        ⟨st.n + 3, Function.update st.buffer i (greyLevel R G B)⟩) ⟨0, fresh⟩
    { t with data := st.buffer, channels := 1, dataLength := np }

/-- The invariant of section 3 of the specification:
`byteLength == width*height*channels*bitsPerChannel/8`. -/
def lengthInvariant (t : RawTile) : Prop :=
  t.dataLength = t.width * t.height * t.channels * t.bpc / 8

/-- A loop whose body is `buffer[n++] = src[r]`, for the read indices `r` in turn. -/
def copyFrom (src : Nat → Nat) (idxs : List Nat) (st : Cursor) : Cursor :=
  idxs.foldl (fun st r => st.put (src r)) st

/-- A loop whose body is `data[n++] = data[r]`, for the read indices `r` in turn. -/
def copyWithin (idxs : List Nat) (st : Cursor) : Cursor :=
  idxs.foldl (fun st r => st.put (st.buffer r)) st

/-- A loop whose body is `buf[w] = v`, for the pairs `(w, v)` in turn. -/
def writeAll (ws : List (Nat × Nat)) (buf : Nat → Nat) : Nat → Nat :=
  ws.foldl (fun buf p => Function.update buf p.1 p.2) buf

/-! ### Example tiles -/

/-- A buffer that holds the listed samples, and 0 behind them. -/
def bufferOf (samples : List Nat) : Nat → Nat := fun i => samples.getD i 0

/-- An 8-bit tile of 3 columns and 2 rows with one channel,
holding 1 2 3 in the first row and 4 5 6 in the second. -/
def exampleTile : RawTile :=
  { data := bufferOf [1, 2, 3, 4, 5, 6], width := 3, height := 2, channels := 1, bpc := 8,
    sampleType := .FIXEDPOINT, dataLength := 6, memoryManaged := true }

/-- The content of newly allocated memory in the examples. -/
def exampleFresh : Nat → Nat := fun _ => 99

/-- An 8-bit tile of one red pixel. -/
def redPixel : RawTile :=
  { data := bufferOf [255, 0, 0], width := 1, height := 1, channels := 3, bpc := 8,
    sampleType := .FIXEDPOINT, dataLength := 3, memoryManaged := true }

/-- An 8-bit tile of 65536 columns and one row with one channel, whose sample
at index `i` is `i % 256`. -/
def wideTile : RawTile :=
  { data := fun i => i % 256, width := 65536, height := 1, channels := 1, bpc := 8,
    sampleType := .FIXEDPOINT, dataLength := 65536, memoryManaged := true }

/-- A tile without pixels. -/
def emptyTile : RawTile :=
  { data := bufferOf [], width := 0, height := 0, channels := 1, bpc := 8,
    sampleType := .FIXEDPOINT, dataLength := 0, memoryManaged := true }

/-! ### Floating-point samples

A `float` is modelled by the rational number it stands for, and arithmetic on
`float` and `double` by exact arithmetic: rounding, infinities and NaN are
outside the model. -/

/-- How a buffer word holds a `float`: the value read through `float*`, the
word written for a value, and the fact that a value that has been written
is read back. -/
structure FloatFormat where
  toFloat : Nat → ℚ
  ofFloat : ℚ → Nat
  toFloat_ofFloat : ∀ x, toFloat (ofFloat x) = x

/-- A float format for the examples. -/
def exactFormat : FloatFormat :=
  { toFloat := fun n => (Encodable.decode n).getD 0
    ofFloat := Encodable.encode
    toFloat_ofFloat := fun x => by simp }

/-- The conversion of a `float` or `double` to `unsigned char`: the fraction
is dropped; of a value that does not fit, for which C leaves the result
open, the low eight bits are kept. -/
def toUChar (x : ℚ) : Nat := (Int.toNat ⌊x⌋) % 256

/-- The values of `n` in `for( n = lo; n < hi; n += step )`, for a step above 0. -/
def countStep (lo hi step : Nat) : List Nat :=
  (List.range ((hi - lo + step - 1) / step)).map (fun t => lo + t * step)

/-- The function `filter_normalize`, Transforms.cc lines 39-103; `max` and
`min` are the two vectors, indexed by channel. For a float tile `normdata`
is the buffer of the tile itself. -/
def filter_normalize (fmt : FloatFormat) (fresh : Nat → Nat) (t : RawTile)
    (max min : Nat → ℚ) : RawTile :=
  let np := t.dataLength * 8 / t.bpc
  let nc := t.channels
  let isFloat : Bool := t.bpc = 32 && t.sampleType = .FLOATINGPOINT
  let normdata : Nat → Nat :=
    loop (countUp 0 nc) (fun c =>
      let minc := min c
      let diffc := max c - minc
      let invdiffc : ℚ := if |diffc| > 1 / 10 ^ 30 then 1 / diffc else 10 ^ 30
      loop (countStep c np nc) (fun n normdata =>
        if isFloat then
          Function.update normdata n (fmt.ofFloat ((fmt.toFloat (normdata n) - minc) * invdiffc))
        else
          Function.update normdata n (fmt.ofFloat (((t.data n : ℚ) - minc) * invdiffc))))
      (if isFloat then t.data else fresh)
  if isFloat then { t with data := normdata }
  else { t with data := normdata, bpc := 32, dataLength := np * 32 / 8 }

/-- The three components of the light direction that `filter_shade` computes
with `cos`, `sin` and `sqrt`, Transforms.cc lines 111-125, as a function of
the two angles. -/
abbrev LightDirection := Int → Int → ℚ × ℚ × ℚ

/-- The value that `filter_shade` stores for one pixel, Transforms.cc lines
137-154, from the three samples of the pixel. -/
def shadeValue (s : ℚ × ℚ × ℚ) (i0 i1 i2 : ℚ) : ℚ :=
  let o : ℚ × ℚ × ℚ :=
    if i0 = 0 ∧ i1 = 0 ∧ i2 = 0 then (0, 0, 0)
    else (-(i0 - 1 / 2) * 2, -(i1 - 1 / 2) * 2, -(i2 - 1 / 2) * 2)
  let dot_product := 1 / 2 * (s.1 * o.1 + s.2.1 * o.2.1 + s.2.2 * o.2.2)
  let dot_product := if dot_product < 0 then 0 else dot_product
  if dot_product > 1 then 1 else dot_product

/-- The function `filter_shade`, Transforms.cc lines 107-164. -/
def filter_shade (fmt : FloatFormat) (fresh : Nat → Nat) (light : LightDirection)
    (t : RawTile) (h_angle v_angle : Int) : RawTile :=
  let ndata := t.dataLength * 8 / t.bpc
  let st : Cursor :=
    loop (countStep 0 ndata 3) (fun n st =>
      st.put (fmt.ofFloat (shadeValue (light h_angle v_angle) (fmt.toFloat (t.data n))
        (fmt.toFloat (t.data (n + 1))) (fmt.toFloat (t.data (n + 2)))))) ⟨0, fresh⟩
  { t with data := st.buffer, channels := 1, dataLength := t.width * t.height * t.bpc / 8 }

/-- Modelled from the spec: the enumeration `cmap_type` is declared in
Transforms.h, which is not among the sources; section 4.5 of the
specification gives the kinds HOT, COLD and JET. -/
inductive cmap_type where
  | HOT
  | COLD
  | JET
deriving DecidableEq, Repr

/-- The constant `max3` of `filter_cmap`. -/
def max3 : ℚ := 1 / 3

/-- The constant `max8` of `filter_cmap`. -/
def max8 : ℚ := 1 / 8

/-- The body of the loop of `case HOT`, Transforms.cc lines 296-307. -/
def cmapHOT (value : ℚ) : ℚ × ℚ × ℚ :=
  if value > 1 then (1, 1, 1)
  else if value ≤ 0 then (0, 0, 0)
  else if value < max3 then (3 * value, 0, 0)
  else if value < 2 * max3 then (1, 3 * value - 1, 0)
  else if value < 1 then (1, 1, 3 * value - 2)
  else (1, 1, 1)

/-- The body of the loop of `case COLD`, Transforms.cc lines 313-324. -/
def cmapCOLD (value : ℚ) : ℚ × ℚ × ℚ :=
  if value > 1 then (1, 1, 1)
  else if value ≤ 0 then (0, 0, 0)
  else if value < max3 then (0, 0, 3 * value)
  else if value < 2 * max3 then (0, 3 * value - 1, 1)
  else if value < 1 then (3 * value - 2, 1, 1)
  else (1, 1, 1)

/-- The body of the loop of `case JET`, Transforms.cc lines 330-343. -/
def cmapJET (value : ℚ) : ℚ × ℚ × ℚ :=
  if value < 0 then (0, 0, 0)
  else if value < max8 then (0, 0, 4 * value + 1 / 2)
  else if value < 3 * max8 then (0, 4 * value - 1 / 2, 1)
  else if value < 5 * max8 then (4 * value - 3 / 2, 1, 5 / 2 - 4 * value)
  else if value < 7 * max8 then (1, 7 / 2 - 4 * value, 0)
  else if value < 1 then (9 / 2 - 4 * value, 0, 0)
  else (1 / 2, 0, 0)

/-- The colour of a sample under a colour map. -/
def cmapColour (cmap : cmap_type) (value : ℚ) : ℚ × ℚ × ℚ :=
  match cmap with
  | .HOT => cmapHOT value
  | .COLD => cmapCOLD value
  | .JET => cmapJET value

/-- The function `filter_cmap`, Transforms.cc lines 277-356. -/
def filter_cmap (fmt : FloatFormat) (fresh : Nat → Nat) (t : RawTile) (cmap : cmap_type) :
    RawTile :=
  let out_chan := 3
  let ndata := t.dataLength * 8 / t.bpc / t.channels
  let outptr : Nat → Nat :=
    loop (countUp 0 ndata) (fun n outptr =>
      let value := fmt.toFloat (t.data n)
      let colour := cmapColour cmap value
      Function.update
        (Function.update
          (Function.update outptr (3 * n) (fmt.ofFloat colour.1))
          (3 * n + 1) (fmt.ofFloat colour.2.1))
        (3 * n + 2) (fmt.ofFloat colour.2.2)) fresh
  { t with data := outptr, channels := out_chan, dataLength := ndata * out_chan * t.bpc / 8 }

/-- The value that `filter_contrast` stores for a sample, Transforms.cc lines
576-577. The cast in `(unsigned char) (v<255.0) ? ... : 255.0` binds to the
comparison; the value of the conditional expression is converted by the
assignment. -/
def contrastLevel (sample c : ℚ) : Nat :=
  let v := sample * 255 * c
  toUChar (if v < 255 then (if v < 0 then 0 else v) else 255)

/-- The function `filter_contrast`, Transforms.cc lines 566-585. -/
def filter_contrast (fmt : FloatFormat) (fresh : Nat → Nat) (t : RawTile) (c : ℚ) : RawTile :=
  let np := t.dataLength * 8 / t.bpc
  let buffer : Nat → Nat :=
    loop (countUp 0 np) (fun n buffer =>
      Function.update buffer n (contrastLevel (fmt.toFloat (t.data n)) c)) fresh
  { t with data := buffer, bpc := 8, dataLength := np * 8 / 8 }

/-- The value that `filter_interpolate_bilinear` stores for one sample,
Transforms.cc lines 519, 530 and 541: the weighted sum of the four
neighbours, cast to `unsigned char` for each of the three sample widths. -/
def bilinearSample (a b c d : Nat) (x_diff y_diff : ℚ) : Nat :=
  toUChar ((a : ℚ) * (1 - x_diff) * (1 - y_diff) + (b : ℚ) * x_diff * (1 - y_diff)
    + (c : ℚ) * (1 - x_diff) * y_diff + (d : ℚ) * x_diff * y_diff)

/-- The function `filter_interpolate_bilinear`, Transforms.cc lines 450-563. -/
def filter_interpolate_bilinear (fresh : Nat → Nat) (t : RawTile)
    (resampled_width resampled_height : Nat) : RawTile :=
  let channels := t.channels
  let width := t.width
  let height := t.height
  let sized : Bool := t.bpc = 8 || t.bpc = 16 || t.bpc = 32
  let x_ratio : ℚ := (width : ℚ) / (resampled_width : ℚ)
  let y_ratio : ℚ := (height : ℚ) / (resampled_height : ℚ)
  let st : Cursor :=
    loop (countUp 0 resampled_height) (fun i =>
      let y : Int := ⌊y_ratio * i⌋
      let edgeY : Bool := y = (height : Int) - 1
      let y_diff : ℚ := if edgeY then 0 else y_ratio * i - y
      loop (countUp 0 resampled_width) (fun j =>
        let x : Int := ⌊x_ratio * j⌋
        let index : Nat := (x + y * width).toNat
        let edgeX : Bool := x = (width : Int) - 1
        let x_diff : ℚ := if edgeX then 0 else x_ratio * j - x
        loop (countUp 0 channels) (fun k st =>
          if sized then
            let a := t.data (index * channels + k)
            let b := if !edgeX then t.data ((index + 1) * channels + k) else 0
            let c := if !edgeY then t.data ((index + width) * channels + k) else 0
            let d := if !edgeX && !edgeY then t.data ((index + width + 1) * channels + k) else 0
            st.put (bilinearSample a b c d x_diff y_diff)
          else st))) ⟨0, fresh⟩
  { t with
    data := if sized then st.buffer else t.data
    memoryManaged := if sized then true else t.memoryManaged
    width := resampled_width
    height := resampled_height
    dataLength := resampled_width * resampled_height * channels * t.bpc / 8 }

/-- An 8-bit tile of one pixel with three channels, holding 0, 255 and 51. -/
def bytePixel : RawTile :=
  { data := bufferOf [0, 255, 51], width := 1, height := 1, channels := 3, bpc := 8,
    sampleType := .FIXEDPOINT, dataLength := 3, memoryManaged := true }

/-- A 16-bit tile of one pixel with one channel, holding 300. -/
def shortPixel : RawTile :=
  { data := bufferOf [300], width := 1, height := 1, channels := 1, bpc := 16,
    sampleType := .FIXEDPOINT, dataLength := 2, memoryManaged := true }

/-- A float tile of 2 by 1 pixels with one channel that holds the given samples. -/
def floatTile (fmt : FloatFormat) (v0 v1 : ℚ) : RawTile :=
  { data := bufferOf [fmt.ofFloat v0, fmt.ofFloat v1], width := 2, height := 1, channels := 1,
    bpc := 32, sampleType := .FLOATINGPOINT, dataLength := 8, memoryManaged := true }

/-- The three floats of pixel `n` of a tile with three float channels. -/
def pixelOf (fmt : FloatFormat) (t : RawTile) (n : Nat) : ℚ × ℚ × ℚ :=
  (fmt.toFloat (t.data (3 * n)), fmt.toFloat (t.data (3 * n + 1)),
    fmt.toFloat (t.data (3 * n + 2)))

/-- The vector `min` of the examples: 0 for every channel. -/
def byteMin : Nat → ℚ := fun _ => 0

/-- The vector `max` of the examples: 255 for every channel. -/
def byteMax : Nat → ℚ := fun _ => 255

/-- A light direction for the examples. -/
def exampleLight : LightDirection := fun _ _ => (0, 0, -1)

/-! ### The first definition of `filter_rotate` -/

/-- The loop nest of the branch "Rotate 90" of the first definition,
Transforms.cc lines 631-643. -/
def rotate90LoopFirst (t : RawTile) (st : Cursor) : Cursor :=
  loop (countUp 0 t.width) (fun i =>
    loop (countDown t.height 0) (fun j =>
      let index := (t.width * j + i) * t.channels
      loop (countUp 0 t.channels) (fun k st =>
        if hasBranch t then st.put (t.data (index + k)) else st))) st

/-- The loop nest of the branch "Rotate 270" of the first definition,
Transforms.cc lines 646-658. -/
def rotate270LoopFirst (t : RawTile) (st : Cursor) : Cursor :=
  loop (countDown t.width 0) (fun i =>
    loop (countUp 0 t.height) (fun j =>
      let index := (t.width * j + i) * t.channels
      loop (countUp 0 t.channels) (fun k st =>
        if hasBranch t then st.put (t.data (index + k)) else st))) st

/-- The loop nest of the branch "Rotate 180" of the first definition,
Transforms.cc lines 661-671. The control variable is `unsigned int` and
starts at `(in.width*in.height)-1`. -/
def rotate180LoopFirst (t : RawTile) (st : Cursor) : Cursor :=
  loop (countDown ((t.width * t.height + 2 ^ 32 - 1) % 2 ^ 32) 0) (fun i =>
    let index := i * t.channels
    loop (countUp 0 t.channels) (fun k st =>
      if hasBranch t then st.put (t.data (index + k)) else st)) st

/-- The first definition of `filter_rotate`, Transforms.cc lines 615-689. The
argument `angle` is the value of `(int)angle`; `%` of C is `Int.tmod`. The
new buffer starts with the arbitrary content `fresh`. -/
def filter_rotate_first (fresh : Nat → Nat) (t : RawTile) (angle : Int) : RawTile :=
  if angle.tmod 90 = 0 ∧ angle.tmod 360 ≠ 0 then
    let st0 : Cursor := ⟨0, if hasBranch t then fresh else nullBuffer⟩
    let st :=
      if angle.tmod 360 = 90 then rotate90LoopFirst t st0
      else if angle.tmod 360 = 270 then rotate270LoopFirst t st0
      else if angle.tmod 360 = 180 then rotate180LoopFirst t st0
      else st0
    if angle.tmod 180 = 90 then
      { t with data := st.buffer, height := t.width, width := t.height }
    else { t with data := st.buffer }
  else t

/-- The indices `index+k` of `in.data` that the branch "Rotate 90" of the
first definition reads, in turn. -/
def rotate90ReadsFirst (t : RawTile) : List Nat :=
  (countUp 0 t.width).flatMap (fun i => (countDown t.height 0).flatMap (fun j =>
    (countUp 0 t.channels).map (fun k => (t.width * j + i) * t.channels + k)))

/-- The indices `index+k` of `in.data` that the branch "Rotate 270" of the
first definition reads, in turn. -/
def rotate270ReadsFirst (t : RawTile) : List Nat :=
  (countDown t.width 0).flatMap (fun i => (countUp 0 t.height).flatMap (fun j =>
    (countUp 0 t.channels).map (fun k => (t.width * j + i) * t.channels + k)))

end Transforms

namespace FIF

/-! ## Lemmas on the decoder and the removal loop -/

theorem char_le_iff (a b : Char) : a ≤ b ↔ a.toNat ≤ b.toNat := Iff.rfl

theorem char_eq_of_toNat (c : Char) (n : Nat) (h : c.toNat = n) : c = Char.ofNat n := by
  rw [← h, Char.ofNat_toNat]

theorem mem_hexChars_of_isxdigit (c : Char) (h : isxdigit c = true) : c ∈ hexChars := by
  simp only [isxdigit, Bool.or_eq_true, Bool.and_eq_true, decide_eq_true_eq, char_le_iff] at h
  have h48 : '0'.toNat = 48 := rfl
  have h57 : '9'.toNat = 57 := rfl
  have h97 : 'a'.toNat = 97 := rfl
  have h102 : 'f'.toNat = 102 := rfl
  have h65 : 'A'.toNat = 65 := rfl
  have h70 : 'F'.toNat = 70 := rfl
  rw [h48, h57, h97, h102, h65, h70] at h
  have e := char_eq_of_toNat c c.toNat rfl
  generalize c.toNat = n at h e
  rcases h with (⟨h1, h2⟩ | ⟨h1, h2⟩) | ⟨h1, h2⟩ <;> interval_cases n <;> subst e <;> decide

theorem isxdigit_of_mem_hexChars : ∀ c ∈ hexChars, isxdigit c = true := by decide

theorem isxdigit_eq_specIsHex (c : Char) : isxdigit c = specIsHex c := by
  cases h : isxdigit c
  · cases h2 : specIsHex c
    · rfl
    · have : c ∈ hexChars := by simpa [specIsHex, hexChars] using h2
      rw [isxdigit_of_mem_hexChars c this] at h
      cases h
  · have := mem_hexChars_of_isxdigit c h
    symm
    simpa [specIsHex, hexChars] using this

theorem hexToChar_eq_spec : ∀ x ∈ hexChars, ∀ y ∈ hexChars,
    hexToChar x y = Char.ofNat (16 * specHexValue x + specHexValue y) := by decide

theorem hex_zero_iff : ∀ x ∈ hexChars, ∀ y ∈ hexChars,
    ((x = '0' ∧ y = '0') ↔ 16 * specHexValue x + specHexValue y = 0) := by decide

theorem hexToChar_ne_NUL : ∀ x ∈ hexChars, ∀ y ∈ hexChars,
    ¬ (x = '0' ∧ y = '0') → hexToChar x y ≠ NUL := by decide


theorem isxdigit_NUL : isxdigit NUL = false := by decide

@[simp] theorem argument_append (c : Char) (d : Decoded) :
    (d.append c).argument = c :: d.argument := rfl

@[simp] theorem argument_noteReads (n : Nat) (d : Decoded) :
    (d.noteReads n).argument = d.argument := rfl

theorem escapeGuard_single (c : Char) : escapeGuard [c] = false := by
  simp [escapeGuard, distance]

theorem escapeGuard_pair (c x : Char) : escapeGuard [c, x] = false := by
  simp [escapeGuard, distance, deref, isxdigit_NUL]

theorem escapeGuard_triple (c x y : Char) (r : Str) :
    escapeGuard (c :: x :: y :: r) = (isxdigit x && isxdigit y) := by
  simp [escapeGuard, distance, deref]

theorem urlDecode_nil : urlDecode [] = [] := rfl

theorem urlDecode_plus (r : Str) : urlDecode ('+' :: r) = ' ' :: urlDecode r := by
  simp [urlDecode, decodeFrom]

theorem urlDecode_other (c : Char) (r : Str) (h1 : c ≠ '+') (h2 : c ≠ '%') :
    urlDecode (c :: r) = c :: urlDecode r := by
  simp [urlDecode, decodeFrom, h1, h2]

theorem urlDecode_percent_nil : urlDecode ['%'] = ['%'] := by decide

theorem urlDecode_percent_one (x : Char) : urlDecode ['%', x] = '%' :: urlDecode [x] := by
  simp [urlDecode, decodeFrom, escapeGuard_pair]

theorem urlDecode_percent_bad (x y : Char) (r : Str) (h : ¬ (isxdigit x = true ∧ isxdigit y = true)) :
    urlDecode ('%' :: x :: y :: r) = '%' :: urlDecode (x :: y :: r) := by
  have hg : escapeGuard ('%' :: x :: y :: r) = false := by
    rw [escapeGuard_triple]; simpa using h
  simp [urlDecode, decodeFrom, hg]

theorem urlDecode_percent_hex (x y : Char) (r : Str) (hx : isxdigit x = true) (hy : isxdigit y = true) :
    urlDecode ('%' :: x :: y :: r)
      = if x = '0' ∧ y = '0' then urlDecode r else hexToChar x y :: urlDecode r := by
  have hg : escapeGuard ('%' :: x :: y :: r) = true := by
    rw [escapeGuard_triple]; simp [hx, hy]
  simp only [urlDecode, decodeFrom, hg, deref]
  simp
  split <;> simp

theorem specDecode_plus (r : Str) : specDecode ('+' :: r) = ' ' :: specDecode r := by
  conv_lhs => unfold specDecode
  simp
theorem specDecode_other (c : Char) (r : Str) (h1 : c ≠ '+') (h2 : c ≠ '%') :
    specDecode (c :: r) = c :: specDecode r := by
  conv_lhs => unfold specDecode
  simp [h1, h2]
theorem specDecode_percent_nil : specDecode ['%'] = ['%'] := by decide
theorem specDecode_percent_one (x : Char) : specDecode ['%', x] = '%' :: specDecode [x] := by
  conv_lhs => unfold specDecode
  simp
theorem specDecode_percent_bad (x y : Char) (r : Str) (h : ¬ (specIsHex x = true ∧ specIsHex y = true)) :
    specDecode ('%' :: x :: y :: r) = '%' :: specDecode (x :: y :: r) := by
  conv_lhs => unfold specDecode
  simp [h]
theorem specDecode_percent_hex (x y : Char) (r : Str) (hx : specIsHex x = true) (hy : specIsHex y = true) :
    specDecode ('%' :: x :: y :: r)
      = if 16 * specHexValue x + specHexValue y = 0 then specDecode r
        else Char.ofNat (16 * specHexValue x + specHexValue y) :: specDecode r := by
  conv_lhs => unfold specDecode
  simp [hx, hy]

theorem urlDecode_eq_specDecode_aux : ∀ (n : Nat) (src : Str), src.length ≤ n →
    urlDecode src = specDecode src := by
  intro n
  induction n with
  | zero =>
    intro src h
    have : src = [] := List.length_eq_zero.mp (Nat.le_zero.mp h)
    subst this; rfl
  | succ n ih =>
    intro src h
    match src, h with
    | [], _ => rfl
    | c :: rest, h =>
      have hr : rest.length ≤ n := by simpa using h
      by_cases hp : c = '+'
      · subst hp
        rw [urlDecode_plus, specDecode_plus, ih rest hr]
      by_cases hq : c = '%'
      · subst hq
        match rest, hr with
        | [], _ => rfl
        | [x], hr1 =>
          rw [urlDecode_percent_one, specDecode_percent_one, ih [x] hr1]
        | x :: y :: r, hr =>
          have hr2 : r.length ≤ n := by simp at hr; omega
          by_cases hh : isxdigit x = true ∧ isxdigit y = true
          · have hx := mem_hexChars_of_isxdigit x hh.1
            have hy := mem_hexChars_of_isxdigit y hh.2
            rw [urlDecode_percent_hex x y r hh.1 hh.2,
              specDecode_percent_hex x y r (by rw [← isxdigit_eq_specIsHex]; exact hh.1)
                (by rw [← isxdigit_eq_specIsHex]; exact hh.2),
              hexToChar_eq_spec x hx y hy, ih r hr2]
            simp only [hex_zero_iff x hx y hy]
          · rw [urlDecode_percent_bad x y r hh,
              specDecode_percent_bad x y r (by rw [← isxdigit_eq_specIsHex, ← isxdigit_eq_specIsHex]; exact hh),
              ih (x :: y :: r) hr]
      · rw [urlDecode_other c rest hp hq, specDecode_other c rest hp hq, ih rest hr]

theorem urlDecode_eq_specDecode (src : Str) : urlDecode src = specDecode src :=
  urlDecode_eq_specDecode_aux src.length src (Nat.le_refl _)

theorem specDecode_append_nul (v : Str) : ∀ (n : Nat) (u : Str), u.length ≤ n →
    specDecode (u ++ '%' :: '0' :: '0' :: v) = specDecode u ++ specDecode v := by
  intro n
  induction n with
  | zero =>
    intro u h
    have : u = [] := List.length_eq_zero.mp (Nat.le_zero.mp h)
    subst this
    rw [List.nil_append, specDecode_percent_hex _ _ _ (by decide) (by decide)]
    simp [specDecode, specHexValue]
  | succ n ih =>
    intro u h
    match u, h with
    | [], _ =>
      rw [List.nil_append, specDecode_percent_hex _ _ _ (by decide) (by decide)]
      simp [specDecode, specHexValue]
    | c :: rest, h =>
      have hr : rest.length ≤ n := by simpa using h
      by_cases hp : c = '+'
      · subst hp
        rw [List.cons_append, specDecode_plus, specDecode_plus, ih rest hr]; rfl
      by_cases hq : c = '%'
      · subst hq
        match rest, hr with
        | [], _ =>
          have := ih [] (Nat.zero_le _)
          simp only [List.nil_append] at this
          simp only [List.cons_append, List.nil_append]
          rw [specDecode_percent_bad _ _ _ (by decide), this]; rfl
        | [x], hr1 =>
          have := ih [x] hr1
          simp only [List.cons_append, List.nil_append] at this ⊢
          rw [specDecode_percent_bad _ _ _ (by simp; intro _; decide), this, specDecode_percent_one]; rfl
        | x :: y :: r, hr =>
          have hr2 : r.length ≤ n := by simp at hr; omega
          simp only [List.cons_append]
          by_cases hh : specIsHex x = true ∧ specIsHex y = true
          · rw [specDecode_percent_hex x y _ hh.1 hh.2, specDecode_percent_hex x y _ hh.1 hh.2, ih r hr2]
            split <;> rfl
          · have := ih (x :: y :: r) hr
            simp only [List.cons_append] at this
            rw [specDecode_percent_bad x y _ hh, specDecode_percent_bad x y _ hh, this]; rfl
      · rw [List.cons_append, specDecode_other c _ hp hq, specDecode_other c _ hp hq, ih rest hr]; rfl


theorem NUL_not_mem_urlDecode : ∀ (n : Nat) (src : Str), src.length ≤ n → NUL ∉ src →
    NUL ∉ urlDecode src := by
  intro n
  induction n with
  | zero =>
    intro src h _
    have : src = [] := List.length_eq_zero.mp (Nat.le_zero.mp h)
    subst this; simp [urlDecode_nil]
  | succ n ih =>
    intro src h hn
    match src, h, hn with
    | [], _, _ => simp [urlDecode_nil]
    | c :: rest, h, hn =>
      have hr : rest.length ≤ n := by simpa using h
      have hc : NUL ≠ c := fun e => hn (by simp [e])
      have hrest : NUL ∉ rest := fun e => hn (List.mem_cons_of_mem _ e)
      by_cases hp : c = '+'
      · subst hp
        rw [urlDecode_plus]
        simp only [List.mem_cons, not_or]
        exact ⟨by decide, ih rest hr hrest⟩
      by_cases hq : c = '%'
      · subst hq
        match rest, hr, hrest with
        | [], _, _ => decide
        | [x], hr1, hx =>
          rw [urlDecode_percent_one]
          simp only [List.mem_cons, not_or]
          exact ⟨by decide, ih [x] hr1 hx⟩
        | x :: y :: r, hr, hxy =>
          have hr2 : r.length ≤ n := by simp at hr; omega
          have hrn : NUL ∉ r := fun e => hxy (List.mem_cons_of_mem _ (List.mem_cons_of_mem _ e))
          by_cases hh : isxdigit x = true ∧ isxdigit y = true
          · have hx := mem_hexChars_of_isxdigit x hh.1
            have hy := mem_hexChars_of_isxdigit y hh.2
            rw [urlDecode_percent_hex x y r hh.1 hh.2]
            split
            · exact ih r hr2 hrn
            · rename_i h0
              simp only [List.mem_cons, not_or]
              exact ⟨fun e => hexToChar_ne_NUL x hx y hy h0 e.symm, ih r hr2 hrn⟩
          · rw [urlDecode_percent_bad x y r hh]
            simp only [List.mem_cons, not_or]
            exact ⟨by decide, by simpa only [List.mem_cons, not_or] using ih (x :: y :: r) hr hxy⟩
      · rw [urlDecode_other c rest hp hq]
        simp only [List.mem_cons, not_or]
        exact ⟨hc, ih rest hr hrest⟩

theorem mem_of_mem_erase (s : Str) (pos len : Nat) (c : Char) (h : c ∈ erase s pos len) : c ∈ s := by
  simp only [erase, List.mem_append] at h
  rcases h with h | h
  · exact List.mem_of_mem_take h
  · exact List.mem_of_mem_drop h

theorem mem_of_eraseLoop : ∀ (fuel : Nat) (a out : Str), eraseLoop fuel a = some out →
    ∀ c ∈ out, c ∈ a := by
  intro fuel
  induction fuel with
  | zero => intro a out h; simp [eraseLoop] at h
  | succ fuel ih =>
    intro a out h c hc
    simp only [eraseLoop] at h
    split at h
    · exact mem_of_mem_erase _ _ _ _ (ih _ _ h c hc)
    · cases h; exact hc

theorem findIdx_bound (pat : Str) : ∀ (s : Str) (p : Nat), findIdx pat s = some p →
    p + pat.length ≤ s.length := by
  intro s
  induction s with
  | nil =>
    intro p h
    simp only [findIdx] at h
    split at h
    · cases h
      have : pat = [] := by simpa using ‹pat.isEmpty = true›
      simp [this]
    · cases h
  | cons c s ih =>
    intro p h
    simp only [findIdx] at h
    split at h
    · cases h
      rename_i hpre
      have := (List.isPrefixOf_iff_prefix.mp hpre).length_le
      simpa using this
    · cases hq : findIdx pat s with
      | none => simp [hq] at h
      | some q =>
        simp [hq] at h
        have := ih q hq
        simp only [List.length_cons]
        omega

theorem findIdx_none (pat : Str) : ∀ (s : Str), findIdx pat s = none → ¬ pat <:+: s := by
  intro s
  induction s with
  | nil =>
    intro h hin
    simp only [findIdx] at h
    split at h
    · cases h
    · rename_i hne
      have : pat = [] := List.eq_nil_of_infix_nil hin
      exact hne (by simp [this])
  | cons c s ih =>
    intro h hin
    simp only [findIdx] at h
    split at h
    · cases h
    · rename_i hpre
      cases hq : findIdx pat s with
      | some q => simp [hq] at h
      | none =>
        rcases List.infix_cons_iff.mp hin with h1 | h1
        · exact hpre (List.isPrefixOf_iff_prefix.mpr h1)
        · exact ih hq h1

theorem length_erase_lt (s : Str) (pos : Nat) (h : pos < s.length) :
    (erase s pos 3).length < s.length := by
  simp only [erase, List.length_append, List.length_take, List.length_drop]
  omega

theorem eraseLoop_total : ∀ (fuel : Nat) (a : Str), a.length < fuel →
    ∃ out, eraseLoop fuel a = some out ∧ ¬ "../".toList <:+: out := by
  intro fuel
  induction fuel with
  | zero => intro a h; omega
  | succ fuel ih =>
    intro a h
    simp only [eraseLoop]
    split
    · rename_i hlt
      have := length_erase_lt a _ hlt
      exact ih _ (by omega)
    · rename_i hge
      refine ⟨a, rfl, ?_⟩
      cases hf : findIdx "../".toList a with
      | none => exact findIdx_none _ _ hf
      | some p =>
        exfalso
        apply hge
        have hb := findIdx_bound _ _ _ hf
        have h3 : ("../".toList).length = 3 := rfl
        rw [h3] at hb
        have : find a "../".toList = p := by unfold find; rw [hf]; rfl
        rw [this]
        exact Nat.lt_of_le_of_lt (Nat.mod_le _ _) (by omega)

theorem sanitize_total (src : Str) :
    ∃ out, sanitize src = some out ∧ ¬ "../".toList <:+: out :=
  eraseLoop_total _ _ (Nat.lt_succ_self _)

/-! ## The path sanitizer: claims C1 to C5 -/

/-- C1: for every input string the removal loop terminates and the path that
the sanitizer (decoding, then the removal loop) produces has no occurrence
of "../"; "a/../../b" becomes "a/b", and the nested "....//", where each
removal creates a new occurrence, becomes the empty string. -/
theorem sanitize_no_traversal :
    (∀ src : Str, ∃ out, sanitize src = some out ∧ ¬ "../".toList <:+: out)
      ∧ sanitize "a/../../b".toList = some "a/b".toList
      ∧ sanitize "....//".toList = some [] :=
  ⟨sanitize_total, by decide, by decide⟩

/-- C2, as stated, fails: a NUL byte that stands in the input as a raw byte
falls under "any other character" and is copied to the sanitized path. -/
theorem sanitize_keeps_raw_NUL :
    sanitize [NUL] = some [NUL] ∧ NUL ∈ ([NUL] : Str) :=
  ⟨by decide, by decide⟩

/-- C2, amended: for every input string without a raw NUL byte, whatever
escapes it contains, the sanitizer returns a path without a NUL byte. -/
theorem sanitize_NUL_free (src : Str) (h : NUL ∉ src) :
    ∃ out, sanitize src = some out ∧ NUL ∉ out := by
  obtain ⟨out, ho, _⟩ := sanitize_total src
  refine ⟨out, ho, fun hmem => ?_⟩
  exact NUL_not_mem_urlDecode src.length src (Nat.le_refl _) h
    (mem_of_eraseLoop _ _ _ ho NUL hmem)

/-- Witness of C2 (amended) at the input "x%00y/%30%30". -/
theorem sanitize_NUL_free_witness :
    NUL ∉ "x%00y/%30%30".toList
      ∧ ∃ out, sanitize "x%00y/%30%30".toList = some out ∧ NUL ∉ out :=
  ⟨by decide, sanitize_NUL_free "x%00y/%30%30".toList (by decide)⟩

/-- C3: on every input the decoding pass of `FIF::run` equals the
left-to-right reference decoder of the specification; in particular
"a+b%20c" decodes to "a b c". -/
theorem urlDecode_refines_spec :
    (∀ src : Str, urlDecode src = specDecode src)
      ∧ urlDecode "a+b%20c".toList = "a b c".toList :=
  ⟨urlDecode_eq_specDecode, by decide⟩

/-- C4: for all strings u and v the decoding pass maps u ++ "%00" ++ v to the
decoding of u followed by the decoding of v; in particular "x%00y" decodes
to "xy". -/
theorem urlDecode_drops_nul_escape :
    (∀ u v : Str, urlDecode (u ++ "%00".toList ++ v) = urlDecode u ++ urlDecode v)
      ∧ urlDecode "x%00y".toList = "xy".toList := by
  refine ⟨fun u v => ?_, by decide⟩
  rw [urlDecode_eq_specDecode, urlDecode_eq_specDecode, urlDecode_eq_specDecode]
  have := specDecode_append_nul v u.length u (Nat.le_refl _)
  simpa using this

/-- C5, the code at the input "50%a": the percent sign is second to last, the
guard `distance(iter, src.end()) >= 2` lets it through, and `*(iter+2)` is
evaluated at `src.end()`, one position behind the input. The percent sign
is still passed through, because the byte found there is the terminator. -/
theorem decode_reads_end_of_input :
    (decodeFrom 0 "50%a".toList).endReads = 1
      ∧ (decodeFrom 0 "50%a".toList).argument = "50%a".toList
      ∧ (decodeFrom 0 "50%".toList) = ⟨"50%".toList, 0⟩ :=
  ⟨by decide, by decide, by decide⟩


theorem lookup_tail_none (c : imageCacheMapType) (k : Str) (h : c.lookup k = none) :
    c.tail.lookup k = none := by
  cases c with
  | nil => rfl
  | cons e c =>
    obtain ⟨k1, v1⟩ := e
    simp only [List.lookup] at h
    split at h
    · cases h
    · exact h

theorem cacheAssign_of_miss (c : imageCacheMapType) (k : Str) (v : IIPImage)
    (h : cacheFind c k = none) : cacheAssign c k v = c ++ [(k, v)] := by
  simp only [cacheFind] at h
  simp [cacheAssign, h]

theorem length_cacheAssign_le (c : imageCacheMapType) (k : Str) (v : IIPImage) :
    (cacheAssign c k v).length ≤ c.length + 1 := by
  unfold cacheAssign
  split <;> simp

theorem length_cacheAssign_of_hit (c : imageCacheMapType) (k : Str) (v : IIPImage)
    (h : (cacheFind c k).isSome = true) : (cacheAssign c k v).length = c.length := by
  simp only [cacheFind] at h
  simp [cacheAssign, h]

/-- The possible results of the cache look-up. -/
theorem lookupImage_cases (env : Env) (s : Session) (k : Str) :
    (∃ test, cacheFind s.imageCache k = some test ∧ lookupImage env s k = (.ok test, s))
    ∨ (cacheFind s.imageCache k = none ∧
        ((∃ m, lookupImage env s k
            = (.error m, { s with initialiseCalls := s.initialiseCalls + 1 }))
        ∨ (∃ test, lookupImage env s k
            = (.ok test, { s with
                initialiseCalls := s.initialiseCalls + 1
                imageCache := if MAXIMAGECACHE ≤ s.imageCache.length
                  then cacheEraseBegin s.imageCache else s.imageCache })))) := by
  unfold lookupImage
  by_cases he : s.imageCache.isEmpty = true
  · right
    have hnil : s.imageCache = [] := by simpa using he
    refine ⟨by simp [cacheFind, hnil], ?_⟩
    rw [if_pos he]
    unfold buildImage
    cases Initialise env _ with
    | error m => exact Or.inl ⟨m, rfl⟩
    | ok test =>
      refine Or.inr ⟨test, ?_⟩
      have : ¬ MAXIMAGECACHE ≤ s.imageCache.length := by simp [hnil, MAXIMAGECACHE]
      rw [if_neg this]
  · rw [if_neg he]
    cases hf : cacheFind s.imageCache k with
    | some test => exact Or.inl ⟨test, rfl, rfl⟩
    | none =>
      right
      refine ⟨rfl, ?_⟩
      unfold buildImage
      cases Initialise env _ with
      | error m => exact Or.inl ⟨m, rfl⟩
      | ok test =>
        refine Or.inr ⟨test, ?_⟩
        simp only
        split <;> rfl


theorem lookupImage_headers (env : Env) (s : Session) (k : Str) :
    (lookupImage env s k).2.headers = s.headers := by
  rcases lookupImage_cases env s k with ⟨t, _, h⟩ | ⟨_, ⟨m, h⟩ | ⟨t, h⟩⟩ <;> rw [h]

/-- The possible results of the `try` block, in terms of the look-up. -/
theorem tryBlock_cases (env : Env) (s : Session) (k : Str) :
    (∃ m s2, tryBlock env s k = (.error m, s2)
        ∧ s2.imageCache = (lookupImage env s k).2.imageCache
        ∧ s2.headers = s.headers
        ∧ s2.initialiseCalls = (lookupImage env s k).2.initialiseCalls)
    ∨ (∃ image s2, tryBlock env s k = (.ok image, s2)
        ∧ s2.imageCache = cacheAssign (lookupImage env s k).2.imageCache k image
        ∧ s2.image = some image
        ∧ s2.headers = s.headers
        ∧ s2.initialiseCalls = (lookupImage env s k).2.initialiseCalls
        ∧ ∃ test, (lookupImage env s k).1 = .ok test) := by
  have hh := lookupImage_headers env s k
  unfold tryBlock
  rcases hl : lookupImage env s k with ⟨r, s1⟩
  rw [hl] at hh
  cases r with
  | error m => exact Or.inl ⟨m, s1, rfl, rfl, hh, rfl⟩
  | ok test =>
    simp only
    cases selectDecoder env.HAVE_KAKADU (imtypeOf test) with
    | some decoder =>
      simp only
      cases env.openImage decoder test with
      | error m => exact Or.inl ⟨m, _, rfl, rfl, hh, rfl⟩
      | ok image => exact Or.inr ⟨image, _, rfl, rfl, rfl, hh, rfl, test, rfl⟩
    | none => exact Or.inl ⟨_, s1, rfl, rfl, hh, rfl⟩

theorem tryBlock_headers (env : Env) (s : Session) (k : Str) :
    (tryBlock env s k).2.headers = s.headers := by
  rcases tryBlock_cases env s k with ⟨m, s2, h, _, hh, _⟩ | ⟨i, s2, h, _, _, hh, _⟩ <;>
    rw [h] <;> exact hh

/-- The cache after `runArgument` is the cache after the `try` block. -/
theorem runArgument_imageCache (env : Env) (s : Session) (k : Str) :
    (runArgument env s k).2.imageCache = (tryBlock env s k).2.imageCache := by
  unfold runArgument
  rcases tryBlock env s k with ⟨r, s1⟩
  cases r with
  | error m => rfl
  | ok image => simp only; split <;> rfl

theorem runArgument_initialiseCalls (env : Env) (s : Session) (k : Str) :
    (runArgument env s k).2.initialiseCalls = (tryBlock env s k).2.initialiseCalls := by
  unfold runArgument
  rcases tryBlock env s k with ⟨r, s1⟩
  cases r with
  | error m => rfl
  | ok image => simp only; split <;> rfl

/-- A call that does not throw a string has gone through the `try` block. -/
theorem runArgument_ok (env : Env) (s : Session) (k : Str)
    (h : (runArgument env s k).1 = .returned ∨ (runArgument env s k).1 = .threwInt 304) :
    ∃ image s2, tryBlock env s k = (.ok image, s2) := by
  unfold runArgument at h
  rcases ht : tryBlock env s k with ⟨r, s1⟩
  rw [ht] at h
  cases r with
  | error m => simp at h
  | ok image => exact ⟨image, s1, rfl⟩

theorem runArgument_image (env : Env) (s : Session) (k : Str) :
    (runArgument env s k).2.image = (tryBlock env s k).2.image := by
  unfold runArgument
  rcases tryBlock env s k with ⟨r, s1⟩
  cases r with
  | error m => rfl
  | ok image => simp only; split <;> rfl

/-- A successful miss: the oldest entry leaves a full cache, the new entry
becomes the newest. -/
theorem runArgument_miss (env : Env) (s : Session) (k : Str)
    (hmiss : cacheFind s.imageCache k = none)
    (h : (runArgument env s k).1 = .returned ∨ (runArgument env s k).1 = .threwInt 304) :
    ∃ image, (runArgument env s k).2.image = some image
      ∧ (runArgument env s k).2.imageCache
        = (if MAXIMAGECACHE ≤ s.imageCache.length then s.imageCache.tail else s.imageCache)
            ++ [(k, image)] := by
  obtain ⟨image, s2, ht⟩ := runArgument_ok env s k h
  rw [runArgument_image, runArgument_imageCache]
  rcases tryBlock_cases env s k with ⟨m, s3, h3, _⟩ | ⟨i, s3, h3, hc, hi, _⟩
  · rw [h3] at ht; cases ht
  · rw [h3]
    refine ⟨i, hi, ?_⟩
    simp only
    rw [hc]
    rcases lookupImage_cases env s k with ⟨t, hf, _⟩ | ⟨_, ⟨m, hl⟩ | ⟨t, hl⟩⟩
    · rw [hmiss] at hf; cases hf
    · exfalso
      unfold tryBlock at h3
      rw [hl] at h3
      cases h3
    · rw [hl]
      simp only
      apply cacheAssign_of_miss
      split
      · exact lookup_tail_none _ _ hmiss
      · exact hmiss

theorem runArgument_length_le (env : Env) (s : Session) (k : Str)
    (h : s.imageCache.length ≤ MAXIMAGECACHE) :
    (runArgument env s k).2.imageCache.length ≤ MAXIMAGECACHE := by
  rw [runArgument_imageCache]
  have hl : (lookupImage env s k).2.imageCache.length ≤ MAXIMAGECACHE
      ∧ (∀ test, (lookupImage env s k).1 = .ok test →
        ((cacheFind (lookupImage env s k).2.imageCache k).isSome = true
          ∨ (lookupImage env s k).2.imageCache.length < MAXIMAGECACHE)) := by
    rcases lookupImage_cases env s k with ⟨t, hf, hl⟩ | ⟨_, ⟨m, hl⟩ | ⟨t, hl⟩⟩
    · rw [hl]; exact ⟨h, fun _ _ => Or.inl (by simp [hf])⟩
    · refine ⟨by rw [hl]; exact h, fun t ht => ?_⟩
      rw [hl] at ht; cases ht
    · rw [hl]
      simp only
      split
      · rename_i hfull
        simp only [cacheEraseBegin, List.length_tail]
        simp only [MAXIMAGECACHE] at *
        exact ⟨by omega, fun _ _ => Or.inr (by omega)⟩
      · rename_i hnot
        exact ⟨h, fun _ _ => Or.inr (by omega)⟩
  rcases tryBlock_cases env s k with ⟨m, s3, h3, hc, _⟩ | ⟨i, s3, h3, hc, _, _, _, test, htest⟩
  · rw [h3]; simp only; rw [hc]; exact hl.1
  · rw [h3]; simp only; rw [hc]
    rcases hl.2 test htest with hhit | hlt
    · rw [length_cacheAssign_of_hit _ _ _ hhit]; exact hl.1
    · exact Nat.le_trans (length_cacheAssign_le _ _ _) hlt

theorem sanitize_eq_keyOf (q : Env × Str) : sanitize q.2 = some (keyOf q) := by
  obtain ⟨out, h, _⟩ := sanitize_total q.2
  simp [keyOf, h]

theorem run_eq_runArgument (q : Env × Str) (s : Session) :
    run q.1 s q.2 = runArgument q.1 s (keyOf q) := by
  unfold run
  rw [sanitize_eq_keyOf]

theorem length_runAll : ∀ (reqs : List (Env × Str)) (s : Session),
    (runAll s reqs).length = reqs.length := by
  intro reqs
  induction reqs with
  | nil => intro s; rfl
  | cons q qs ih => intro s; simp [runAll, ih]

theorem lookup_none_of_not_mem (k : Str) : ∀ (l : imageCacheMapType),
    k ∉ l.map Prod.fst → l.lookup k = none := by
  intro l
  induction l with
  | nil => intro _; rfl
  | cons e l ih =>
    intro h
    obtain ⟨k1, v1⟩ := e
    simp only [List.map_cons, List.mem_cons, not_or] at h
    have hne : (k == k1) = false := by simpa using h.1
    simp only [List.lookup, hne]
    exact ih h.2

theorem lookup_of_mem_nodup (k : Str) (v : IIPImage) : ∀ (l : imageCacheMapType),
    (l.map Prod.fst).Nodup → (k, v) ∈ l → l.lookup k = some v := by
  intro l
  induction l with
  | nil => intro _ h; cases h
  | cons e l ih =>
    intro hnd hmem
    obtain ⟨k1, v1⟩ := e
    simp only [List.map_cons, List.nodup_cons] at hnd
    rcases List.mem_cons.mp hmem with h | h
    · cases h
      simp [List.lookup]
    · have hne : (k == k1) = false := by
        have : k ≠ k1 := fun e => hnd.1 (e ▸ List.mem_map_of_mem Prod.fst h)
        simpa using this
      simp only [List.lookup, hne]
      exact ih hnd.2 h

theorem keys_zipWith_cacheEntry : ∀ (qs : List (Env × Str)) (rs : List (Outcome × Session)),
    qs.length = rs.length → (List.zipWith cacheEntry qs rs).map Prod.fst = qs.map keyOf := by
  intro qs
  induction qs with
  | nil => intro rs _; rfl
  | cons q qs ih =>
    intro rs h
    cases rs with
    | nil => cases h
    | cons r rs =>
      simp only [List.zipWith_cons_cons, List.map_cons, List.cons.injEq]
      exact ⟨rfl, ih rs (by simpa using h)⟩


theorem lookup_append_single_none (c : imageCacheMapType) (k k1 : Str) (v : IIPImage)
    (h : c.lookup k = none) (hne : k ≠ k1) : (c ++ [(k1, v)]).lookup k = none := by
  induction c with
  | nil =>
    have : (k == k1) = false := by simpa using hne
    simp [List.lookup, this]
  | cons e c ih =>
    obtain ⟨k2, v2⟩ := e
    cases hb : (k == k2) with
    | true => simp [List.lookup, hb] at h
    | false =>
      simp only [List.lookup, hb] at h
      simp only [List.cons_append, List.lookup, hb]
      exact ih h

/-- First in, first out: after a run of successful requests for pairwise
distinct paths that are not in the cache, the cache holds the newest
`MAXIMAGECACHE` of the old entries followed by the new ones. -/
theorem runLast_fifo : ∀ (reqs : List (Env × Str)) (s : Session),
    s.imageCache.length ≤ MAXIMAGECACHE →
    (∀ r ∈ runAll s reqs, r.1 = .returned ∨ r.1 = .threwInt 304) →
    (reqs.map keyOf).Nodup →
    (∀ q ∈ reqs, cacheFind s.imageCache (keyOf q) = none) →
    (runLast s reqs).imageCache
      = (s.imageCache ++ List.zipWith cacheEntry reqs (runAll s reqs)).drop
          (s.imageCache.length + reqs.length - MAXIMAGECACHE) := by
  intro reqs
  induction reqs with
  | nil =>
    intro s hlen _ _ _
    have : s.imageCache.length - MAXIMAGECACHE = 0 := Nat.sub_eq_zero_of_le hlen
    simp [runLast, runAll, this]
  | cons q qs ih =>
    intro s hlen hok hnd hmiss
    obtain ⟨env, src⟩ := q
    have hrun : run env s src = runArgument env s (keyOf (env, src)) :=
      run_eq_runArgument (env, src) s
    have hok0 := hok (run env s src) (by simp [runAll])
    have hmiss0 := hmiss (env, src) (List.mem_cons_self _ _)
    rw [hrun] at hok0
    obtain ⟨image, himg, hcache⟩ := runArgument_miss env s _ hmiss0 hok0
    rw [← hrun] at himg hcache
    simp only [List.map_cons, List.nodup_cons] at hnd
    have hlen1 : (run env s src).2.imageCache.length ≤ MAXIMAGECACHE := by
      rw [hrun]; exact runArgument_length_le env s _ hlen
    have hmiss1 : ∀ q ∈ qs, cacheFind (run env s src).2.imageCache (keyOf q) = none := by
      intro q hq
      rw [hcache]
      have hne : keyOf q ≠ keyOf (env, src) := fun e => hnd.1 (e ▸ List.mem_map_of_mem keyOf hq)
      have hq0 := hmiss q (List.mem_cons_of_mem _ hq)
      apply lookup_append_single_none _ _ _ _ _ hne
      split
      · exact lookup_tail_none _ _ hq0
      · exact hq0
    have hih := ih (run env s src).2 hlen1
      (fun r hr => hok r (by simp only [runAll, List.mem_cons]; exact Or.inr hr)) hnd.2 hmiss1
    have hentry : cacheEntry (env, src) (run env s src) = (keyOf (env, src), image) := by
      simp [cacheEntry, himg]
    simp only [runLast, runAll, List.zipWith_cons_cons, hentry]
    rw [hih, hcache]
    by_cases hfull : MAXIMAGECACHE ≤ s.imageCache.length
    · rw [if_pos hfull]
      cases hc : s.imageCache with
      | nil => rw [hc] at hfull; simp [MAXIMAGECACHE] at hfull
      | cons e c =>
        rw [hc] at hlen hfull
        simp only [List.length_cons] at hlen hfull
        simp only [List.tail_cons, List.length_append, List.length_cons, List.length_nil,
          List.cons_append, List.append_assoc, List.nil_append]
        have e1 : c.length + (0 + 1) + qs.length - MAXIMAGECACHE = qs.length := by omega
        have e2 : c.length + 1 + (qs.length + 1) - MAXIMAGECACHE = qs.length + 1 := by omega
        rw [e1, e2, List.drop_succ_cons]
    · rw [if_neg hfull]
      simp only [List.length_append, List.length_cons, List.length_nil, List.append_assoc,
        List.cons_append, List.nil_append]
      have e3 : s.imageCache.length + (0 + 1) + qs.length - MAXIMAGECACHE
          = s.imageCache.length + (qs.length + 1) - MAXIMAGECACHE := by omega
      rw [e3]

theorem mem_zipWith_of_mem_zip {α β γ : Type} (f : α → β → γ) : ∀ (l1 : List α) (l2 : List β)
    (a : α) (b : β), (a, b) ∈ List.zip l1 l2 → f a b ∈ List.zipWith f l1 l2 := by
  intro l1
  induction l1 with
  | nil => intro l2 a b h; simp at h
  | cons x l1 ih =>
    intro l2 a b h
    cases l2 with
    | nil => simp at h
    | cons y l2 =>
      simp only [List.zip_cons_cons, List.mem_cons, Prod.mk.injEq] at h
      simp only [List.zipWith_cons_cons, List.mem_cons]
      rcases h with ⟨rfl, rfl⟩ | h
      · exact Or.inl rfl
      · exact Or.inr (ih l2 a b h)

theorem run_ok_image (env : Env) (s : Session) (src : Str)
    (h : (run env s src).1 = .returned ∨ (run env s src).1 = .threwInt 304) :
    ∃ image, (run env s src).2.image = some image := by
  have hrun := run_eq_runArgument (env, src) s
  simp only at hrun
  rw [hrun] at h ⊢
  obtain ⟨image, s2, ht⟩ := runArgument_ok env s _ h
  rw [runArgument_image]
  rcases tryBlock_cases env s (keyOf (env, src)) with ⟨m, s3, h3, _⟩ | ⟨i, s3, h3, _, hi, _⟩
  · rw [h3] at ht; cases ht
  · rw [h3]; exact ⟨i, hi⟩

theorem mem_runAll : ∀ (reqs : List (Env × Str)) (s : Session) (r : Outcome × Session),
    r ∈ runAll s reqs → ∃ env s1 src, r = run env s1 src := by
  intro reqs
  induction reqs with
  | nil => intro s r h; simp [runAll] at h
  | cons q qs ih =>
    intro s r h
    obtain ⟨env, src⟩ := q
    simp only [runAll, List.mem_cons] at h
    rcases h with h | h
    · exact ⟨env, s, src, h⟩
    · exact ih _ r h

/-! ## The image cache and the conditional request: claims C6 to C10 -/

/-- C6: starting from an empty cache, after 501 successful requests for 501
pairwise distinct sanitized paths the cache holds exactly 500 entries, the
path of the first request is not found any more, and the path of each of
the other 500 requests is found with the descriptor that its request left
in the session and assigned to the cache. -/
theorem cache_evicts_first_of_501 (session : Session) (first : Env × Str)
    (rest : List (Env × Str))
    (hempty : session.imageCache = [])
    (hlen : rest.length = 500)
    (hdistinct : ((first :: rest).map (fun q => sanitize q.2)).Nodup)
    (hok : ∀ r ∈ runAll session (first :: rest), r.1 = .returned ∨ r.1 = .threwInt 304) :
    (runLast session (first :: rest)).imageCache.length = 500
      ∧ (∃ k, sanitize first.2 = some k
          ∧ cacheFind (runLast session (first :: rest)).imageCache k = none)
      ∧ ∀ p ∈ List.zip rest (runAll session (first :: rest)).tail,
          ∃ k image, sanitize p.1.2 = some k ∧ p.2.2.image = some image
            ∧ cacheFind (runLast session (first :: rest)).imageCache k = some image := by
  have hkeys : ((first :: rest).map keyOf).Nodup := by
    have : (first :: rest).map (fun q => sanitize q.2)
        = ((first :: rest).map keyOf).map some := by
      rw [List.map_map]
      exact List.map_congr_left (fun q _ => sanitize_eq_keyOf q)
    rw [this] at hdistinct
    exact List.Nodup.of_map _ hdistinct
  have hfifo := runLast_fifo (first :: rest) session (by simp [hempty])
    hok hkeys (by intro q _; simp [cacheFind, hempty])
  obtain ⟨env, src⟩ := first
  have hdrop : ([] : imageCacheMapType).length + ((env, src) :: rest).length
      - MAXIMAGECACHE = 1 := by
    simp [hlen, MAXIMAGECACHE]
  rw [hempty, hdrop] at hfifo
  simp only [runAll, List.nil_append, List.zipWith_cons_cons, List.drop_succ_cons,
    List.drop_zero] at hfifo
  simp only [runAll, List.tail_cons]
  rw [hfifo]
  have hl := length_runAll rest (run env session src).2
  have hkz := keys_zipWith_cacheEntry rest (runAll (run env session src).2 rest) hl.symm
  simp only [List.map_cons, List.nodup_cons] at hkeys
  refine ⟨by simp [hl, hlen], ⟨keyOf (env, src), sanitize_eq_keyOf (env, src), ?_⟩, ?_⟩
  · apply lookup_none_of_not_mem
    rw [hkz]
    exact hkeys.1
  · intro p hp
    have hmem2 : p.2 ∈ runAll (run env session src).2 rest := (List.of_mem_zip hp).2
    have hokp := hok p.2 (by simp only [runAll, List.mem_cons]; exact Or.inr hmem2)
    obtain ⟨image, himage⟩ : ∃ image, p.2.2.image = some image := by
      obtain ⟨env1, s1, src1, hr⟩ := mem_runAll _ _ _ hmem2
      rw [hr] at hokp ⊢
      exact run_ok_image env1 s1 src1 hokp
    refine ⟨keyOf p.1, image, sanitize_eq_keyOf p.1, himage, ?_⟩
    apply lookup_of_mem_nodup
    · rw [hkz]; exact hkeys.2
    · have : (keyOf p.1, image) = cacheEntry p.1 p.2 := by simp [cacheEntry, himage]
      rw [this]
      obtain ⟨p1, p2⟩ := p
      exact mem_zipWith_of_mem_zip cacheEntry _ _ _ _ hp


theorem Initialise_exampleEnv (img : IIPImage) :
    Initialise exampleEnv img
      = .ok { img with
          isFile := false, type := "tif".toList, timestamp := 1000,
          horizontalAnglesList := [0], verticalAnglesList := [0] } := by
  rfl

theorem urlDecode_plain : ∀ (s : Str), (∀ c ∈ s, c ≠ '+' ∧ c ≠ '%') → urlDecode s = s := by
  intro s
  induction s with
  | nil => intro _; rfl
  | cons c s ih =>
    intro h
    have hc := h c (List.mem_cons_self _ _)
    rw [urlDecode_other c s hc.1 hc.2, ih (fun d hd => h d (List.mem_cons_of_mem _ hd))]

theorem findIdx_none_of_no_slash : ∀ (s : Str), '/' ∉ s → findIdx "../".toList s = none := by
  intro s
  induction s with
  | nil => intro _; rfl
  | cons c s ih =>
    intro h
    have hp : ("../".toList).isPrefixOf (c :: s) = false := by
      cases hb : ("../".toList).isPrefixOf (c :: s) with
      | false => rfl
      | true =>
        exfalso
        have := (List.isPrefixOf_iff_prefix.mp hb).subset
        exact h (this (by decide))
    have hs := ih (fun hm => h (List.mem_cons_of_mem _ hm))
    simp only [findIdx, hp, hs]
    rfl

theorem sanitize_plain (s : Str) (h : ∀ c ∈ s, c ≠ '+' ∧ c ≠ '%' ∧ c ≠ '/')
    (hlen : s.length < 2 ^ 32 - 1) : sanitize s = some s := by
  have hd : urlDecode s = s := urlDecode_plain s (fun c hc => ⟨(h c hc).1, (h c hc).2.1⟩)
  have hf : findIdx "../".toList s = none :=
    findIdx_none_of_no_slash s (fun hm => (h _ hm).2.2 rfl)
  unfold sanitize
  rw [hd]
  simp only [eraseLoop, find, hf, Option.getD_none, npos]
  have : ¬ ((2 ^ 64 - 1) % 2 ^ 32 < s.length) := by
    have e : (2 ^ 64 - 1) % 2 ^ 32 = 2 ^ 32 - 1 := by norm_num
    rw [e]; omega
  rw [if_neg this]

theorem sanitize_examplePath (i : Nat) (h : i < 1000) :
    sanitize (examplePath i) = some (examplePath i) := by
  apply sanitize_plain
  · intro c hc
    have : c = 'a' := List.eq_of_mem_replicate hc
    subst this
    decide
  · simp only [examplePath, List.length_replicate]
    have : (1001 : Nat) < 2 ^ 32 - 1 := by norm_num
    omega

theorem examplePath_injective : Function.Injective examplePath := by
  intro i j h
  have := congrArg List.length h
  simpa [examplePath] using this


theorem mem_cacheAssign (c : imageCacheMapType) (k : Str) (v : IIPImage) (e : Str × IIPImage)
    (h : e ∈ cacheAssign c k v) : e ∈ c ∨ e.2 = v := by
  unfold cacheAssign at h
  split at h
  · obtain ⟨e0, he0, rfl⟩ := List.mem_map.mp h
    split
    · exact Or.inr rfl
    · exact Or.inl he0
  · rcases List.mem_append.mp h with h | h
    · exact Or.inl h
    · simp only [List.mem_singleton] at h
      exact Or.inr (by rw [h])

theorem mem_of_lookup_some (k : Str) (v : IIPImage) : ∀ (l : imageCacheMapType),
    l.lookup k = some v → (k, v) ∈ l := by
  intro l
  induction l with
  | nil => intro h; cases h
  | cons e l ih =>
    intro h
    obtain ⟨k1, v1⟩ := e
    cases hb : (k == k1) with
    | true =>
      simp only [List.lookup, hb] at h
      have : k = k1 := by simpa using hb
      cases h
      rw [this]
      exact List.mem_cons_self _ _
    | false =>
      simp only [List.lookup, hb] at h
      exact List.mem_cons_of_mem _ (ih h)

/-- The cache look-up where `Initialise` succeeds on the path. -/
theorem lookupImage_of_Initialise (env : Env) (s : Session) (k : Str) (built : IIPImage)
    (h : Initialise env
      { IIPImage.ofPath k with
        fileNamePattern := env.fileNamePattern
        fileSystemPrefix := env.fileSystemPrefix } = .ok built) :
    lookupImage env s k
      = match cacheFind s.imageCache k with
        | some test => (.ok test, s)
        | none =>
          (.ok built,
            { s with
              initialiseCalls := s.initialiseCalls + 1
              imageCache := if MAXIMAGECACHE ≤ s.imageCache.length
                then cacheEraseBegin s.imageCache else s.imageCache }) := by
  unfold lookupImage buildImage
  rw [h]
  by_cases he : s.imageCache.isEmpty = true
  · have hnil : s.imageCache = [] := by simpa using he
    rw [if_pos he]
    have hf : cacheFind s.imageCache k = none := by simp [cacheFind, hnil]
    have hm : ¬ MAXIMAGECACHE ≤ s.imageCache.length := by simp [hnil, MAXIMAGECACHE]
    rw [hf]
    simp only [if_neg hm]
  · rw [if_neg he]
    cases hf : cacheFind s.imageCache k with
    | some test => rfl
    | none =>
      simp only
      split <;> rfl

/-- The cache look-up in `exampleEnv`: a miss always builds a descriptor. -/
theorem lookupImage_exampleEnv (s : Session) (k : Str) :
    lookupImage exampleEnv s k
      = match cacheFind s.imageCache k with
        | some test => (.ok test, s)
        | none =>
          (.ok (exampleImage k),
            { s with
              initialiseCalls := s.initialiseCalls + 1
              imageCache := if MAXIMAGECACHE ≤ s.imageCache.length
                then cacheEraseBegin s.imageCache else s.imageCache }) :=
  lookupImage_of_Initialise exampleEnv s k (exampleImage k) rfl

/-- In `exampleEnv` a request on a cache of TIFF descriptors returns, and
leaves a cache of TIFF descriptors. -/
theorem runArgument_exampleEnv (s : Session) (k : Str)
    (hP : ∀ e ∈ s.imageCache, isTiffType (imtypeOf e.2) = true) :
    ((runArgument exampleEnv s k).1 = .returned ∨ (runArgument exampleEnv s k).1 = .threwInt 304)
      ∧ ∀ e ∈ (runArgument exampleEnv s k).2.imageCache, isTiffType (imtypeOf e.2) = true := by
  have key : ∃ test s1, lookupImage exampleEnv s k = (.ok test, s1)
      ∧ isTiffType (imtypeOf test) = true
      ∧ ∀ e ∈ s1.imageCache, isTiffType (imtypeOf e.2) = true := by
    rw [lookupImage_exampleEnv]
    cases hf : cacheFind s.imageCache k with
    | some t =>
      exact ⟨t, s, rfl, hP _ (mem_of_lookup_some k t _ hf), hP⟩
    | none =>
      refine ⟨_, _, rfl, rfl, ?_⟩
      simp only
      intro e he
      split at he
      · exact hP e (List.mem_of_mem_tail he)
      · exact hP e he
  obtain ⟨test, s1, hl, ht, hP1⟩ := key
  have htry : tryBlock exampleEnv s k
      = (.ok test, { s1 with
            image := some test
            imageCache := cacheAssign s1.imageCache k test
            lastModified := some test.timestamp }) := by
    have hsel : selectDecoder exampleEnv.HAVE_KAKADU (imtypeOf test) = some .TPTImage := by
      simp [selectDecoder, ht]
    unfold tryBlock
    rw [hl]
    simp only [hsel]
    rfl
  constructor
  · unfold runArgument
    rw [htry]
    simp only
    split
    · exact Or.inr rfl
    · exact Or.inl rfl
  · rw [runArgument_imageCache, htry]
    intro e he
    rcases mem_cacheAssign _ _ _ _ he with h | h
    · exact hP1 e h
    · rw [h]; exact ht

theorem runAll_exampleEnv : ∀ (reqs : List (Env × Str)) (s : Session),
    (∀ q ∈ reqs, q.1 = exampleEnv) →
    (∀ e ∈ s.imageCache, isTiffType (imtypeOf e.2) = true) →
    ∀ r ∈ runAll s reqs, r.1 = .returned ∨ r.1 = .threwInt 304 := by
  intro reqs
  induction reqs with
  | nil => intro s _ _ r hr; simp [runAll] at hr
  | cons q qs ih =>
    intro s henv hP r hr
    have hq : q.1 = exampleEnv := henv q (List.mem_cons_self _ _)
    obtain ⟨env, src⟩ := q
    simp only at hq
    subst hq
    have hstep := runArgument_exampleEnv s (keyOf (exampleEnv, src)) hP
    rw [← run_eq_runArgument (exampleEnv, src) s] at hstep
    simp only [runAll, List.mem_cons] at hr
    rcases hr with hr | hr
    · rw [hr]; exact hstep.1
    · exact ih _ (fun q hq => henv q (List.mem_cons_of_mem _ hq)) hstep.2 r hr


theorem not_mem_keys_fullCache (k : Str) (h : ∃ c ∈ k, c ≠ 'a') :
    k ∉ fullCache.map Prod.fst := by
  intro hm
  obtain ⟨c, hc, hne⟩ := h
  simp only [fullCache, List.map_map, List.mem_map] at hm
  obtain ⟨i, _, hi⟩ := hm
  simp only [Function.comp, examplePath] at hi
  rw [← hi] at hc
  exact hne (List.eq_of_mem_replicate hc)

theorem length_fullCache : fullCache.length = 500 := by
  simp [fullCache]

theorem cacheFind_fullCache_x : cacheFind fullCache ['x'] = none :=
  lookup_none_of_not_mem ['x'] fullCache
    (not_mem_keys_fullCache ['x'] ⟨'x', List.mem_singleton.mpr rfl, by decide⟩)

theorem imageCache_fullSession : fullSession.imageCache = fullCache := rfl


theorem length_fullSession_le : fullSession.imageCache.length ≤ MAXIMAGECACHE := by
  rw [imageCache_fullSession, length_fullCache]
  decide

/-- C7: for every session whose cache has at most 500 entries and every
request, whatever its outcome, the cache after `FIF::run` has at most 500
entries; and a successful miss on a cache that is at capacity ends with the
old cache minus exactly one entry, its first, followed by the new entry. -/
theorem cache_within_capacity (env : Env) (session : Session) (src : Str)
    (h : session.imageCache.length ≤ MAXIMAGECACHE) :
    (run env session src).2.imageCache.length ≤ MAXIMAGECACHE
      ∧ ∀ argument, sanitize src = some argument →
          MAXIMAGECACHE ≤ session.imageCache.length →
          cacheFind session.imageCache argument = none →
          ((run env session src).1 = .returned ∨ (run env session src).1 = .threwInt 304) →
          ∃ image, (run env session src).2.imageCache
              = session.imageCache.tail ++ [(argument, image)]
            ∧ session.imageCache.tail.length + 1 = session.imageCache.length := by
  have hrun := run_eq_runArgument (env, src) session
  simp only at hrun
  rw [hrun]
  refine ⟨runArgument_length_le env session _ h, ?_⟩
  intro argument hs hfull hmiss hok
  have hk : keyOf (env, src) = argument := by simp [keyOf, hs]
  rw [hk] at hok ⊢
  obtain ⟨image, _, hc⟩ := runArgument_miss env session argument hmiss hok
  rw [if_pos hfull] at hc
  refine ⟨image, hc, ?_⟩
  have : 0 < session.imageCache.length := Nat.lt_of_lt_of_le (by decide) hfull
  rw [List.length_tail]
  omega

/-- Witness of C7: a miss in `exampleEnv` on the full example cache. -/
theorem cache_within_capacity_witness :
    fullSession.imageCache.length ≤ MAXIMAGECACHE
      ∧ (run exampleEnv fullSession ['x']).2.imageCache.length ≤ MAXIMAGECACHE
      ∧ ∀ argument, sanitize ['x'] = some argument →
          MAXIMAGECACHE ≤ fullSession.imageCache.length →
          cacheFind fullSession.imageCache argument = none →
          ((run exampleEnv fullSession ['x']).1 = .returned
            ∨ (run exampleEnv fullSession ['x']).1 = .threwInt 304) →
          ∃ image, (run exampleEnv fullSession ['x']).2.imageCache
              = fullSession.imageCache.tail ++ [(argument, image)]
            ∧ fullSession.imageCache.tail.length + 1 = fullSession.imageCache.length :=
  ⟨length_fullSession_le,
    cache_within_capacity exampleEnv fullSession ['x'] length_fullSession_le⟩

/-- A miss on a cache at capacity whose descriptor has no supported type. -/
theorem runArgument_unsupported (env : Env) (s : Session) (k : Str) (built : IIPImage)
    (hI : Initialise env
      { IIPImage.ofPath k with
        fileNamePattern := env.fileNamePattern
        fileSystemPrefix := env.fileSystemPrefix } = .ok built)
    (hmiss : cacheFind s.imageCache k = none)
    (hfull : MAXIMAGECACHE ≤ s.imageCache.length)
    (hty : selectDecoder env.HAVE_KAKADU (imtypeOf built) = none) :
    runArgument env s k
      = (.threwString ("Unsupported image type: ".toList ++ imtypeOf built),
          { s with
            initialiseCalls := s.initialiseCalls + 1
            imageCache := cacheEraseBegin s.imageCache
            error := some ("1 3".toList, "FIF".toList) }) := by
  have hl := lookupImage_of_Initialise env s k built hI
  rw [hmiss] at hl
  simp only [if_pos hfull] at hl
  unfold runArgument tryBlock
  rw [hl]
  simp only [hty]

/-- A miss on a cache at capacity whose image the decoder fails to open. -/
theorem runArgument_open_failed (env : Env) (s : Session) (k : Str) (built : IIPImage)
    (message : Str)
    (hI : Initialise env
      { IIPImage.ofPath k with
        fileNamePattern := env.fileNamePattern
        fileSystemPrefix := env.fileSystemPrefix } = .ok built)
    (hmiss : cacheFind s.imageCache k = none)
    (hfull : MAXIMAGECACHE ≤ s.imageCache.length)
    (decoder : Decoder)
    (hty : selectDecoder env.HAVE_KAKADU (imtypeOf built) = some decoder)
    (ho : env.openImage decoder built = .error message) :
    runArgument env s k
      = (.threwString message,
          { s with
            initialiseCalls := s.initialiseCalls + 1
            imageCache := cacheEraseBegin s.imageCache
            image := some built
            error := some ("1 3".toList, "FIF".toList) }) := by
  have hl := lookupImage_of_Initialise env s k built hI
  rw [hmiss] at hl
  simp only [if_pos hfull] at hl
  unfold runArgument tryBlock
  rw [hl]
  simp only [hty, ho]

theorem length_tail_fullCache : fullCache.tail.length = 499 := by
  rw [List.length_tail, length_fullCache]

/-- C8, the code on a full cache: a request for a path that is not cached,
whose sequence is found but has the unsupported type png, or whose image the
decoder fails to open, throws; the cache it leaves has 499 entries, the
oldest having been erased before the failure. -/
theorem failed_request_evicts_oldest :
    fullSession.imageCache.length = 500
      ∧ (run pngEnv fullSession ['x']).1
          = .threwString "Unsupported image type: png".toList
      ∧ (run pngEnv fullSession ['x']).2.imageCache = fullSession.imageCache.tail
      ∧ (run pngEnv fullSession ['x']).2.imageCache.length = 499
      ∧ (run corruptEnv fullSession ['x']).1 = .threwString "corrupt file".toList
      ∧ (run corruptEnv fullSession ['x']).2.imageCache = fullSession.imageCache.tail
      ∧ (run corruptEnv fullSession ['x']).2.imageCache.length = 499 := by
  have hs : sanitize ['x'] = some ['x'] := by decide
  have hmiss : cacheFind fullSession.imageCache ['x'] = none := by
    rw [imageCache_fullSession]; exact cacheFind_fullCache_x
  have hfull : MAXIMAGECACHE ≤ fullSession.imageCache.length := by
    rw [imageCache_fullSession, length_fullCache]; decide
  have h1 : run pngEnv fullSession ['x'] = _ :=
    (show run pngEnv fullSession ['x'] = runArgument pngEnv fullSession ['x'] by
      unfold run; rw [hs]).trans
    (runArgument_unsupported pngEnv fullSession ['x'] _ rfl hmiss hfull rfl)
  have h2 : run corruptEnv fullSession ['x'] = _ :=
    (show run corruptEnv fullSession ['x'] = runArgument corruptEnv fullSession ['x'] by
      unfold run; rw [hs]).trans
    (runArgument_open_failed corruptEnv fullSession ['x'] _ _ rfl hmiss hfull
      .TPTImage rfl rfl)
  rw [h1, h2]
  simp only [cacheEraseBegin, imageCache_fullSession, length_tail_fullCache, length_fullCache,
    true_and, and_true]
  rfl

/-- C9: on a cache hit the look-up yields the cached descriptor and leaves the
session as it is, and `FIF::run` ends with as many calls of
`IIPImage::Initialise` as it started with. -/
theorem cache_hit_skips_Initialise (env : Env) (session : Session) (src argument : Str)
    (test : IIPImage) (hs : sanitize src = some argument)
    (hhit : cacheFind session.imageCache argument = some test) :
    session.imageCache ≠ []
      ∧ lookupImage env session argument = (.ok test, session)
      ∧ (run env session src).2.initialiseCalls = session.initialiseCalls := by
  have hne : session.imageCache ≠ [] := by
    intro hnil
    rw [hnil] at hhit
    cases hhit
  have hl : lookupImage env session argument = (.ok test, session) := by
    rcases lookupImage_cases env session argument with ⟨t, hf, hl⟩ | ⟨hf, _⟩
    · rw [hhit] at hf; cases hf; exact hl
    · rw [hhit] at hf; cases hf
  refine ⟨hne, hl, ?_⟩
  unfold run
  rw [hs]
  simp only
  rw [runArgument_initialiseCalls]
  rcases tryBlock_cases env session argument with ⟨m, s2, h2, _, _, hc⟩ | ⟨i, s2, h2, _, _, _, hc, _⟩
  · rw [h2]; simp only; rw [hc, hl]
  · rw [h2]; simp only; rw [hc, hl]

/-- Witness of C9: the path b, cached in `conditionalSession`. -/
theorem cache_hit_skips_Initialise_witness :
    sanitize ['b'] = some ['b']
      ∧ cacheFind conditionalSession.imageCache ['b'] = some (exampleImage ['b'])
      ∧ conditionalSession.imageCache ≠ []
      ∧ lookupImage exampleEnv conditionalSession ['b']
          = (.ok (exampleImage ['b']), conditionalSession)
      ∧ (run exampleEnv conditionalSession ['b']).2.initialiseCalls
          = conditionalSession.initialiseCalls :=
  ⟨by decide, by decide,
    cache_hit_skips_Initialise exampleEnv conditionalSession ['b'] ['b'] (exampleImage ['b'])
      (by decide) (by decide)⟩

/-- C10: when the image has been opened, the header HTTP_IF_MODIFIED_SINCE is
present, `strptime` accepts it and `mktime` gives the time R, then `FIF::run`
throws 304 if and only if the time stamp T of the image satisfies T ≤ R, and
with T > R it throws nothing and returns. -/
theorem not_modified_iff (env : Env) (session : Session) (src argument : Str)
    (image : IIPImage) (value : Str) (tm : Tm) (R : Int)
    (hs : sanitize src = some argument)
    (ht : (tryBlock env session argument).1 = .ok image)
    (hh : session.headers.lookup "HTTP_IF_MODIFIED_SINCE".toList = some value)
    (hp : env.strptime value env.uninitialised_tm = (true, tm))
    (hR : env.mktime tm = R) :
    ((run env session src).1 = .threwInt 304 ↔ image.timestamp ≤ R)
      ∧ (R < image.timestamp → (run env session src).1 = .returned) := by
  have hhead := tryBlock_headers env session argument
  unfold run
  rw [hs]
  simp only
  unfold runArgument
  rcases htry : tryBlock env session argument with ⟨r, s1⟩
  rw [htry] at ht hhead
  simp only at ht hhead
  subst ht
  have hn : notModified env s1 image = decide (image.timestamp ≤ R) := by
    unfold notModified
    rw [hhead, hh]
    simp only [hp, hR]
  simp only [hn]
  by_cases hle : image.timestamp ≤ R
  · simp [hle]
  · simp [hle]

/-- Witness of C10: in `exampleEnv` the header parses to the time 2000 and
the cached image b has the time stamp 1000. -/
theorem not_modified_iff_witness :
    sanitize ['b'] = some ['b']
      ∧ (tryBlock exampleEnv conditionalSession ['b']).1 = .ok (exampleImage ['b'])
      ∧ conditionalSession.headers.lookup "HTTP_IF_MODIFIED_SINCE".toList
          = some "Sat, 31 Oct 2026 00:00:00 GMT".toList
      ∧ exampleEnv.strptime "Sat, 31 Oct 2026 00:00:00 GMT".toList exampleEnv.uninitialised_tm
          = (true, { exampleTm with tm_sec := 2000 })
      ∧ exampleEnv.mktime { exampleTm with tm_sec := 2000 } = 2000
      ∧ ((run exampleEnv conditionalSession ['b']).1 = .threwInt 304
          ↔ (exampleImage ['b']).timestamp ≤ 2000)
      ∧ ((2000 : Int) < (exampleImage ['b']).timestamp
          → (run exampleEnv conditionalSession ['b']).1 = .returned) :=
  ⟨by decide, rfl, by decide, rfl, rfl,
    not_modified_iff exampleEnv conditionalSession ['b'] ['b'] (exampleImage ['b'])
      "Sat, 31 Oct 2026 00:00:00 GMT".toList { exampleTm with tm_sec := 2000 } 2000
      (by decide) rfl (by decide) rfl rfl⟩


theorem nodup_sanitize_exampleRequests :
    (((exampleEnv, examplePath 0) :: exampleRequests 1 500).map
      (fun q => sanitize q.2)).Nodup := by
  have h1 : ((exampleEnv, examplePath 0) :: exampleRequests 1 500).map (fun q => sanitize q.2)
      = (List.range 501).map (fun i => some (examplePath i)) := by
    rw [List.range_succ_eq_map]
    simp only [exampleRequests, List.map_cons, List.map_map]
    rw [sanitize_examplePath 0 (by decide)]
    refine congrArg (List.cons _) (List.map_congr_left ?_)
    intro i hi
    have hi2 := List.mem_range.mp hi
    simp only [Function.comp]
    rw [sanitize_examplePath _ (by omega), Nat.add_comm 1 i]
  rw [h1]
  exact (List.nodup_range 501).map (fun a b h => examplePath_injective (Option.some.inj h))

theorem exampleRequests_ok :
    ∀ r ∈ runAll emptySession ((exampleEnv, examplePath 0) :: exampleRequests 1 500),
      r.1 = .returned ∨ r.1 = .threwInt 304 := by
  apply runAll_exampleEnv
  · intro q hq
    rcases List.mem_cons.mp hq with h | h
    · rw [h]
    · simp only [exampleRequests, List.mem_map] at h
      obtain ⟨i, _, hi⟩ := h
      rw [← hi]
  · intro e he
    simp [emptySession] at he

theorem length_exampleRequests (lo n : Nat) : (exampleRequests lo n).length = n := by
  simp [exampleRequests]

/-- Witness of C6: the 501 example paths, requested in `exampleEnv` on an
empty cache. -/
theorem cache_evicts_first_of_501_witness :
    emptySession.imageCache = []
      ∧ (exampleRequests 1 500).length = 500
      ∧ (((exampleEnv, examplePath 0) :: exampleRequests 1 500).map
          (fun q => sanitize q.2)).Nodup
      ∧ (∀ r ∈ runAll emptySession ((exampleEnv, examplePath 0) :: exampleRequests 1 500),
          r.1 = .returned ∨ r.1 = .threwInt 304)
      ∧ (runLast emptySession
            ((exampleEnv, examplePath 0) :: exampleRequests 1 500)).imageCache.length = 500
      ∧ (∃ k, sanitize (exampleEnv, examplePath 0).2 = some k
          ∧ cacheFind (runLast emptySession
              ((exampleEnv, examplePath 0) :: exampleRequests 1 500)).imageCache k = none)
      ∧ ∀ p ∈ List.zip (exampleRequests 1 500)
            (runAll emptySession ((exampleEnv, examplePath 0) :: exampleRequests 1 500)).tail,
          ∃ k image, sanitize p.1.2 = some k ∧ p.2.2.image = some image
            ∧ cacheFind (runLast emptySession
                ((exampleEnv, examplePath 0) :: exampleRequests 1 500)).imageCache k
              = some image :=
  ⟨rfl, length_exampleRequests 1 500, nodup_sanitize_exampleRequests, exampleRequests_ok,
    cache_evicts_first_of_501 emptySession (exampleEnv, examplePath 0) (exampleRequests 1 500)
      rfl (length_exampleRequests 1 500) nodup_sanitize_exampleRequests exampleRequests_ok⟩

/-! ## View angles, unparsable dates and the decoder dispatch: claims C11 to C13 -/

/-- C11, as stated, fails: in `exampleEnv` the request for the cached path b
with a conditional header ends with 304, and the view angles are still the
(30, 60) that the session had before the call. -/
theorem not_modified_keeps_view_angles :
    (run exampleEnv conditionalSession ['b']).1 = .threwInt 304
      ∧ (run exampleEnv conditionalSession ['b']).2.xangle = 30
      ∧ (run exampleEnv conditionalSession ['b']).2.yangle = 60 :=
  ⟨by decide, by decide, by decide⟩

/-- C11, amended: when `FIF::run` returns, the view angles are (0, 90); when it
ends in any other way, with the Not-Modified signal or with a failure, the
view angles are the ones the session had before the call. -/
theorem view_angles_after_run (env : Env) (session : Session) (src : Str) :
    ((run env session src).1 = .returned →
        (run env session src).2.xangle = 0 ∧ (run env session src).2.yangle = 90)
      ∧ ((run env session src).1 ≠ .returned →
        (run env session src).2.xangle = session.xangle
          ∧ (run env session src).2.yangle = session.yangle) := by
  have hl : (lookupImage env session (keyOf (env, src))).2.xangle = session.xangle
      ∧ (lookupImage env session (keyOf (env, src))).2.yangle = session.yangle := by
    rcases lookupImage_cases env session (keyOf (env, src)) with
      ⟨t, _, h⟩ | ⟨_, ⟨m, h⟩ | ⟨t, h⟩⟩ <;> rw [h] <;> exact ⟨rfl, rfl⟩
  have ht : (tryBlock env session (keyOf (env, src))).2.xangle = session.xangle
      ∧ (tryBlock env session (keyOf (env, src))).2.yangle = session.yangle := by
    unfold tryBlock
    rcases hlk : lookupImage env session (keyOf (env, src)) with ⟨r, s1⟩
    rw [hlk] at hl
    cases r with
    | error m => exact hl
    | ok test =>
      simp only
      cases selectDecoder env.HAVE_KAKADU (imtypeOf test) with
      | none => exact hl
      | some decoder =>
        simp only
        cases env.openImage decoder test <;> exact hl
  have hrun := run_eq_runArgument (env, src) session
  simp only at hrun
  rw [hrun]
  unfold runArgument
  rcases htb : tryBlock env session (keyOf (env, src)) with ⟨r, s1⟩
  rw [htb] at ht
  cases r with
  | error m => exact ⟨fun h => Outcome.noConfusion h, fun _ => ht⟩
  | ok image =>
    simp only
    split
    · exact ⟨fun h => Outcome.noConfusion h, fun _ => ht⟩
    · exact ⟨fun _ => ⟨rfl, rfl⟩, fun h => absurd rfl h⟩

/-- Witness of C11 (amended): in `exampleEnv` the request for the path b on
the session without headers returns, with the view angles (0, 90). -/
theorem view_angles_after_run_witness :
    (run exampleEnv emptySession ['b']).1 = .returned
      ∧ (run exampleEnv emptySession ['b']).2.xangle = 0
      ∧ (run exampleEnv emptySession ['b']).2.yangle = 90 :=
  ⟨by decide, (view_angles_after_run exampleEnv emptySession ['b']).1 (by decide)⟩

/-- C12, the code in `badDateEnv`: the header is present, `strptime` rejects
it and leaves `mod_t` uninitialised, `mktime` turns that content into the
time 5000, and the request for the cached image b, time stamp 1000, ends
with 304. -/
theorem unparsed_date_raises_not_modified :
    badDateSession.headers.lookup "HTTP_IF_MODIFIED_SINCE".toList = some "yesterday".toList
      ∧ (badDateEnv.strptime "yesterday".toList badDateEnv.uninitialised_tm).1 = false
      ∧ (run badDateEnv badDateSession ['b']).1 = .threwInt 304 :=
  ⟨by decide, rfl, by decide⟩

/-- C13: the decoder is a function of the lower-cased suffix and the build
alone; a lower-cased suffix among tif, tiff, ptif, dat selects `TPTImage` in
every build, so that "TIF" and "tif" select the same decoder; and in a build
without `HAVE_KAKADU` a request whose descriptor has any other suffix throws
"Unsupported image type: " followed by the lower-cased suffix, with the
response error set to "1 3". -/
theorem decoder_dispatch :
    (∀ (haveKakadu : Bool) (test : IIPImage), imtypeOf test ∈ tiffTypes →
        selectDecoder haveKakadu (imtypeOf test) = some .TPTImage)
      ∧ (∀ (haveKakadu : Bool) (test : IIPImage),
          selectDecoder haveKakadu (imtypeOf { test with type := "TIF".toList })
            = selectDecoder haveKakadu (imtypeOf { test with type := "tif".toList }))
      ∧ (∀ (env : Env) (session : Session) (src argument : Str) (test : IIPImage),
          env.HAVE_KAKADU = false →
          sanitize src = some argument →
          (lookupImage env session argument).1 = .ok test →
          imtypeOf test ∉ tiffTypes →
          (run env session src).1
              = .threwString ("Unsupported image type: ".toList ++ test.type.map Char.toLower)
            ∧ (run env session src).2.error = some ("1 3".toList, "FIF".toList)) := by
  have hT : ∀ (imtype : Str), imtype ∈ tiffTypes ↔ isTiffType imtype = true := by
    intro imtype
    simp [tiffTypes, isTiffType, or_assoc]
  refine ⟨?_, ?_, ?_⟩
  · intro hk test h
    simp [selectDecoder, (hT _).mp h]
  · intro hk test
    rfl
  · intro env session src argument test hk hs hl hn
    have hsel : selectDecoder env.HAVE_KAKADU (imtypeOf test) = none := by
      have : isTiffType (imtypeOf test) = false := by
        cases h : isTiffType (imtypeOf test) with
        | false => rfl
        | true => exact absurd ((hT _).mpr h) hn
      simp [selectDecoder, this, hk]
    unfold run
    rw [hs]
    simp only
    unfold runArgument tryBlock
    rcases hlk : lookupImage env session argument with ⟨r, s1⟩
    rw [hlk] at hl
    simp only at hl
    subst hl
    simp only [hsel]
    exact ⟨rfl, trivial⟩

/-- Witness of C13: in `pngEnv`, built without `HAVE_KAKADU`, the request for
the path x on an empty cache finds the suffix png. -/
theorem decoder_dispatch_witness :
    (run pngEnv emptySession ['x']).1 = .threwString "Unsupported image type: png".toList
      ∧ (run pngEnv emptySession ['x']).2.error = some ("1 3".toList, "FIF".toList) :=
  decoder_dispatch.2.2 pngEnv emptySession ['x'] ['x']
    { exampleImage ['x'] with type := "png".toList } rfl (by decide) rfl (by decide)


/-! ## Claim C28 -/

theorem lookupImage_branches (env : Env) (session : Session) (argument : Str) :
    lookupImage env session argument
      = if session.imageCache.isEmpty then emptyCacheBranch env session argument
        else match cacheFind session.imageCache argument with
          | some test => (.ok test, session)
          | none => cacheMissBranch env session argument := rfl

theorem tryBlock_eq_tryBlockAfter (env : Env) (session : Session) (argument : Str) :
    tryBlock env session argument
      = tryBlockAfter env argument (lookupImage env session argument) := rfl

theorem runArgument_eq_runAfter (env : Env) (session : Session) (argument : Str) :
    runArgument env session argument = runAfter env (tryBlock env session argument) := rfl

theorem cacheMissBranch_of_empty (env : Env) (session : Session) (argument : Str)
    (h : session.imageCache = []) :
    cacheMissBranch env session argument = emptyCacheBranch env session argument := by
  have hm : ¬ MAXIMAGECACHE ≤ 0 := by decide
  unfold cacheMissBranch emptyCacheBranch buildImage
  cases Initialise env
      { IIPImage.ofPath argument with
        fileNamePattern := env.fileNamePattern
        fileSystemPrefix := env.fileSystemPrefix } with
  | error message => rfl
  | ok test => simp only [h, List.length_nil, if_neg hm]

/-- C28: on a session with an empty cache `FIF::run` takes the branch of
FIF.cc lines 124-130; the miss branch of lines 141-149, run on the same
session, leaves the same descriptor or the same message and the same
session, the cache included, and the rest of `FIF::run` after it ends as
the request itself does. -/
theorem empty_cache_branch_is_miss_branch (env : Env) (session : Session) (argument : Str)
    (h : session.imageCache = []) :
    lookupImage env session argument = emptyCacheBranch env session argument
      ∧ cacheMissBranch env session argument = emptyCacheBranch env session argument
      ∧ runAfter env (tryBlockAfter env argument (cacheMissBranch env session argument))
          = runArgument env session argument := by
  have h1 : lookupImage env session argument = emptyCacheBranch env session argument := by
    rw [lookupImage_branches, h]
    rfl
  have h2 := cacheMissBranch_of_empty env session argument h
  refine ⟨h1, h2, ?_⟩
  rw [runArgument_eq_runAfter, tryBlock_eq_tryBlockAfter, h1, h2]

theorem empty_cache_branch_is_miss_branch_witness :
    lookupImage exampleEnv emptySession (examplePath 0)
        = emptyCacheBranch exampleEnv emptySession (examplePath 0)
      ∧ cacheMissBranch exampleEnv emptySession (examplePath 0)
        = emptyCacheBranch exampleEnv emptySession (examplePath 0)
      ∧ runAfter exampleEnv (tryBlockAfter exampleEnv (examplePath 0)
            (cacheMissBranch exampleEnv emptySession (examplePath 0)))
          = runArgument exampleEnv emptySession (examplePath 0) :=
  empty_cache_branch_is_miss_branch exampleEnv emptySession (examplePath 0) rfl

end FIF

namespace Transforms

/-! ### Loops as folds -/

theorem loop_map_put (src : Nat → Nat) (g : Nat → Nat) (l : List Nat) (st : Cursor) :
    loop l (fun k st => st.put (src (g k))) st = copyFrom src (l.map g) st := by
  simp only [loop, copyFrom, List.foldl_map]

theorem loop_copyFrom (src : Nat → Nat) (f : Nat → List Nat) (l : List Nat) :
    ∀ st : Cursor, loop l (fun a st => copyFrom src (f a) st) st
      = copyFrom src (l.flatMap f) st := by
  induction l with
  | nil => intro st; rfl
  | cons a l ih =>
    intro st
    simp only [loop, List.foldl_cons, List.flatMap_cons, copyFrom, List.foldl_append] at ih ⊢
    exact ih _

theorem loop_map_putWithin (g : Nat → Nat) (l : List Nat) (st : Cursor) :
    loop l (fun k st => st.put (st.buffer (g k))) st = copyWithin (l.map g) st := by
  simp only [loop, copyWithin, List.foldl_map]

theorem loop_copyWithin (f : Nat → List Nat) (l : List Nat) :
    ∀ st : Cursor, loop l (fun a st => copyWithin (f a) st) st
      = copyWithin (l.flatMap f) st := by
  induction l with
  | nil => intro st; rfl
  | cons a l ih =>
    intro st
    simp only [loop, List.foldl_cons, List.flatMap_cons, copyWithin, List.foldl_append] at ih ⊢
    exact ih _

/-! ### What a copying loop leaves in the buffer -/

theorem copyFrom_n (src : Nat → Nat) : ∀ (idxs : List Nat) (st : Cursor),
    (copyFrom src idxs st).n = st.n + idxs.length := by
  intro idxs
  induction idxs with
  | nil => intro st; rfl
  | cons r idxs ih =>
    intro st
    simp only [copyFrom, List.foldl_cons, List.length_cons] at ih ⊢
    rw [ih]
    simp only [Cursor.put]
    omega

theorem copyFrom_outside (src : Nat → Nat) : ∀ (idxs : List Nat) (st : Cursor) (m : Nat),
    m < st.n ∨ st.n + idxs.length ≤ m → (copyFrom src idxs st).buffer m = st.buffer m := by
  intro idxs
  induction idxs with
  | nil => intro st m _; rfl
  | cons r idxs ih =>
    intro st m h
    simp only [copyFrom, List.foldl_cons, List.length_cons] at ih h ⊢
    rw [ih (st.put (src r)) m (by simp only [Cursor.put]; omega)]
    simp only [Cursor.put]
    exact Function.update_noteq (by omega) _ _

theorem copyFrom_inside (src : Nat → Nat) : ∀ (idxs : List Nat) (st : Cursor) (t r : Nat),
    idxs[t]? = some r → (copyFrom src idxs st).buffer (st.n + t) = src r := by
  intro idxs
  induction idxs with
  | nil => intro st t r h; simp at h
  | cons r0 idxs ih =>
    intro st t r h
    cases t with
    | zero =>
      simp only [List.getElem?_cons_zero, Option.some.injEq] at h
      subst h
      have := copyFrom_outside src idxs (st.put (src r0)) st.n (Or.inl (by simp [Cursor.put]))
      simp only [copyFrom, List.foldl_cons] at this ⊢
      rw [Nat.add_zero, this]
      simp [Cursor.put]
    | succ t =>
      simp only [List.getElem?_cons_succ] at h
      have := ih (st.put (src r0)) t r h
      simp only [copyFrom, List.foldl_cons] at this ⊢
      have e : (st.put (src r0)).n + t = st.n + (t + 1) := by simp only [Cursor.put]; omega
      rw [← e]
      exact this

theorem copyWithin_n : ∀ (idxs : List Nat) (st : Cursor),
    (copyWithin idxs st).n = st.n + idxs.length := by
  intro idxs
  induction idxs with
  | nil => intro st; rfl
  | cons r idxs ih =>
    intro st
    simp only [copyWithin, List.foldl_cons, List.length_cons] at ih ⊢
    rw [ih]
    simp only [Cursor.put]
    omega

theorem copyWithin_outside : ∀ (idxs : List Nat) (st : Cursor) (m : Nat),
    m < st.n ∨ st.n + idxs.length ≤ m → (copyWithin idxs st).buffer m = st.buffer m := by
  intro idxs
  induction idxs with
  | nil => intro st m _; rfl
  | cons r idxs ih =>
    intro st m h
    simp only [copyWithin, List.foldl_cons, List.length_cons] at ih h ⊢
    rw [ih (st.put (st.buffer r)) m (by simp only [Cursor.put]; omega)]
    simp only [Cursor.put]
    exact Function.update_noteq (by omega) _ _

/-- A loop that copies within one buffer and reads no index that it has
written before leaves, at each index it has written, the value that the
buffer had at the index read for it. -/
theorem copyWithin_inside : ∀ (idxs : List Nat) (st : Cursor),
    (∀ t r, idxs[t]? = some r → st.n + t ≤ r) →
    ∀ t r, idxs[t]? = some r → (copyWithin idxs st).buffer (st.n + t) = st.buffer r := by
  intro idxs
  induction idxs with
  | nil => intro st _ t r h; simp at h
  | cons r0 idxs ih =>
    intro st hahead t r h
    have h0 : st.n ≤ r0 := by simpa using hahead 0 r0 (by simp)
    have hahead1 : ∀ t r, idxs[t]? = some r → (st.put (st.buffer r0)).n + t ≤ r := by
      intro t r ht
      have := hahead (t + 1) r (by simpa using ht)
      simp only [Cursor.put]
      omega
    cases t with
    | zero =>
      simp only [List.getElem?_cons_zero, Option.some.injEq] at h
      subst h
      have := copyWithin_outside idxs (st.put (st.buffer r0)) st.n
        (Or.inl (by simp [Cursor.put]))
      simp only [copyWithin, List.foldl_cons] at this ⊢
      rw [Nat.add_zero, this]
      simp [Cursor.put]
    | succ t =>
      simp only [List.getElem?_cons_succ] at h
      have := ih (st.put (st.buffer r0)) hahead1 t r h
      simp only [copyWithin, List.foldl_cons] at this ⊢
      have e : (st.put (st.buffer r0)).n + t = st.n + (t + 1) := by
        simp only [Cursor.put]; omega
      rw [← e, this]
      simp only [Cursor.put]
      have hr := hahead1 t r h
      simp only [Cursor.put] at hr
      exact Function.update_noteq (by omega) _ _


/-! ### The order in which a loop nest visits its indices -/

theorem length_flatMap_uniform {α β : Type} (f : α → List β) (L : Nat) :
    ∀ (l : List α), (∀ x ∈ l, (f x).length = L) → (l.flatMap f).length = l.length * L := by
  intro l
  induction l with
  | nil => intro _; simp
  | cons x l ih =>
    intro h
    rw [List.flatMap_cons, List.length_append, h x (List.mem_cons_self _ _),
      ih (fun y hy => h y (List.mem_cons_of_mem _ hy)), List.length_cons, Nat.succ_mul]
    omega

/-- In a nest whose inner loop always makes `L` steps, step `r` of the inner
loop in round `a` of the outer loop is step `a * L + r` of the nest. -/
theorem getElem?_flatMap_uniform {α β : Type} (f : α → List β) (L : Nat) :
    ∀ (l : List α), (∀ x ∈ l, (f x).length = L) →
    ∀ (a r : Nat) (x : α), l[a]? = some x → r < L →
      (l.flatMap f)[a * L + r]? = (f x)[r]? := by
  intro l
  induction l with
  | nil => intro _ a r x h; simp at h
  | cons y l ih =>
    intro hL a r x hx hr
    have hy : (f y).length = L := hL y (List.mem_cons_self _ _)
    rw [List.flatMap_cons]
    cases a with
    | zero =>
      simp only [List.getElem?_cons_zero, Option.some.injEq] at hx
      subst hx
      rw [Nat.zero_mul, Nat.zero_add, List.getElem?_append_left (by omega)]
    | succ a =>
      simp only [List.getElem?_cons_succ] at hx
      rw [List.getElem?_append_right (by rw [hy, Nat.succ_mul]; omega)]
      have e : (a + 1) * L + r - (f y).length = a * L + r := by
        rw [hy, Nat.succ_mul]; omega
      rw [e]
      exact ih (fun z hz => hL z (List.mem_cons_of_mem _ hz)) a r x hx hr

theorem length_countUp (lo hi : Nat) : (countUp lo hi).length = hi - lo := by
  simp [countUp]

theorem length_countDown (hi lo : Nat) : (countDown hi lo).length = hi - lo := by
  simp [countDown]

theorem length_countDownFrom (n : Nat) : (countDownFrom n).length = n := by
  simp [countDownFrom]

theorem getElem?_countUp (lo hi t : Nat) (h : t < hi - lo) :
    (countUp lo hi)[t]? = some (lo + t) := by
  simp [countUp, List.getElem?_range', h]

theorem getElem?_countDown (hi lo t : Nat) (h : t < hi - lo) :
    (countDown hi lo)[t]? = some (hi - t) := by
  simp [countDown, List.getElem?_range h]

theorem getElem?_countDownFrom (n t : Nat) (h : t < n) :
    (countDownFrom n)[t]? = some (n - 1 - t) := by
  simp [countDownFrom, List.getElem?_range h]

theorem getElem?_map_countUp (g : Nat → Nat) (n k : Nat) (h : k < n) :
    ((countUp 0 n).map g)[k]? = some (g k) := by
  rw [List.getElem?_map, getElem?_countUp 0 n k (by omega)]
  simp

/-- Every index below `A * B` is `a * B + b` for one row `a < A` and one
column `b < B`. -/
theorem exists_row_col (A B m : Nat) (h : m < A * B) :
    ∃ a b, a < A ∧ b < B ∧ m = a * B + b := by
  have hB : 0 < B := by
    rcases Nat.eq_zero_or_pos B with h0 | h0
    · rw [h0, Nat.mul_zero] at h; omega
    · exact h0
  refine ⟨m / B, m % B, ?_, Nat.mod_lt _ hB, ?_⟩
  · exact Nat.div_lt_of_lt_mul (by rw [Nat.mul_comm]; exact h)
  · rw [Nat.mul_comm]; exact (Nat.div_add_mod m B).symm

theorem hasBranch_iff (t : RawTile) :
    hasBranch t = true ↔ t.bpc = 8 ∨ t.bpc = 16 ∨ t.bpc = 32 := by
  unfold hasBranch
  cases t.sampleType <;> simp <;> tauto


theorem loop_nest2_copyFrom (src : Nat → Nat) (l1 : List Nat) (C : Nat)
    (g : Nat → Nat → Nat) (st : Cursor) :
    loop l1 (fun i => loop (countUp 0 C) (fun k st => st.put (src (g i k)))) st
      = copyFrom src (l1.flatMap (fun i => (countUp 0 C).map (g i))) st := by
  have h : (fun i => loop (countUp 0 C) (fun k st => st.put (src (g i k))))
      = fun i st => copyFrom src ((countUp 0 C).map (g i)) st := by
    funext i st
    exact loop_map_put src (g i) _ st
  rw [h]
  exact loop_copyFrom src _ l1 st

theorem loop_nest3_copyFrom (src : Nat → Nat) (l1 l2 : List Nat) (C : Nat)
    (g : Nat → Nat → Nat → Nat) (st : Cursor) :
    loop l1 (fun i => loop l2 (fun j =>
        loop (countUp 0 C) (fun k st => st.put (src (g i j k))))) st
      = copyFrom src
          (l1.flatMap (fun i => l2.flatMap (fun j => (countUp 0 C).map (g i j)))) st := by
  have h : (fun i => loop l2 (fun j =>
        loop (countUp 0 C) (fun k st => st.put (src (g i j k)))))
      = fun i st => copyFrom src (l2.flatMap (fun j => (countUp 0 C).map (g i j))) st := by
    funext i st
    exact loop_nest2_copyFrom src l2 C (g i) st
  rw [h]
  exact loop_copyFrom src _ l1 st

theorem loop_nest3_copyWithin (l1 l2 : List Nat) (C : Nat)
    (g : Nat → Nat → Nat → Nat) (st : Cursor) :
    loop l1 (fun i => loop l2 (fun j =>
        loop (countUp 0 C) (fun k st => st.put (st.buffer (g i j k))))) st
      = copyWithin
          (l1.flatMap (fun i => l2.flatMap (fun j => (countUp 0 C).map (g i j)))) st := by
  have h2 : ∀ i, (fun j => loop (countUp 0 C) (fun k st => st.put (st.buffer (g i j k))))
      = fun j st => copyWithin ((countUp 0 C).map (g i j)) st := by
    intro i
    funext j st
    exact loop_map_putWithin (g i j) _ st
  have h : (fun i => loop l2 (fun j =>
        loop (countUp 0 C) (fun k st => st.put (st.buffer (g i j k)))))
      = fun i st => copyWithin (l2.flatMap (fun j => (countUp 0 C).map (g i j))) st := by
    funext i st
    rw [h2 i]
    exact loop_copyWithin _ l2 st
  rw [h]
  exact loop_copyWithin _ l1 st

theorem length_nest2 (l1 : List Nat) (C : Nat) (g : Nat → Nat → Nat) :
    (l1.flatMap (fun i => (countUp 0 C).map (g i))).length = l1.length * C :=
  length_flatMap_uniform _ C l1 (fun i _ => by simp [length_countUp])

theorem getElem?_nest2 (l1 : List Nat) (C : Nat) (g : Nat → Nat → Nat)
    (a k i : Nat) (hi : l1[a]? = some i) (hk : k < C) :
    (l1.flatMap (fun i => (countUp 0 C).map (g i)))[a * C + k]? = some (g i k) := by
  rw [getElem?_flatMap_uniform _ C l1 (fun i _ => by simp [length_countUp]) a k i hi hk]
  exact getElem?_map_countUp (g i) C k hk

theorem length_nest3 (l1 l2 : List Nat) (C : Nat) (g : Nat → Nat → Nat → Nat) :
    (l1.flatMap (fun i => l2.flatMap (fun j => (countUp 0 C).map (g i j)))).length
      = l1.length * (l2.length * C) :=
  length_flatMap_uniform _ (l2.length * C) l1 (fun i _ => length_nest2 l2 C (g i))

/-- Step `k` of round `b` of round `a` of a nest of three loops is step
`(a * B + b) * C + k` of the nest. -/
theorem getElem?_nest3 (l1 l2 : List Nat) (C : Nat) (g : Nat → Nat → Nat → Nat)
    (a b k i j : Nat) (hi : l1[a]? = some i) (hj : l2[b]? = some j) (hk : k < C) :
    (l1.flatMap (fun i => l2.flatMap (fun j => (countUp 0 C).map (g i j))))[
        (a * l2.length + b) * C + k]? = some (g i j k) := by
  have hb : b < l2.length := by
    rcases Nat.lt_or_ge b l2.length with h | h
    · exact h
    · rw [List.getElem?_eq_none h] at hj; cases hj
  have e : (a * l2.length + b) * C + k = a * (l2.length * C) + (b * C + k) := by
    rw [Nat.add_mul, Nat.mul_assoc, Nat.add_assoc]
  have hlt : b * C + k < l2.length * C := by
    calc b * C + k < b * C + C := by omega
      _ = (b + 1) * C := by rw [Nat.succ_mul]
      _ ≤ l2.length * C := Nat.mul_le_mul_right C hb
  rw [e, getElem?_flatMap_uniform _ (l2.length * C) l1
    (fun i _ => length_nest2 l2 C (g i)) a (b * C + k) i hi hlt]
  exact getElem?_nest2 l2 C (g i) b k j hj hk


/-! ### Rotation -/

theorem filter_rotate_90 (fresh : Nat → Nat) (t : RawTile) :
    filter_rotate fresh t 90
      = { t with
          data := (rotate90Loop t ⟨0, if hasBranch t then fresh else nullBuffer⟩).buffer
          height := t.width
          width := t.height } := by
  have h1 : (90 : Int).tmod 90 = 0 := by decide
  have h2 : (90 : Int).tmod 360 = 90 := by decide
  have h3 : (90 : Int).tmod 180 = 90 := by decide
  simp [filter_rotate, h1, h2, h3]

theorem filter_rotate_270 (fresh : Nat → Nat) (t : RawTile) :
    filter_rotate fresh t 270
      = { t with
          data := (rotate270Loop t ⟨0, if hasBranch t then fresh else nullBuffer⟩).buffer
          height := t.width
          width := t.height } := by
  have h1 : (270 : Int).tmod 90 = 0 := by decide
  have h2 : (270 : Int).tmod 360 = 270 := by decide
  have h3 : (270 : Int).tmod 180 = 90 := by decide
  simp [filter_rotate, h1, h2, h3]

theorem filter_rotate_180 (fresh : Nat → Nat) (t : RawTile) :
    filter_rotate fresh t 180
      = { t with
          data := (rotate180Loop t ⟨0, if hasBranch t then fresh else nullBuffer⟩).buffer } := by
  have h1 : (180 : Int).tmod 90 = 0 := by decide
  have h2 : (180 : Int).tmod 360 = 180 := by decide
  have h3 : (180 : Int).tmod 180 = 0 := by decide
  simp [filter_rotate, h1, h2, h3]

/-- Rotation by 90: sample `k` of the pixel in row `a`, column `b` of the
result is sample `k` of the pixel in row `height - 1 - b`, column `a` of the
tile. -/
theorem rotate90_data (fresh : Nat → Nat) (t : RawTile) (h : hasBranch t = true)
    (a b k : Nat) (ha : a < t.width) (hb : b < t.height) (hk : k < t.channels) :
    (filter_rotate fresh t 90).data ((a * t.height + b) * t.channels + k)
      = t.data (((t.height - 1 - b) * t.width + a) * t.channels + k) := by
  rw [filter_rotate_90]
  simp only [rotate90Loop, h, if_true]
  rw [loop_nest3_copyFrom t.data (countDown t.width 0) (countDown t.height 0) t.channels
    (fun i j k => (t.width * j - i) * t.channels + k)]
  have hi := getElem?_countDown t.width 0 a (by omega)
  have hj := getElem?_countDown t.height 0 b (by omega)
  have hg := getElem?_nest3 (countDown t.width 0) (countDown t.height 0) t.channels
    (fun i j k => (t.width * j - i) * t.channels + k) a b k _ _ hi hj hk
  rw [length_countDown, Nat.sub_zero] at hg
  have hc := copyFrom_inside t.data _ ⟨0, fresh⟩ _ _ hg
  simp only [Nat.zero_add] at hc
  rw [hc]
  have e : t.width * (t.height - b) - (t.width - a) = (t.height - 1 - b) * t.width + a := by
    have e1 : t.height - b = (t.height - 1 - b) + 1 := by omega
    rw [e1, Nat.mul_succ, Nat.mul_comm t.width]
    omega
  simp only [e]

/-- Rotation by 270: sample `k` of the pixel in row `a`, column `b` of the
result is sample `k` of the pixel in row `b`, column `width - 1 - a` of the
tile. -/
theorem rotate270_data (fresh : Nat → Nat) (t : RawTile) (h : hasBranch t = true)
    (a b k : Nat) (ha : a < t.width) (hb : b < t.height) (hk : k < t.channels) :
    (filter_rotate fresh t 270).data ((a * t.height + b) * t.channels + k)
      = t.data ((b * t.width + (t.width - 1 - a)) * t.channels + k) := by
  rw [filter_rotate_270]
  simp only [rotate270Loop, h, if_true]
  rw [loop_nest3_copyFrom t.data (countDownFrom t.width) (countUp 0 t.height) t.channels
    (fun i j k => (t.width * j + i) * t.channels + k)]
  have hi := getElem?_countDownFrom t.width a ha
  have hj := getElem?_countUp 0 t.height b (by omega)
  have hg := getElem?_nest3 (countDownFrom t.width) (countUp 0 t.height) t.channels
    (fun i j k => (t.width * j + i) * t.channels + k) a b k _ _ hi hj hk
  rw [length_countUp, Nat.sub_zero] at hg
  have hc := copyFrom_inside t.data _ ⟨0, fresh⟩ _ _ hg
  simp only [Nat.zero_add] at hc
  rw [hc, Nat.mul_comm t.width b]

/-- Rotation by 180: sample `k` of pixel `p` of the result is sample `k` of
pixel `width * height - 1 - p` of the tile. -/
theorem rotate180_data (fresh : Nat → Nat) (t : RawTile) (h : hasBranch t = true)
    (p k : Nat) (hp : p < t.width * t.height) (hk : k < t.channels) :
    (filter_rotate fresh t 180).data (p * t.channels + k)
      = t.data ((t.width * t.height - 1 - p) * t.channels + k) := by
  rw [filter_rotate_180]
  simp only [rotate180Loop, h, if_true]
  rw [loop_nest2_copyFrom t.data (countDownFrom (t.width * t.height)) t.channels
    (fun i k => i * t.channels + k)]
  have hi := getElem?_countDownFrom (t.width * t.height) p hp
  have hg := getElem?_nest2 (countDownFrom (t.width * t.height)) t.channels
    (fun i k => i * t.channels + k) p k _ hi hk
  have hc := copyFrom_inside t.data _ ⟨0, fresh⟩ _ _ hg
  simp only [Nat.zero_add] at hc
  rw [hc]


/-! ### Cropping -/

/-- The read indices of `filter_crop`, in the order of the loop nest. -/
theorem filter_crop_data (t : RawTile) (left top right bottom : Nat)
    (h : hasBranch t = true) :
    (filter_crop t left top right bottom).data
      = (copyWithin
          ((countUp top (t.height - bottom)).flatMap (fun i =>
            (countUp left (t.width - right)).flatMap (fun j =>
              (countUp 0 t.channels).map (fun k => (i * t.width + j) * t.channels + k))))
          ⟨0, t.data⟩).buffer := by
  simp only [filter_crop, h, if_true]
  rw [loop_nest3_copyWithin (countUp top (t.height - bottom)) (countUp left (t.width - right))
    t.channels (fun i j k => (i * t.width + j) * t.channels + k)]

theorem crop_index (t : RawTile) (left top right bottom : Nat)
    (r c k : Nat) (hr : r < t.height - top - bottom) (hc : c < t.width - left - right)
    (hk : k < t.channels) :
    ((countUp top (t.height - bottom)).flatMap (fun i =>
        (countUp left (t.width - right)).flatMap (fun j =>
          (countUp 0 t.channels).map (fun k => (i * t.width + j) * t.channels + k))))[
      (r * (t.width - left - right) + c) * t.channels + k]?
      = some (((top + r) * t.width + (left + c)) * t.channels + k) := by
  have hi := getElem?_countUp top (t.height - bottom) r (by omega)
  have hj := getElem?_countUp left (t.width - right) c (by omega)
  have hg := getElem?_nest3 (countUp top (t.height - bottom)) (countUp left (t.width - right))
    t.channels (fun i j k => (i * t.width + j) * t.channels + k) r c k _ _ hi hj hk
  rw [length_countUp] at hg
  have e : t.width - right - left = t.width - left - right := by omega
  rw [e] at hg
  exact hg

/-- No read of `filter_crop` is behind the write made in the same step. -/
theorem crop_reads_ahead (t : RawTile) (left top right bottom : Nat) (m x : Nat)
    (hx : ((countUp top (t.height - bottom)).flatMap (fun i =>
        (countUp left (t.width - right)).flatMap (fun j =>
          (countUp 0 t.channels).map (fun k => (i * t.width + j) * t.channels + k))))[m]?
      = some x) : m ≤ x := by
  have hm : m < (t.height - top - bottom) * ((t.width - left - right) * t.channels) := by
    rcases Nat.lt_or_ge m ((t.height - top - bottom) * ((t.width - left - right) * t.channels))
      with h | h
    · exact h
    · rw [List.getElem?_eq_none] at hx
      · cases hx
      · rw [length_nest3, length_countUp, length_countUp]
        have e1 : t.height - bottom - top = t.height - top - bottom := by omega
        have e2 : t.width - right - left = t.width - left - right := by omega
        rw [e1, e2]
        exact h
  rw [← Nat.mul_assoc] at hm
  obtain ⟨q, k, hq, hk, rfl⟩ := exists_row_col _ _ m hm
  obtain ⟨r, c, hr, hc, rfl⟩ := exists_row_col _ _ q hq
  rw [crop_index t left top right bottom r c k hr hc hk] at hx
  cases hx
  have h1 : r * (t.width - left - right) ≤ r * t.width :=
    Nat.mul_le_mul_left r (by omega)
  have h2 : r * t.width ≤ (top + r) * t.width := Nat.mul_le_mul_right _ (by omega)
  have h3 : r * (t.width - left - right) + c ≤ (top + r) * t.width + (left + c) := by omega
  have h4 := Nat.mul_le_mul_right t.channels h3
  omega


/-! ### Nearest-neighbour resampling -/

theorem loop_map_write (g : Nat → Nat × Nat) (l : List Nat) (buf : Nat → Nat) :
    loop l (fun k buf => Function.update buf (g k).1 (g k).2) buf = writeAll (l.map g) buf := by
  simp only [loop, writeAll, List.foldl_map]

theorem loop_writeAll (f : Nat → List (Nat × Nat)) (l : List Nat) :
    ∀ buf : Nat → Nat, loop l (fun a buf => writeAll (f a) buf) buf
      = writeAll (l.flatMap f) buf := by
  induction l with
  | nil => intro buf; rfl
  | cons a l ih =>
    intro buf
    simp only [loop, List.foldl_cons, List.flatMap_cons, writeAll, List.foldl_append] at ih ⊢
    exact ih _

theorem loop_nest3_writeAll (l1 l2 : List Nat) (C : Nat)
    (g : Nat → Nat → Nat → Nat × Nat) (buf : Nat → Nat) :
    loop l1 (fun j => loop l2 (fun i =>
        loop (countUp 0 C) (fun k buf => Function.update buf (g j i k).1 (g j i k).2))) buf
      = writeAll
          (l1.flatMap (fun j => l2.flatMap (fun i => (countUp 0 C).map (g j i)))) buf := by
  have h2 : ∀ j, (fun i =>
        loop (countUp 0 C) (fun k buf => Function.update buf (g j i k).1 (g j i k).2))
      = fun i buf => writeAll ((countUp 0 C).map (g j i)) buf := by
    intro j
    funext i buf
    exact loop_map_write (g j i) _ buf
  have h : (fun j => loop l2 (fun i =>
        loop (countUp 0 C) (fun k buf => Function.update buf (g j i k).1 (g j i k).2)))
      = fun j buf => writeAll (l2.flatMap (fun i => (countUp 0 C).map (g j i))) buf := by
    funext j buf
    rw [h2 j]
    exact loop_writeAll _ l2 buf
  rw [h]
  exact loop_writeAll _ l1 buf

/-- Where every write of a loop stores the value that `g` gives for its
index, an index that the loop writes ends with the value that `g` gives. -/
theorem writeAll_of_forall (g : Nat → Nat) : ∀ (ws : List (Nat × Nat)),
    (∀ p ∈ ws, p.2 = g p.1) →
    ∀ (buf : Nat → Nat) (m : Nat), (m ∈ ws.map Prod.fst ∨ buf m = g m) →
      writeAll ws buf m = g m := by
  intro ws
  induction ws with
  | nil =>
    intro _ buf m h
    rcases h with h | h
    · simp at h
    · exact h
  | cons p ws ih =>
    intro hg buf m h
    simp only [writeAll, List.foldl_cons] at ih ⊢
    apply ih (fun q hq => hg q (List.mem_cons_of_mem _ hq))
    by_cases hm : m ∈ ws.map Prod.fst
    · exact Or.inl hm
    · right
      by_cases hp : m = p.1
      · rw [hp, Function.update_same]
        exact hg p (List.mem_cons_self _ _)
      · rw [Function.update_noteq hp]
        rcases h with h | h
        · simp only [List.map_cons, List.mem_cons] at h
          rcases h with h | h
          · exact absurd h hp
          · exact absurd h hm
        · exact h

theorem mem_countUp (lo hi x : Nat) : x ∈ countUp lo hi ↔ lo ≤ x ∧ x < hi := by
  simp only [countUp, List.mem_range'_1]
  omega

/-- The buffer that `filter_interpolate_nearestneighbour` fills, as one list of writes. -/
theorem nearest_data (fresh : Nat → Nat) (t : RawTile) (rw rh : Nat)
    (h : t.bpc = 8 ∨ t.bpc = 16 ∨ t.bpc = 32) (hw : rw ≠ 0) (hh : rh ≠ 0) :
    filter_interpolate_nearestneighbour fresh t rw rh
      = some
        { t with
          data := writeAll
            ((countUp 0 rh).flatMap (fun j => (countUp 0 rw).flatMap (fun i =>
              (countUp 0 t.channels).map (fun k =>
                ((i + j * rw) * t.channels + k,
                  t.data (t.channels
                      * (((i * ((t.width <<< 16) % 2 ^ 32 / rw)) % 2 ^ 32) >>> 16
                        + (((j * ((t.height <<< 16) % 2 ^ 32 / rh)) % 2 ^ 32) >>> 16) * t.width)
                    + k)))))) fresh
          memoryManaged := true
          width := rw
          height := rh
          dataLength := rw * rh * t.channels * t.bpc / 8 } := by
  have hs : (decide (t.bpc = 8) || decide (t.bpc = 16) || decide (t.bpc = 32)) = true := by
    rcases h with h | h | h <;> simp [h]
  have hz : ¬ (rw = 0 ∨ rh = 0) := by simp [hw, hh]
  simp only [filter_interpolate_nearestneighbour, hz, if_false, hs, if_true]
  rw [← loop_nest3_writeAll (countUp 0 rh) (countUp 0 rw) t.channels
    (fun j i k => ((i + j * rw) * t.channels + k,
      t.data (t.channels
          * (((i * ((t.width <<< 16) % 2 ^ 32 / rw)) % 2 ^ 32) >>> 16
            + (((j * ((t.height <<< 16) % 2 ^ 32 / rh)) % 2 ^ 32) >>> 16) * t.width)
        + k)))]


theorem scale_identity (w i : Nat) (hw : 0 < w) (hw2 : w ≤ 65535) (hi : i < w) :
    ((i * ((w <<< 16) % 2 ^ 32 / w)) % 2 ^ 32) >>> 16 = i := by
  have e1 : w <<< 16 = 65536 * w := by rw [Nat.shiftLeft_eq]; omega
  have e2 : (65536 * w) % 2 ^ 32 = 65536 * w := Nat.mod_eq_of_lt (by norm_num; omega)
  have e3 : 65536 * w / w = 65536 := Nat.mul_div_cancel _ hw
  rw [e1, e2, e3, Nat.mod_eq_of_lt (by norm_num; omega), Nat.shiftRight_eq_div_pow]
  norm_num

/-- Resampling to the size of the tile itself, for sizes from 1 to 65535:
every sample of the result is the sample of the tile at the same index. -/
theorem nearest_same_size_data (fresh : Nat → Nat) (t : RawTile)
    (hw : 1 ≤ t.width) (hw2 : t.width ≤ 65535) (hh : 1 ≤ t.height) (hh2 : t.height ≤ 65535)
    (m : Nat) (hm : m < t.width * t.height * t.channels) :
    writeAll
        ((countUp 0 t.height).flatMap (fun j => (countUp 0 t.width).flatMap (fun i =>
          (countUp 0 t.channels).map (fun k =>
            ((i + j * t.width) * t.channels + k,
              t.data (t.channels
                  * (((i * ((t.width <<< 16) % 2 ^ 32 / t.width)) % 2 ^ 32) >>> 16
                    + (((j * ((t.height <<< 16) % 2 ^ 32 / t.height)) % 2 ^ 32) >>> 16)
                      * t.width)
                + k)))))) fresh m
      = t.data m := by
  apply writeAll_of_forall t.data
  · intro p hp
    simp only [List.mem_flatMap, List.mem_map, mem_countUp] at hp
    obtain ⟨j, ⟨_, hj⟩, i, ⟨_, hi⟩, k, _, rfl⟩ := hp
    simp only
    rw [scale_identity t.width i (by omega) hw2 hi,
      scale_identity t.height j (by omega) hh2 hj, Nat.mul_comm t.channels]
  · left
    rw [Nat.mul_comm t.width t.height] at hm
    obtain ⟨q, k, hq, hk, rfl⟩ := exists_row_col _ _ m hm
    obtain ⟨j, i, hj, hi, rfl⟩ := exists_row_col _ _ q hq
    simp only [List.mem_map, List.mem_flatMap, mem_countUp, Prod.exists]
    refine ⟨_, _, ⟨j, ⟨Nat.zero_le _, hj⟩, i, ⟨Nat.zero_le _, hi⟩, k, ⟨Nat.zero_le _, hk⟩, rfl⟩,
      ?_⟩
    rw [Nat.add_comm i]

/-! ### Claims C14 to C20 -/

/-- C14, the code: `filter_crop` never assigns `dataLength`; on the 3 by 2
example tile with the margins left 1 and right 1 it leaves width 1 and
height 2, as the claim says, and the byte length 6 of the uncropped tile,
where the invariant asks for 2. -/
theorem crop_keeps_dataLength :
    (∀ (t : RawTile) (left top right bottom : Nat),
        (filter_crop t left top right bottom).dataLength = t.dataLength)
      ∧ lengthInvariant exampleTile
      ∧ (filter_crop exampleTile 1 0 1 0).width = 1
      ∧ (filter_crop exampleTile 1 0 1 0).height = 2
      ∧ (filter_crop exampleTile 1 0 1 0).dataLength = 6
      ∧ ¬ lengthInvariant (filter_crop exampleTile 1 0 1 0) := by
  refine ⟨fun _ _ _ _ _ => rfl, ?_, rfl, rfl, rfl, ?_⟩
  · unfold lengthInvariant; decide
  · unfold lengthInvariant; decide

/-- C15: for a tile of bit depth 8, 16 or 32 and margins with
left + right ≤ width and top + bottom ≤ height, after `filter_crop` the
sample at index (r * width' + c) * channels + k is the sample that the tile
had at index ((top + r) * width + left + c) * channels + k, for every row
r < height', column c < width' and channel k. -/
theorem crop_copies_interior (t : RawTile) (left top right bottom : Nat)
    (h : t.bpc = 8 ∨ t.bpc = 16 ∨ t.bpc = 32)
    (_hlr : left + right ≤ t.width) (_htb : top + bottom ≤ t.height)
    (r c k : Nat) (hr : r < (filter_crop t left top right bottom).height)
    (hc : c < (filter_crop t left top right bottom).width) (hk : k < t.channels) :
    (filter_crop t left top right bottom).data
        ((r * (filter_crop t left top right bottom).width + c) * t.channels + k)
      = t.data (((top + r) * t.width + left + c) * t.channels + k) := by
  have hb := (hasBranch_iff t).mpr h
  have hr1 : r < t.height - top - bottom := hr
  have hc1 : c < t.width - left - right := hc
  have hwidth : (filter_crop t left top right bottom).width = t.width - left - right := rfl
  rw [hwidth, filter_crop_data t left top right bottom hb]
  have hidx := crop_index t left top right bottom r c k hr1 hc1 hk
  have := copyWithin_inside _ ⟨0, t.data⟩
    (fun m x hx => by
      simp only [Nat.zero_add]
      exact crop_reads_ahead t left top right bottom m x hx) _ _ hidx
  simp only [Nat.zero_add] at this
  rw [this, Nat.add_assoc]

/-- Witness of C15: the example tile, cropped by one column on the right and
the first row, at row 0, column 1. -/
theorem crop_copies_interior_witness :
    (exampleTile.bpc = 8 ∨ exampleTile.bpc = 16 ∨ exampleTile.bpc = 32)
      ∧ 0 + 1 ≤ exampleTile.width ∧ 1 + 0 ≤ exampleTile.height
      ∧ (filter_crop exampleTile 0 1 1 0).data
          ((0 * (filter_crop exampleTile 0 1 1 0).width + 1) * exampleTile.channels + 0)
        = exampleTile.data (((1 + 0) * exampleTile.width + 0 + 1) * exampleTile.channels + 0) :=
  ⟨Or.inl rfl, by decide, by decide,
    crop_copies_interior exampleTile 0 1 1 0 (Or.inl rfl) (by decide) (by decide) 0 1 0
      (by decide) (by decide) (by decide)⟩

/-- C16: for a tile of bit depth 8, 16 or 32, of any width, height and channel
count, `filter_rotate` by 90 and then by 270 gives back the width, the
height and every sample of the tile. -/
theorem rotate_90_then_270 (fresh1 fresh2 : Nat → Nat) (t : RawTile)
    (h : t.bpc = 8 ∨ t.bpc = 16 ∨ t.bpc = 32) :
    (filter_rotate fresh2 (filter_rotate fresh1 t 90) 270).width = t.width
      ∧ (filter_rotate fresh2 (filter_rotate fresh1 t 90) 270).height = t.height
      ∧ (filter_rotate fresh2 (filter_rotate fresh1 t 90) 270).channels = t.channels
      ∧ (filter_rotate fresh2 (filter_rotate fresh1 t 90) 270).bpc = t.bpc
      ∧ ∀ m, m < t.width * t.height * t.channels →
          (filter_rotate fresh2 (filter_rotate fresh1 t 90) 270).data m = t.data m := by
  have hb := (hasBranch_iff t).mpr h
  have hw1 : (filter_rotate fresh1 t 90).width = t.height := by rw [filter_rotate_90]
  have hh1 : (filter_rotate fresh1 t 90).height = t.width := by rw [filter_rotate_90]
  have hc1 : (filter_rotate fresh1 t 90).channels = t.channels := by rw [filter_rotate_90]
  have hbpc1 : (filter_rotate fresh1 t 90).bpc = t.bpc := by rw [filter_rotate_90]
  have hb1 : hasBranch (filter_rotate fresh1 t 90) = true :=
    (hasBranch_iff _).mpr (by rw [hbpc1]; exact h)
  refine ⟨?_, ?_, ?_, ?_, ?_⟩
  · rw [filter_rotate_270]; exact hh1
  · rw [filter_rotate_270]; exact hw1
  · rw [filter_rotate_270]; exact hc1
  · rw [filter_rotate_270]; exact hbpc1
  · intro m hm
    rw [Nat.mul_comm t.width t.height] at hm
    obtain ⟨q, k, hq, hk, rfl⟩ := exists_row_col _ _ m hm
    obtain ⟨r, c, hr, hc, rfl⟩ := exists_row_col _ _ q hq
    have h270 := rotate270_data fresh2 (filter_rotate fresh1 t 90) hb1 r c k
      (by rw [hw1]; exact hr) (by rw [hh1]; exact hc) (by rw [hc1]; exact hk)
    rw [hw1, hh1, hc1] at h270
    rw [h270]
    have h90 := rotate90_data fresh1 t hb c (t.height - 1 - r) k hc (by omega) hk
    rw [h90]
    have e : t.height - 1 - (t.height - 1 - r) = r := by omega
    rw [e]

/-- Witness of C16: the example tile. -/
theorem rotate_90_then_270_witness :
    (exampleTile.bpc = 8 ∨ exampleTile.bpc = 16 ∨ exampleTile.bpc = 32)
      ∧ (filter_rotate exampleFresh (filter_rotate exampleFresh exampleTile 90) 270).width
          = exampleTile.width
      ∧ (filter_rotate exampleFresh (filter_rotate exampleFresh exampleTile 90) 270).height
          = exampleTile.height
      ∧ (filter_rotate exampleFresh (filter_rotate exampleFresh exampleTile 90) 270).channels
          = exampleTile.channels
      ∧ (filter_rotate exampleFresh (filter_rotate exampleFresh exampleTile 90) 270).bpc
          = exampleTile.bpc
      ∧ ∀ m, m < exampleTile.width * exampleTile.height * exampleTile.channels →
          (filter_rotate exampleFresh (filter_rotate exampleFresh exampleTile 90) 270).data m
            = exampleTile.data m :=
  ⟨Or.inl rfl, rotate_90_then_270 exampleFresh exampleFresh exampleTile (Or.inl rfl)⟩

/-- C17: for a tile of bit depth 8, 16 or 32, `filter_rotate` by 180 leaves
width and height as they are, and pixel p of the result is pixel
width * height - 1 - p of the tile, channel by channel in the same order,
for every p below width * height. -/
theorem rotate_180_reverses (fresh : Nat → Nat) (t : RawTile)
    (h : t.bpc = 8 ∨ t.bpc = 16 ∨ t.bpc = 32) :
    (filter_rotate fresh t 180).width = t.width
      ∧ (filter_rotate fresh t 180).height = t.height
      ∧ ∀ p k, p < t.width * t.height → k < t.channels →
          (filter_rotate fresh t 180).data (p * t.channels + k)
            = t.data ((t.width * t.height - 1 - p) * t.channels + k) := by
  refine ⟨by rw [filter_rotate_180], by rw [filter_rotate_180], ?_⟩
  intro p k hp hk
  exact rotate180_data fresh t ((hasBranch_iff t).mpr h) p k hp hk

/-- Witness of C17: the example tile, whose last pixel becomes the first. -/
theorem rotate_180_reverses_witness :
    (exampleTile.bpc = 8 ∨ exampleTile.bpc = 16 ∨ exampleTile.bpc = 32)
      ∧ (filter_rotate exampleFresh exampleTile 180).data (0 * exampleTile.channels + 0)
        = exampleTile.data
            ((exampleTile.width * exampleTile.height - 1 - 0) * exampleTile.channels + 0) :=
  ⟨Or.inl rfl,
    (rotate_180_reverses exampleFresh exampleTile (Or.inl rfl)).2.2 0 0 (by decide) (by decide)⟩

/-- C18, the code at the angle -90: the guard `(int)angle % 90 == 0 &&
(int)angle % 360 != 0` holds, none of the three branches applies because
-90 % 360 is -90, and the tile is handed the new buffer with nothing
written to it; the pixel data of the example tile are gone. -/
theorem rotate_minus_90_loses_data :
    (-90 : Int).tmod 90 = 0 ∧ (-90 : Int).tmod 360 = -90
      ∧ (∀ (fresh : Nat → Nat) (t : RawTile),
          (filter_rotate fresh t (-90)).data = if hasBranch t then fresh else nullBuffer)
      ∧ exampleTile.data 0 = 1
      ∧ (filter_rotate exampleFresh exampleTile (-90)).data 0 = 99
      ∧ (filter_rotate exampleFresh exampleTile (-90)).width = exampleTile.width
      ∧ (filter_rotate exampleFresh exampleTile (-90)).height = exampleTile.height := by
  have h1 : (-90 : Int).tmod 90 = 0 := by decide
  have h2 : (-90 : Int).tmod 360 = -90 := by decide
  have h3 : (-90 : Int).tmod 180 = -90 := by decide
  have hd : ∀ (fresh : Nat → Nat) (t : RawTile),
      filter_rotate fresh t (-90)
        = { t with data := if hasBranch t then fresh else nullBuffer } := by
    intro fresh t
    simp [filter_rotate, h1, h2, h3]
  refine ⟨h1, h2, fun fresh t => by rw [hd], rfl, ?_, by rw [hd], by rw [hd]⟩
  rw [hd]
  rfl

/-- C19, as stated, fails: on the tile of width 65536 and height 1 the scale
factor `(width << 16) / resampled_width` wraps to 0 and the sample at
index 1 of the result is the sample at index 0 of the tile; and a target
size 0, the size of a tile without pixels, divides by zero. -/
theorem nearest_same_size_wraps :
    (wideTile.bpc = 8 ∨ wideTile.bpc = 16 ∨ wideTile.bpc = 32)
      ∧ (65536 <<< 16) % 2 ^ 32 / 65536 = 0
      ∧ wideTile.data 1 = 1
      ∧ (filter_interpolate_nearestneighbour exampleFresh wideTile
            wideTile.width wideTile.height).map (fun t => t.data 1) = some 0
      ∧ (filter_interpolate_nearestneighbour exampleFresh emptyTile
            emptyTile.width emptyTile.height).isSome = false := by
  refine ⟨Or.inl rfl, by decide, rfl, ?_, rfl⟩
  have hw : wideTile.width = 65536 := rfl
  have hh : wideTile.height = 1 := rfl
  rw [hw, hh, nearest_data exampleFresh wideTile 65536 1 (Or.inl rfl) (by decide) (by decide)]
  simp only [Option.map_some', Option.some.injEq]
  apply writeAll_of_forall (fun _ => 0)
  · intro p hp
    simp only [List.mem_flatMap, List.mem_map, mem_countUp] at hp
    obtain ⟨j, ⟨_, hj⟩, i, ⟨_, hi⟩, k, ⟨_, hk⟩, rfl⟩ := hp
    have hk0 : k = 0 := by
      have : wideTile.channels = 1 := rfl
      omega
    have hj0 : j = 0 := by omega
    have hx : (wideTile.width <<< 16) % 2 ^ 32 / 65536 = 0 := by decide
    subst hk0 hj0
    simp only [hx, Nat.mul_zero, Nat.zero_mul, Nat.zero_mod, Nat.zero_shiftRight, Nat.add_zero]
    rfl
  · left
    simp only [List.mem_map, List.mem_flatMap, mem_countUp, Prod.exists]
    exact ⟨_, _, ⟨0, ⟨Nat.le_refl _, by decide⟩, 1, ⟨by decide, by decide⟩, 0,
      ⟨Nat.le_refl _, by decide⟩, rfl⟩, rfl⟩

/-- C19, amended: for every tile of bit depth 8, 16 or 32 that satisfies the
length invariant and whose width and height lie between 1 and 65535,
`filter_interpolate_nearestneighbour` with the width and height of the tile
as target returns a tile with every sample of the buffer, the width, the
height, the channel count, the bit depth and the byte length unchanged. -/
theorem nearest_same_size (fresh : Nat → Nat) (t : RawTile)
    (h : t.bpc = 8 ∨ t.bpc = 16 ∨ t.bpc = 32) (hinv : lengthInvariant t)
    (hw : 1 ≤ t.width) (hw2 : t.width ≤ 65535) (hh : 1 ≤ t.height) (hh2 : t.height ≤ 65535) :
    ∃ out, filter_interpolate_nearestneighbour fresh t t.width t.height = some out
      ∧ (∀ m, m < t.width * t.height * t.channels → out.data m = t.data m)
      ∧ out.width = t.width ∧ out.height = t.height ∧ out.channels = t.channels
      ∧ out.bpc = t.bpc ∧ out.dataLength = t.dataLength := by
  refine ⟨_, nearest_data fresh t t.width t.height h (by omega) (by omega), ?_, rfl, rfl, rfl,
    rfl, hinv.symm⟩
  intro m hm
  exact nearest_same_size_data fresh t hw hw2 hh hh2 m hm

/-- Witness of C19 (amended): the example tile. -/
theorem nearest_same_size_witness :
    (exampleTile.bpc = 8 ∨ exampleTile.bpc = 16 ∨ exampleTile.bpc = 32)
      ∧ lengthInvariant exampleTile
      ∧ 1 ≤ exampleTile.width ∧ exampleTile.width ≤ 65535
      ∧ 1 ≤ exampleTile.height ∧ exampleTile.height ≤ 65535
      ∧ ∃ out, filter_interpolate_nearestneighbour exampleFresh exampleTile
            exampleTile.width exampleTile.height = some out
          ∧ (∀ m, m < exampleTile.width * exampleTile.height * exampleTile.channels →
              out.data m = exampleTile.data m)
          ∧ out.width = exampleTile.width ∧ out.height = exampleTile.height
          ∧ out.channels = exampleTile.channels
          ∧ out.bpc = exampleTile.bpc ∧ out.dataLength = exampleTile.dataLength :=
  ⟨Or.inl rfl, by unfold lengthInvariant; decide, by decide, by decide, by decide, by decide,
    nearest_same_size exampleFresh exampleTile (Or.inl rfl) (by unfold lengthInvariant; decide)
      (by decide) (by decide) (by decide) (by decide)⟩

/-- C20, the code on a red pixel: the weights 1254097, 2462056 and 478151 over
2^22 are 0.299, 0.587 and 0.114 to six decimals, not the 0.2126, 0.7152 and
0.0722 of the comment above `filter_greyscale`; the pixel (255, 0, 0) gets
the grey level 76, more than 21 levels above 0.2126 * 255. -/
theorem greyscale_red_pixel :
    greyLevel 255 0 0 = 76
      ∧ (filter_greyscale exampleFresh redPixel).data 0 = 76
      ∧ (filter_greyscale exampleFresh redPixel).channels = 1
      ∧ ((greyLevel 255 0 0 : ℚ) - (0.2126 * 255 + 0.7152 * 0 + 0.0722 * 0) > 21)
      ∧ ((1254097 : ℚ) / 2 ^ 22 - 0.299 < 0.000001 ∧ 0.299 - (1254097 : ℚ) / 2 ^ 22 < 0.000001)
      ∧ ((2462056 : ℚ) / 2 ^ 22 - 0.587 < 0.000001 ∧ 0.587 - (2462056 : ℚ) / 2 ^ 22 < 0.000001)
      ∧ ((478151 : ℚ) / 2 ^ 22 - 0.114 < 0.000001
          ∧ 0.114 - (478151 : ℚ) / 2 ^ 22 < 0.000001) := by
  have hg : greyLevel 255 0 0 = 76 := by decide
  refine ⟨hg, by decide, rfl, ?_, ?_, ?_, ?_⟩
  · rw [hg]; norm_num
  · constructor <;> norm_num
  · constructor <;> norm_num
  · constructor <;> norm_num


/-! ### Bounds of the integer arithmetic -/

theorem greyLevel_eq (R G B : Nat) (hR : R ≤ 255) (hG : G ≤ 255) (hB : B ≤ 255) :
    greyLevel R G B = (1254097 * R + 2462056 * G + 478151 * B) / 4194304 := by
  simp only [greyLevel, Nat.shiftRight_eq_div_pow]
  norm_num
  omega

theorem nearest_scaled_lt (w rw i : Nat) (hw : 1 ≤ w) (hi : i < rw) :
    i * ((w <<< 16) % 2 ^ 32 / rw) < w * 65536 := by
  have e1 : w <<< 16 = w * 65536 := by rw [Nat.shiftLeft_eq]
  have h1 : (w <<< 16) % 2 ^ 32 ≤ w * 65536 := by rw [e1]; exact Nat.mod_le _ _
  have h2 : (w <<< 16) % 2 ^ 32 / rw * rw ≤ (w <<< 16) % 2 ^ 32 := Nat.div_mul_le_self _ _
  have h3 : i * ((w <<< 16) % 2 ^ 32 / rw) ≤ (w <<< 16) % 2 ^ 32 / rw * rw := by
    rw [Nat.mul_comm]
    exact Nat.mul_le_mul_left _ (Nat.le_of_lt hi)
  rcases Nat.eq_zero_or_pos ((w <<< 16) % 2 ^ 32 / rw) with h0 | h0
  · rw [h0, Nat.mul_zero]
    omega
  · have h4 : i * ((w <<< 16) % 2 ^ 32 / rw) < rw * ((w <<< 16) % 2 ^ 32 / rw) :=
      Nat.mul_lt_mul_of_pos_right hi h0
    rw [Nat.mul_comm rw] at h4
    omega

/-- The source index of a target index in bounds: the product does not
wrap and the index is on the image. -/
theorem nearest_index_lt (w rw i : Nat) (hw : 1 ≤ w) (hw2 : w ≤ 65535) (hi : i < rw) :
    i * ((w <<< 16) % 2 ^ 32 / rw) < 2 ^ 32
      ∧ ((i * ((w <<< 16) % 2 ^ 32 / rw)) % 2 ^ 32) >>> 16 < w := by
  have h := nearest_scaled_lt w rw i hw hi
  have hlt : i * ((w <<< 16) % 2 ^ 32 / rw) < 2 ^ 32 :=
    Nat.lt_of_lt_of_le h (by omega)
  refine ⟨hlt, ?_⟩
  rw [Nat.mod_eq_of_lt hlt, Nat.shiftRight_eq_div_pow]
  exact Nat.div_lt_of_lt_mul (Nat.lt_of_lt_of_le h (by omega))

/-! ### Claims C29 and C30 -/

/-- C29: for a source of width and height from 1 to 65535 and target sizes
from 1 to 65535, the products `i*xscale` and `j*yscale` of
`filter_interpolate_nearestneighbour` stay below 2^32 for every target
column `i` and row `j`, the source column `ii` is below the width and the
source row `jj` below the height, and the sample read for every channel
`k` is one of the `width*height*channels` samples of the source. -/
theorem nearest_reads_inside (t : RawTile) (rw rh i j k : Nat)
    (hw : 1 ≤ t.width) (hw2 : t.width ≤ 65535) (hh : 1 ≤ t.height) (hh2 : t.height ≤ 65535)
    (_hrw : 1 ≤ rw) (_hrw2 : rw ≤ 65535) (_hrh : 1 ≤ rh) (_hrh2 : rh ≤ 65535)
    (hi : i < rw) (hj : j < rh) (hk : k < t.channels) :
    i * ((t.width <<< 16) % 2 ^ 32 / rw) < 2 ^ 32
      ∧ j * ((t.height <<< 16) % 2 ^ 32 / rh) < 2 ^ 32
      ∧ ((i * ((t.width <<< 16) % 2 ^ 32 / rw)) % 2 ^ 32) >>> 16 < t.width
      ∧ ((j * ((t.height <<< 16) % 2 ^ 32 / rh)) % 2 ^ 32) >>> 16 < t.height
      ∧ t.channels
            * (((i * ((t.width <<< 16) % 2 ^ 32 / rw)) % 2 ^ 32) >>> 16
              + (((j * ((t.height <<< 16) % 2 ^ 32 / rh)) % 2 ^ 32) >>> 16) * t.width)
          + k
          < t.width * t.height * t.channels := by
  obtain ⟨a1, a2⟩ := nearest_index_lt t.width rw i hw hw2 hi
  obtain ⟨b1, b2⟩ := nearest_index_lt t.height rh j hh hh2 hj
  refine ⟨a1, b1, a2, b2, ?_⟩
  generalize ((i * ((t.width <<< 16) % 2 ^ 32 / rw)) % 2 ^ 32) >>> 16 = ii at a2 ⊢
  generalize ((j * ((t.height <<< 16) % 2 ^ 32 / rh)) % 2 ^ 32) >>> 16 = jj at b2 ⊢
  have h1 : ii + jj * t.width + 1 ≤ t.width * t.height := by
    have : (jj + 1) * t.width ≤ t.height * t.width := Nat.mul_le_mul_right _ b2
    rw [Nat.mul_comm t.width t.height]
    rw [Nat.add_mul] at this
    omega
  have h2 : t.channels * (ii + jj * t.width + 1) ≤ t.channels * (t.width * t.height) :=
    Nat.mul_le_mul_left _ h1
  rw [Nat.mul_comm (t.width * t.height)]
  rw [Nat.mul_add, Nat.mul_one] at h2
  omega

theorem nearest_reads_inside_witness :
    1 * ((exampleTile.width <<< 16) % 2 ^ 32 / 2) < 2 ^ 32
      ∧ 4 * ((exampleTile.height <<< 16) % 2 ^ 32 / 5) < 2 ^ 32
      ∧ ((1 * ((exampleTile.width <<< 16) % 2 ^ 32 / 2)) % 2 ^ 32) >>> 16 < exampleTile.width
      ∧ ((4 * ((exampleTile.height <<< 16) % 2 ^ 32 / 5)) % 2 ^ 32) >>> 16 < exampleTile.height
      ∧ exampleTile.channels
            * (((1 * ((exampleTile.width <<< 16) % 2 ^ 32 / 2)) % 2 ^ 32) >>> 16
              + (((4 * ((exampleTile.height <<< 16) % 2 ^ 32 / 5)) % 2 ^ 32) >>> 16)
                * exampleTile.width)
          + 0
          < exampleTile.width * exampleTile.height * exampleTile.channels :=
  nearest_reads_inside exampleTile 2 5 1 4 0 (by decide) (by decide) (by decide) (by decide)
    (by decide) (by decide) (by decide) (by decide) (by decide) (by decide) (by decide)

/-- C30: the three weights of `filter_greyscale` sum to 2^22; for R, G and B
from 0 to 255 the weighted sum is below 2^31 and the grey level lies between
the least and the greatest of the three; a pixel (v, v, v) gives v, and
white gives 255. -/
theorem grey_weights (R G B : Nat) (hR : R ≤ 255) (hG : G ≤ 255) (hB : B ≤ 255) :
    1254097 + 2462056 + 478151 = 2 ^ 22
      ∧ 1254097 * R + 2462056 * G + 478151 * B < 2 ^ 31
      ∧ min R (min G B) ≤ greyLevel R G B
      ∧ greyLevel R G B ≤ max R (max G B)
      ∧ (R = G → G = B → greyLevel R G B = R)
      ∧ greyLevel 255 255 255 = 255 := by
  rw [greyLevel_eq R G B hR hG hB]
  refine ⟨by norm_num, by norm_num; omega, ?_, ?_, ?_, by decide⟩
  · simp only [Nat.min_def]
    split_ifs <;> omega
  · simp only [Nat.max_def]
    split_ifs <;> omega
  · intro h1 h2
    omega

theorem grey_weights_witness :
    1254097 + 2462056 + 478151 = 2 ^ 22
      ∧ 1254097 * 10 + 2462056 * 200 + 478151 * 30 < 2 ^ 31
      ∧ min 10 (min 200 30) ≤ greyLevel 10 200 30
      ∧ greyLevel 10 200 30 ≤ max 10 (max 200 30)
      ∧ (10 = 200 → 200 = 30 → greyLevel 10 200 30 = 10)
      ∧ greyLevel 255 255 255 = 255 :=
  grey_weights 10 200 30 (by decide) (by decide) (by decide)

/-! ### Normalisation -/

theorem mem_countStep (lo hi step x : Nat) (hs : 0 < step) :
    x ∈ countStep lo hi step ↔ ∃ q, x = lo + q * step ∧ x < hi := by
  have key : ∀ q, q < (hi - lo + step - 1) / step ↔ lo + q * step < hi := by
    intro q
    rw [Nat.lt_iff_add_one_le, Nat.le_div_iff_mul_le hs, Nat.add_mul, Nat.one_mul]
    omega
  simp only [countStep, List.mem_map, List.mem_range]
  constructor
  · rintro ⟨q, hq, rfl⟩
    exact ⟨q, rfl, (key q).1 hq⟩
  · rintro ⟨q, rfl, hq⟩
    exact ⟨q, (key q).2 hq, rfl⟩

theorem loop_nest2_writeAll (l1 : List Nat) (f : Nat → List Nat)
    (g : Nat → Nat → Nat × Nat) (buf : Nat → Nat) :
    loop l1 (fun c => loop (f c) (fun n buf => Function.update buf (g c n).1 (g c n).2)) buf
      = writeAll (l1.flatMap (fun c => (f c).map (g c))) buf := by
  have h : (fun c => loop (f c) (fun n buf => Function.update buf (g c n).1 (g c n).2))
      = fun c buf => writeAll ((f c).map (g c)) buf := by
    funext c buf
    exact loop_map_write (g c) _ buf
  rw [h]
  exact loop_writeAll _ l1 buf

/-- What `filter_normalize` leaves in the fields of the tile other than the buffer. -/
theorem filter_normalize_meta (fmt : FloatFormat) (fresh : Nat → Nat) (t : RawTile)
    (max min : Nat → ℚ) :
    (filter_normalize fmt fresh t max min).sampleType = t.sampleType
      ∧ (filter_normalize fmt fresh t max min).width = t.width
      ∧ (filter_normalize fmt fresh t max min).height = t.height
      ∧ (filter_normalize fmt fresh t max min).channels = t.channels
      ∧ (filter_normalize fmt fresh t max min).bpc = 32
      ∧ (filter_normalize fmt fresh t max min).dataLength
          = if t.bpc = 32 ∧ t.sampleType = .FLOATINGPOINT then t.dataLength
            else t.dataLength * 8 / t.bpc * 32 / 8 := by
  unfold filter_normalize
  by_cases h : t.bpc = 32 ∧ t.sampleType = .FLOATINGPOINT
  · simp [h]
  · have h' : (decide (t.bpc = 32) && decide (t.sampleType = .FLOATINGPOINT)) = false := by
      simpa using h
    simp only [h', h, if_false]
    simp

/-- The buffer that `filter_normalize` installs for a tile that is not a
float tile, as one list of writes. -/
theorem normalize_data (fmt : FloatFormat) (fresh : Nat → Nat) (t : RawTile)
    (max min : Nat → ℚ) (h : ¬ (t.bpc = 32 ∧ t.sampleType = .FLOATINGPOINT)) :
    (filter_normalize fmt fresh t max min).data
      = writeAll
          ((countUp 0 t.channels).flatMap (fun c =>
            (countStep c (t.dataLength * 8 / t.bpc) t.channels).map (fun n =>
              (n, fmt.ofFloat (((t.data n : ℚ) - min c)
                * (if |max c - min c| > 1 / 10 ^ 30 then 1 / (max c - min c) else 10 ^ 30))))))
          fresh := by
  have h' : (decide (t.bpc = 32) && decide (t.sampleType = .FLOATINGPOINT)) = false := by
    simpa using h
  simp only [filter_normalize, h', if_false, Bool.false_eq_true]
  exact loop_nest2_writeAll (countUp 0 t.channels)
    (fun c => countStep c (t.dataLength * 8 / t.bpc) t.channels)
    (fun c n => (n, fmt.ofFloat (((t.data n : ℚ) - min c)
      * (if |max c - min c| > 1 / 10 ^ 30 then 1 / (max c - min c) else 10 ^ 30)))) fresh

/-- Every sample of a tile that is not a float tile is written with the
bounds of its own channel `n % channels`. -/
theorem normalize_sample (fmt : FloatFormat) (fresh : Nat → Nat) (t : RawTile)
    (max min : Nat → ℚ) (h : ¬ (t.bpc = 32 ∧ t.sampleType = .FLOATINGPOINT))
    (hc : 0 < t.channels) (n : Nat) (hn : n < t.dataLength * 8 / t.bpc) :
    (filter_normalize fmt fresh t max min).data n
      = fmt.ofFloat (((t.data n : ℚ) - min (n % t.channels))
          * (if |max (n % t.channels) - min (n % t.channels)| > 1 / 10 ^ 30
              then 1 / (max (n % t.channels) - min (n % t.channels)) else 10 ^ 30)) := by
  rw [normalize_data fmt fresh t max min h]
  apply writeAll_of_forall (fun n => fmt.ofFloat (((t.data n : ℚ) - min (n % t.channels))
          * (if |max (n % t.channels) - min (n % t.channels)| > 1 / 10 ^ 30
              then 1 / (max (n % t.channels) - min (n % t.channels)) else 10 ^ 30)))
  · intro p hp
    simp only [List.mem_flatMap, List.mem_map, mem_countUp, mem_countStep _ _ _ _ hc] at hp
    obtain ⟨c, ⟨_, hc1⟩, m, ⟨q, rfl, _⟩, rfl⟩ := hp
    have e : (c + q * t.channels) % t.channels = c := by
      rw [Nat.add_mul_mod_self_right, Nat.mod_eq_of_lt hc1]
    simp only [e]
  · left
    simp only [List.mem_map, List.mem_flatMap, mem_countUp, mem_countStep _ _ _ _ hc,
      Prod.exists]
    refine ⟨n, _, ⟨n % t.channels, ⟨Nat.zero_le _, Nat.mod_lt _ hc⟩, n,
      ⟨n / t.channels, ?_, hn⟩, rfl⟩, rfl⟩
    rw [Nat.mul_comm]
    exact (Nat.mod_add_div n t.channels).symm

/-! ### Claims C21 and C22 -/

/-- C21, the code: `filter_normalize` never assigns `sampleType`. The tile
keeps the sample type it came with, so the 8-bit example tile of 3 by 2
pixels leaves with 32 bits per channel and 24 bytes, as the claim says, and
with the sample type FIXEDPOINT where the claim says floating point. -/
theorem normalize_keeps_sampleType :
    (∀ (fmt : FloatFormat) (fresh : Nat → Nat) (t : RawTile) (max min : Nat → ℚ),
        (filter_normalize fmt fresh t max min).sampleType = t.sampleType)
      ∧ exampleTile.bpc = 8
      ∧ exampleTile.sampleType = .FIXEDPOINT
      ∧ (filter_normalize exactFormat exampleFresh exampleTile
          byteMax byteMin).bpc = 32
      ∧ (filter_normalize exactFormat exampleFresh exampleTile
          byteMax byteMin).dataLength = 24
      ∧ (filter_normalize exactFormat exampleFresh exampleTile
          byteMax byteMin).sampleType = .FIXEDPOINT
      ∧ (filter_normalize exactFormat exampleFresh exampleTile
          byteMax byteMin).sampleType ≠ .FLOATINGPOINT := by
  have hm := fun fmt fresh t max min => filter_normalize_meta fmt fresh t max min
  have he := hm exactFormat exampleFresh exampleTile byteMax byteMin
  refine ⟨fun fmt fresh t max min => (hm fmt fresh t max min).1, rfl, rfl, he.2.2.2.2.1, ?_,
    he.1, ?_⟩
  · rw [he.2.2.2.2.2]
    decide
  · rw [he.1]
    decide

/-- C22: for an 8-bit tile with interleaved channels, a sample `n` of the
tile and bounds of its channel `c = n % channels` with
`|max[c] - min[c]| > 1e-30`, the float that `filter_normalize` stores at
`n` is `(v - min[c]) / (max[c] - min[c])` for the byte `v` at `n`; with
`min[c] = 0` and `max[c] = 255` the byte 255 gives 1 and the byte 0 gives
0. Arithmetic on floats is exact here. -/
theorem normalize_maps_samples (fmt : FloatFormat) (fresh : Nat → Nat) (t : RawTile)
    (max min : Nat → ℚ) (hb : t.bpc = 8) (hc : 0 < t.channels) (n : Nat)
    (hn : n < t.dataLength * 8 / t.bpc)
    (hr : |max (n % t.channels) - min (n % t.channels)| > 1 / 10 ^ 30) :
    fmt.toFloat ((filter_normalize fmt fresh t max min).data n)
        = ((t.data n : ℚ) - min (n % t.channels))
          / (max (n % t.channels) - min (n % t.channels))
      ∧ (min (n % t.channels) = 0 → max (n % t.channels) = 255 → t.data n = 255 →
          fmt.toFloat ((filter_normalize fmt fresh t max min).data n) = 1)
      ∧ (min (n % t.channels) = 0 → max (n % t.channels) = 255 → t.data n = 0 →
          fmt.toFloat ((filter_normalize fmt fresh t max min).data n) = 0) := by
  have h8 : ¬ (t.bpc = 32 ∧ t.sampleType = .FLOATINGPOINT) := by
    rw [hb]
    simp
  have key : fmt.toFloat ((filter_normalize fmt fresh t max min).data n)
      = ((t.data n : ℚ) - min (n % t.channels))
        / (max (n % t.channels) - min (n % t.channels)) := by
    rw [normalize_sample fmt fresh t max min h8 hc n hn, fmt.toFloat_ofFloat, if_pos hr]
    ring
  refine ⟨key, ?_, ?_⟩
  · intro h0 h1 hv
    rw [key, h0, h1, hv]
    norm_num
  · intro h0 h1 hv
    rw [key, h0, h1, hv]
    norm_num

theorem normalize_maps_samples_witness :
    exactFormat.toFloat ((filter_normalize exactFormat exampleFresh bytePixel
          byteMax byteMin).data 1)
        = ((bytePixel.data 1 : ℚ) - byteMin (1 % bytePixel.channels))
          / (byteMax (1 % bytePixel.channels) - byteMin (1 % bytePixel.channels))
      ∧ (byteMin (1 % bytePixel.channels) = 0 → byteMax (1 % bytePixel.channels) = 255 →
          bytePixel.data 1 = 255 →
          exactFormat.toFloat ((filter_normalize exactFormat exampleFresh bytePixel
            byteMax byteMin).data 1) = 1)
      ∧ (byteMin (1 % bytePixel.channels) = 0 → byteMax (1 % bytePixel.channels) = 255 →
          bytePixel.data 1 = 0 →
          exactFormat.toFloat ((filter_normalize exactFormat exampleFresh bytePixel
            byteMax byteMin).data 1) = 0) :=
  normalize_maps_samples exactFormat exampleFresh bytePixel byteMax byteMin
    rfl (by decide) 1 (by decide) (by norm_num [byteMax, byteMin])

/-! ### Colour maps and contrast -/

/-- The buffer that `filter_cmap` installs, as one list of writes. -/
theorem cmap_data (fmt : FloatFormat) (fresh : Nat → Nat) (t : RawTile) (cmap : cmap_type) :
    (filter_cmap fmt fresh t cmap).data
      = writeAll
          ((countUp 0 (t.dataLength * 8 / t.bpc / t.channels)).flatMap (fun n =>
            [(3 * n, fmt.ofFloat (cmapColour cmap (fmt.toFloat (t.data n))).1),
              (3 * n + 1, fmt.ofFloat (cmapColour cmap (fmt.toFloat (t.data n))).2.1),
              (3 * n + 2, fmt.ofFloat (cmapColour cmap (fmt.toFloat (t.data n))).2.2)]))
          fresh := by
  simp only [filter_cmap]
  exact loop_writeAll (fun n =>
    [(3 * n, fmt.ofFloat (cmapColour cmap (fmt.toFloat (t.data n))).1),
      (3 * n + 1, fmt.ofFloat (cmapColour cmap (fmt.toFloat (t.data n))).2.1),
      (3 * n + 2, fmt.ofFloat (cmapColour cmap (fmt.toFloat (t.data n))).2.2)]) _ fresh

/-- The three floats that `filter_cmap` stores for pixel `n` are the colour
of sample `n` of the tile. -/
theorem cmap_pixel (fmt : FloatFormat) (fresh : Nat → Nat) (t : RawTile) (cmap : cmap_type)
    (n : Nat) (hn : n < t.dataLength * 8 / t.bpc / t.channels) :
    pixelOf fmt (filter_cmap fmt fresh t cmap) n = cmapColour cmap (fmt.toFloat (t.data n)) := by
  have key : ∀ m, m / 3 < t.dataLength * 8 / t.bpc / t.channels →
      (filter_cmap fmt fresh t cmap).data m
        = fmt.ofFloat
            (if m % 3 = 0 then (cmapColour cmap (fmt.toFloat (t.data (m / 3)))).1
              else if m % 3 = 1 then (cmapColour cmap (fmt.toFloat (t.data (m / 3)))).2.1
              else (cmapColour cmap (fmt.toFloat (t.data (m / 3)))).2.2) := by
    intro m hm
    rw [cmap_data]
    apply writeAll_of_forall (fun m => fmt.ofFloat
            (if m % 3 = 0 then (cmapColour cmap (fmt.toFloat (t.data (m / 3)))).1
              else if m % 3 = 1 then (cmapColour cmap (fmt.toFloat (t.data (m / 3)))).2.1
              else (cmapColour cmap (fmt.toFloat (t.data (m / 3)))).2.2))
    · intro p hp
      simp only [List.mem_flatMap, List.mem_cons, List.mem_singleton, List.not_mem_nil,
        or_false, mem_countUp] at hp
      obtain ⟨k, _, rfl | rfl | rfl⟩ := hp
      · have e1 : 3 * k % 3 = 0 := by omega
        have e2 : 3 * k / 3 = k := by omega
        simp only [e1, e2, if_true]
      · have e1 : (3 * k + 1) % 3 = 1 := by omega
        have e2 : (3 * k + 1) / 3 = k := by omega
        simp only [e1, e2, if_true, one_ne_zero, if_false]
      · have e1 : (3 * k + 2) % 3 = 2 := by omega
        have e2 : (3 * k + 2) / 3 = k := by omega
        simp only [e1, e2]
        norm_num
    · left
      have hk : m / 3 ∈ countUp 0 (t.dataLength * 8 / t.bpc / t.channels) :=
        (mem_countUp _ _ _).2 ⟨Nat.zero_le _, hm⟩
      have h3 : m % 3 = 0 ∨ m % 3 = 1 ∨ m % 3 = 2 := by omega
      rcases h3 with h3 | h3 | h3
      · refine List.mem_map.2 ⟨(3 * (m / 3), _),
          List.mem_flatMap.2 ⟨m / 3, hk, List.mem_cons_self _ _⟩, ?_⟩
        show 3 * (m / 3) = m
        omega
      · refine List.mem_map.2 ⟨(3 * (m / 3) + 1, _),
          List.mem_flatMap.2 ⟨m / 3, hk, List.mem_cons_of_mem _ (List.mem_cons_self _ _)⟩, ?_⟩
        show 3 * (m / 3) + 1 = m
        omega
      · refine List.mem_map.2 ⟨(3 * (m / 3) + 2, _),
          List.mem_flatMap.2 ⟨m / 3, hk,
            List.mem_cons_of_mem _ (List.mem_cons_of_mem _ (List.mem_cons_self _ _))⟩, ?_⟩
        show 3 * (m / 3) + 2 = m
        omega
  have e0 : 3 * n / 3 = n := by omega
  have e1 : (3 * n + 1) / 3 = n := by omega
  have e2 : (3 * n + 2) / 3 = n := by omega
  have m0 : 3 * n % 3 = 0 := by omega
  have m1 : (3 * n + 1) % 3 = 1 := by omega
  have m2 : (3 * n + 2) % 3 = 2 := by omega
  simp only [pixelOf]
  rw [key (3 * n) (by rw [e0]; exact hn), key (3 * n + 1) (by rw [e1]; exact hn),
    key (3 * n + 2) (by rw [e2]; exact hn)]
  simp only [fmt.toFloat_ofFloat, e0, e1, e2, m0, m1, m2]
  norm_num

/-- The value that `filter_contrast` stores is the truncation of the clamped product. -/
theorem contrastLevel_eq (x c : ℚ) :
    contrastLevel x c = Int.toNat ⌊max 0 (min (x * 255 * c) 255)⌋ := by
  have hmod : ∀ q : ℚ, 0 ≤ q → q ≤ 255 → Int.toNat ⌊q⌋ % 256 = Int.toNat ⌊q⌋ := by
    intro q h0 h1
    apply Nat.mod_eq_of_lt
    have hf : ⌊q⌋ ≤ 255 := by
      have : ⌊q⌋ ≤ ⌊(255 : ℚ)⌋ := Int.floor_mono h1
      simpa using this
    have hf0 : 0 ≤ ⌊q⌋ := Int.floor_nonneg.2 h0
    omega
  simp only [contrastLevel, toUChar]
  by_cases h1 : x * 255 * c < 255
  · by_cases h2 : x * 255 * c < 0
    · rw [if_pos h1, if_pos h2, min_eq_left (le_of_lt h1), max_eq_left (le_of_lt h2)]
      simp
    · rw [if_pos h1, if_neg h2, min_eq_left (le_of_lt h1), max_eq_right (not_lt.1 h2)]
      exact hmod _ (not_lt.1 h2) (le_of_lt h1)
  · rw [if_neg h1, min_eq_right (not_lt.1 h1), max_eq_right (by norm_num)]
    exact hmod _ (by norm_num) (le_refl _)

/-- Every sample of the buffer that `filter_contrast` installs. -/
theorem contrast_sample (fmt : FloatFormat) (fresh : Nat → Nat) (t : RawTile) (c : ℚ)
    (n : Nat) (hn : n < t.dataLength * 8 / t.bpc) :
    (filter_contrast fmt fresh t c).data n = contrastLevel (fmt.toFloat (t.data n)) c := by
  have e : (filter_contrast fmt fresh t c).data
      = writeAll ((countUp 0 (t.dataLength * 8 / t.bpc)).map
          (fun n => (n, contrastLevel (fmt.toFloat (t.data n)) c))) fresh := by
    simp only [filter_contrast]
    exact loop_map_write (fun n => (n, contrastLevel (fmt.toFloat (t.data n)) c)) _ fresh
  rw [e]
  apply writeAll_of_forall (fun n => contrastLevel (fmt.toFloat (t.data n)) c)
  · intro p hp
    simp only [List.mem_map] at hp
    obtain ⟨k, _, rfl⟩ := hp
    rfl
  · left
    simp only [List.mem_map, mem_countUp, Prod.exists]
    exact ⟨n, _, ⟨n, ⟨Nat.zero_le _, hn⟩, rfl⟩, rfl⟩

/-! ### Claims C23 to C26 -/

/-- C23: `case HOT` of `filter_cmap` gives (0,0,0) for the sample 0, (1,1,1)
for the sample 1, (1,0,0) for the sample 1/3 and (1,1,0) for the sample 2/3;
on each of the three segments it is the ramp of that segment, and the ramp
of the segment that ends at a breakpoint takes at the breakpoint the value
that the code gives there; the three floats stored for a pixel are this
colour of its sample. Arithmetic on floats is exact here. -/
theorem hot_breakpoints :
    cmapHOT 0 = (0, 0, 0)
      ∧ cmapHOT 1 = (1, 1, 1)
      ∧ cmapHOT (1 / 3) = (1, 0, 0)
      ∧ cmapHOT (2 / 3) = (1, 1, 0)
      ∧ (∀ v : ℚ, 0 < v → v < 1 / 3 → cmapHOT v = (3 * v, 0, 0))
      ∧ (∀ v : ℚ, 1 / 3 ≤ v → v < 2 / 3 → cmapHOT v = (1, 3 * v - 1, 0))
      ∧ (∀ v : ℚ, 2 / 3 ≤ v → v < 1 → cmapHOT v = (1, 1, 3 * v - 2))
      ∧ ((3 * (1 / 3) : ℚ), (0 : ℚ), (0 : ℚ)) = cmapHOT (1 / 3)
      ∧ ((1 : ℚ), (3 * (2 / 3) - 1 : ℚ), (0 : ℚ)) = cmapHOT (2 / 3)
      ∧ ((1 : ℚ), (1 : ℚ), (3 * 1 - 2 : ℚ)) = cmapHOT 1
      ∧ (∀ (fmt : FloatFormat) (fresh : Nat → Nat) (t : RawTile) (n : Nat),
          n < t.dataLength * 8 / t.bpc / t.channels →
          pixelOf fmt (filter_cmap fmt fresh t .HOT) n = cmapHOT (fmt.toFloat (t.data n))) := by
  refine ⟨?_, ?_, ?_, ?_, ?_, ?_, ?_, ?_, ?_, ?_, ?_⟩
  · simp [cmapHOT]
  · norm_num [cmapHOT, max3]
  · norm_num [cmapHOT, max3]
  · norm_num [cmapHOT, max3]
  · intro v h0 h1
    have a1 : ¬ v > 1 := by linarith
    have a2 : ¬ v ≤ 0 := by linarith
    have a3 : v < max3 := by simpa [max3] using h1
    simp only [cmapHOT, if_neg a1, if_neg a2, if_pos a3]
  · intro v h0 h1
    have a1 : ¬ v > 1 := by linarith
    have a2 : ¬ v ≤ 0 := by linarith
    have a3 : ¬ v < max3 := by simp only [max3]; linarith
    have a4 : v < 2 * max3 := by simp only [max3]; linarith
    simp only [cmapHOT, if_neg a1, if_neg a2, if_neg a3, if_pos a4]
  · intro v h0 h1
    have a1 : ¬ v > 1 := by linarith
    have a2 : ¬ v ≤ 0 := by linarith
    have a3 : ¬ v < max3 := by simp only [max3]; linarith
    have a4 : ¬ v < 2 * max3 := by simp only [max3]; linarith
    simp only [cmapHOT, if_neg a1, if_neg a2, if_neg a3, if_neg a4, if_pos h1]
  · norm_num [cmapHOT, max3]
  · norm_num [cmapHOT, max3]
  · norm_num [cmapHOT, max3]
  · intro fmt fresh t n hn
    exact cmap_pixel fmt fresh t .HOT n hn

/-- C24: for a pixel `n` of the tile with the sample `v`, `filter_cmap`
stores (1,1,1) under HOT and under COLD where `v > 1` and (0,0,0) where
`v <= 0`; under JET it stores (0,0,0) where `v < 0` and (0.5,0,0) where
`v >= 1`. -/
theorem cmap_saturates (fmt : FloatFormat) (fresh : Nat → Nat) (t : RawTile) (n : Nat)
    (hn : n < t.dataLength * 8 / t.bpc / t.channels) :
    (fmt.toFloat (t.data n) > 1 →
        pixelOf fmt (filter_cmap fmt fresh t .HOT) n = (1, 1, 1)
          ∧ pixelOf fmt (filter_cmap fmt fresh t .COLD) n = (1, 1, 1))
      ∧ (fmt.toFloat (t.data n) ≤ 0 →
        pixelOf fmt (filter_cmap fmt fresh t .HOT) n = (0, 0, 0)
          ∧ pixelOf fmt (filter_cmap fmt fresh t .COLD) n = (0, 0, 0))
      ∧ (fmt.toFloat (t.data n) < 0 →
        pixelOf fmt (filter_cmap fmt fresh t .JET) n = (0, 0, 0))
      ∧ (fmt.toFloat (t.data n) ≥ 1 →
        pixelOf fmt (filter_cmap fmt fresh t .JET) n = (1 / 2, 0, 0)) := by
  rw [cmap_pixel fmt fresh t .HOT n hn, cmap_pixel fmt fresh t .COLD n hn,
    cmap_pixel fmt fresh t .JET n hn]
  generalize fmt.toFloat (t.data n) = v
  refine ⟨?_, ?_, ?_, ?_⟩
  · intro h
    simp only [cmapColour, cmapHOT, cmapCOLD, if_pos h, and_self]
  · intro h
    have a1 : ¬ v > 1 := by linarith
    simp only [cmapColour, cmapHOT, cmapCOLD, if_neg a1, if_pos h, and_self]
  · intro h
    simp only [cmapColour, cmapJET, if_pos h]
  · intro h
    have a1 : ¬ v < 0 := by linarith
    have a2 : ¬ v < max8 := by simp only [max8]; linarith
    have a3 : ¬ v < 3 * max8 := by simp only [max8]; linarith
    have a4 : ¬ v < 5 * max8 := by simp only [max8]; linarith
    have a5 : ¬ v < 7 * max8 := by simp only [max8]; linarith
    have a6 : ¬ v < 1 := by linarith
    simp only [cmapColour, cmapJET, if_neg a1, if_neg a2, if_neg a3, if_neg a4, if_neg a5,
      if_neg a6]

theorem cmap_saturates_witness :
    (exactFormat.toFloat ((floatTile exactFormat 2 (-1)).data 0) > 1 →
        pixelOf exactFormat
            (filter_cmap exactFormat exampleFresh (floatTile exactFormat 2 (-1)) .HOT) 0
          = (1, 1, 1)
          ∧ pixelOf exactFormat
            (filter_cmap exactFormat exampleFresh (floatTile exactFormat 2 (-1)) .COLD) 0
          = (1, 1, 1))
      ∧ (exactFormat.toFloat ((floatTile exactFormat 2 (-1)).data 0) ≤ 0 →
        pixelOf exactFormat
            (filter_cmap exactFormat exampleFresh (floatTile exactFormat 2 (-1)) .HOT) 0
          = (0, 0, 0)
          ∧ pixelOf exactFormat
            (filter_cmap exactFormat exampleFresh (floatTile exactFormat 2 (-1)) .COLD) 0
          = (0, 0, 0))
      ∧ (exactFormat.toFloat ((floatTile exactFormat 2 (-1)).data 0) < 0 →
        pixelOf exactFormat
            (filter_cmap exactFormat exampleFresh (floatTile exactFormat 2 (-1)) .JET) 0
          = (0, 0, 0))
      ∧ (exactFormat.toFloat ((floatTile exactFormat 2 (-1)).data 0) ≥ 1 →
        pixelOf exactFormat
            (filter_cmap exactFormat exampleFresh (floatTile exactFormat 2 (-1)) .JET) 0
          = (1 / 2, 0, 0)) :=
  cmap_saturates exactFormat exampleFresh (floatTile exactFormat 2 (-1)) 0 (by decide)

/-- C25: for a sample `n` of the tile with the float `v` and a factor `c`,
`filter_contrast` stores the truncation of `clamp(v*255*c, 0, 255)`: 0 where
the product is negative, 255 where it is 255 or more; the tile leaves with
8 bits per channel and a byte length that is the number of its samples.
Arithmetic on floats is exact here. -/
theorem contrast_clamps (fmt : FloatFormat) (fresh : Nat → Nat) (t : RawTile) (c : ℚ)
    (n : Nat) (hn : n < t.dataLength * 8 / t.bpc) :
    (filter_contrast fmt fresh t c).data n
        = Int.toNat ⌊max 0 (min (fmt.toFloat (t.data n) * 255 * c) 255)⌋
      ∧ (fmt.toFloat (t.data n) * 255 * c < 0 → (filter_contrast fmt fresh t c).data n = 0)
      ∧ (255 ≤ fmt.toFloat (t.data n) * 255 * c →
          (filter_contrast fmt fresh t c).data n = 255)
      ∧ (filter_contrast fmt fresh t c).bpc = 8
      ∧ (filter_contrast fmt fresh t c).dataLength = t.dataLength * 8 / t.bpc := by
  have key := contrast_sample fmt fresh t c n hn
  rw [contrastLevel_eq] at key
  refine ⟨key, ?_, ?_, rfl, ?_⟩
  · intro h
    rw [key, max_eq_left (le_trans (min_le_left _ _) (le_of_lt h))]
    simp
  · intro h
    rw [key, min_eq_right h, max_eq_right (by norm_num)]
    simp
  · simp only [filter_contrast]
    exact Nat.mul_div_cancel _ (by norm_num)

theorem contrast_clamps_witness :
    (filter_contrast exactFormat exampleFresh (floatTile exactFormat (1 / 2) 3) 1).data 0
        = Int.toNat ⌊max 0
            (min (exactFormat.toFloat ((floatTile exactFormat (1 / 2) 3).data 0) * 255 * 1) 255)⌋
      ∧ (exactFormat.toFloat ((floatTile exactFormat (1 / 2) 3).data 0) * 255 * 1 < 0 →
          (filter_contrast exactFormat exampleFresh (floatTile exactFormat (1 / 2) 3) 1).data 0
            = 0)
      ∧ (255 ≤ exactFormat.toFloat ((floatTile exactFormat (1 / 2) 3).data 0) * 255 * 1 →
          (filter_contrast exactFormat exampleFresh (floatTile exactFormat (1 / 2) 3) 1).data 0
            = 255)
      ∧ (filter_contrast exactFormat exampleFresh (floatTile exactFormat (1 / 2) 3) 1).bpc = 8
      ∧ (filter_contrast exactFormat exampleFresh (floatTile exactFormat (1 / 2) 3) 1).dataLength
          = (floatTile exactFormat (1 / 2) 3).dataLength * 8
            / (floatTile exactFormat (1 / 2) 3).bpc :=
  contrast_clamps exactFormat exampleFresh (floatTile exactFormat (1 / 2) 3) 1 0 (by decide)

/-- C26, the code: the branches of `filter_interpolate_bilinear` for 16 and
for 32 bits cast the weighted sum to `unsigned char`, as the branch for 8
bits does, before they store it in `color16` and `color32`. Every sample
that the function stores is below 256; the 16-bit tile of one pixel with
the sample 300, resampled to its own size 1 by 1, keeps 16 bits per channel
and one channel, as the claim says, and leaves with the sample 44 where
the claim says 300. -/
theorem bilinear_truncates_16_bit :
    (∀ (a b c d : Nat) (x_diff y_diff : ℚ), bilinearSample a b c d x_diff y_diff < 256)
      ∧ shortPixel.bpc = 16
      ∧ shortPixel.width = 1
      ∧ shortPixel.height = 1
      ∧ shortPixel.data 0 = 300
      ∧ (filter_interpolate_bilinear exampleFresh shortPixel 1 1).bpc = 16
      ∧ (filter_interpolate_bilinear exampleFresh shortPixel 1 1).channels = 1
      ∧ (filter_interpolate_bilinear exampleFresh shortPixel 1 1).data 0 = 44
      ∧ (filter_interpolate_bilinear exampleFresh shortPixel 1 1).data 0 ≠ shortPixel.data 0 := by
  have h44 : (filter_interpolate_bilinear exampleFresh shortPixel 1 1).data 0 = 44 := by
    simp [filter_interpolate_bilinear, loop, countUp, shortPixel, bufferOf, bilinearSample,
      toUChar, Cursor.put]
  refine ⟨?_, rfl, rfl, rfl, rfl, rfl, rfl, h44, ?_⟩
  · intro a b c d x_diff y_diff
    exact Nat.mod_lt _ (by norm_num)
  · rw [h44]
    decide

/-! ### Claim C27 -/

/-- C27: for a tile of 8, 16 or 32 bits per channel on which
`dataLength = width*height*channels*bpc/8` holds, the equation holds again,
for the new width, height, channels and bits per channel, after
`filter_normalize`, after `filter_shade` on a tile of three channels, after
`filter_cmap` on a tile of one channel, after both resampling functions
for target sizes above 0, after `filter_contrast`, after `filter_rotate`
by 90, 180 and 270, and after `filter_greyscale`. -/
theorem transforms_keep_lengthInvariant (fmt : FloatFormat) (fresh : Nat → Nat) (t : RawTile)
    (hl : lengthInvariant t) (hb : t.bpc = 8 ∨ t.bpc = 16 ∨ t.bpc = 32) :
    (∀ max min, lengthInvariant (filter_normalize fmt fresh t max min))
      ∧ (∀ light h_angle v_angle, t.channels = 3 →
          lengthInvariant (filter_shade fmt fresh light t h_angle v_angle))
      ∧ (∀ cmap, t.channels = 1 → lengthInvariant (filter_cmap fmt fresh t cmap))
      ∧ (∀ rw rh, 0 < rw → 0 < rh →
          ∃ out, filter_interpolate_nearestneighbour fresh t rw rh = some out
            ∧ lengthInvariant out)
      ∧ (∀ rw rh, lengthInvariant (filter_interpolate_bilinear fresh t rw rh))
      ∧ (∀ c, lengthInvariant (filter_contrast fmt fresh t c))
      ∧ lengthInvariant (filter_rotate fresh t 90)
      ∧ lengthInvariant (filter_rotate fresh t 180)
      ∧ lengthInvariant (filter_rotate fresh t 270)
      ∧ lengthInvariant (filter_greyscale fresh t) := by
  simp only [lengthInvariant] at hl
  refine ⟨?_, ?_, ?_, ?_, ?_, ?_, ?_, ?_, ?_, ?_⟩
  · intro max min
    obtain ⟨_, h2, h3, h4, h5, h6⟩ := filter_normalize_meta fmt fresh t max min
    simp only [lengthInvariant, h2, h3, h4, h5, h6]
    generalize t.width * t.height * t.channels = N at hl ⊢
    by_cases hf : t.bpc = 32 ∧ t.sampleType = .FLOATINGPOINT
    · rw [if_pos hf, hl, hf.1]
    · rw [if_neg hf, hl]
      rcases hb with hb | hb | hb <;> rw [hb] <;> omega
  · intro light h_angle v_angle _
    simp only [lengthInvariant, filter_shade, Nat.mul_one]
  · intro cmap hc
    simp only [lengthInvariant, filter_cmap, hl, hc, Nat.mul_one, Nat.div_one]
    generalize t.width * t.height = N
    rcases hb with hb | hb | hb <;> rw [hb] <;> omega
  · intro rw rh hrw hrh
    have hz : ¬ (rw = 0 ∨ rh = 0) := by omega
    simp only [filter_interpolate_nearestneighbour, if_neg hz]
    exact ⟨_, rfl, rfl⟩
  · intro rw rh
    simp only [lengthInvariant, filter_interpolate_bilinear]
  · intro c
    simp only [lengthInvariant, filter_contrast, hl]
    generalize t.width * t.height * t.channels = N
    rcases hb with hb | hb | hb <;> rw [hb] <;> omega
  · rw [filter_rotate_90]
    simp only [lengthInvariant, hl, Nat.mul_comm t.height t.width]
  · rw [filter_rotate_180]
    simp only [lengthInvariant, hl]
  · rw [filter_rotate_270]
    simp only [lengthInvariant, hl, Nat.mul_comm t.height t.width]
  · unfold filter_greyscale
    split_ifs with h
    · simp only [lengthInvariant, hl]
    · have h8 : t.bpc = 8 := by omega
      simp only [lengthInvariant, Nat.mul_one, h8]
      omega

theorem transforms_keep_lengthInvariant_witness :
    (∀ max min, lengthInvariant (filter_normalize exactFormat exampleFresh exampleTile max min))
      ∧ (∀ light h_angle v_angle, exampleTile.channels = 3 →
          lengthInvariant (filter_shade exactFormat exampleFresh light exampleTile
            h_angle v_angle))
      ∧ (∀ cmap, exampleTile.channels = 1 →
          lengthInvariant (filter_cmap exactFormat exampleFresh exampleTile cmap))
      ∧ (∀ rw rh, 0 < rw → 0 < rh →
          ∃ out, filter_interpolate_nearestneighbour exampleFresh exampleTile rw rh = some out
            ∧ lengthInvariant out)
      ∧ (∀ rw rh, lengthInvariant (filter_interpolate_bilinear exampleFresh exampleTile rw rh))
      ∧ (∀ c, lengthInvariant (filter_contrast exactFormat exampleFresh exampleTile c))
      ∧ lengthInvariant (filter_rotate exampleFresh exampleTile 90)
      ∧ lengthInvariant (filter_rotate exampleFresh exampleTile 180)
      ∧ lengthInvariant (filter_rotate exampleFresh exampleTile 270)
      ∧ lengthInvariant (filter_greyscale exampleFresh exampleTile) :=
  transforms_keep_lengthInvariant exactFormat exampleFresh exampleTile
    (by unfold lengthInvariant; decide) (by decide)


/-! ### The two definitions of `filter_rotate` -/

theorem rotate90LoopFirst_eq (t : RawTile) (st : Cursor) (h : hasBranch t = true) :
    rotate90LoopFirst t st = copyFrom t.data (rotate90ReadsFirst t) st := by
  simp only [rotate90LoopFirst, rotate90ReadsFirst, h, if_true]
  exact loop_nest3_copyFrom t.data (countUp 0 t.width) (countDown t.height 0) t.channels
    (fun i j k => (t.width * j + i) * t.channels + k) st

theorem rotate270LoopFirst_eq (t : RawTile) (st : Cursor) (h : hasBranch t = true) :
    rotate270LoopFirst t st = copyFrom t.data (rotate270ReadsFirst t) st := by
  simp only [rotate270LoopFirst, rotate270ReadsFirst, h, if_true]
  exact loop_nest3_copyFrom t.data (countDown t.width 0) (countUp 0 t.height) t.channels
    (fun i j k => (t.width * j + i) * t.channels + k) st

theorem mem_countDown (hi lo x : Nat) : x ∈ countDown hi lo ↔ lo < x ∧ x ≤ hi := by
  simp only [countDown, List.mem_map, List.mem_range]
  constructor
  · rintro ⟨q, hq, rfl⟩
    omega
  · rintro ⟨h1, h2⟩
    exact ⟨hi - x, by omega, by omega⟩

/-- The first sample past the end of the buffer is among the reads of the
branch "Rotate 90" of the first definition. -/
theorem rotate90ReadsFirst_outside (t : RawTile) (hw : 0 < t.width) (hh : 0 < t.height)
    (hc : 0 < t.channels) :
    t.width * t.height * t.channels ∈ rotate90ReadsFirst t := by
  simp only [rotate90ReadsFirst, List.mem_flatMap, List.mem_map, mem_countUp, mem_countDown]
  exact ⟨0, ⟨Nat.le_refl _, hw⟩, t.height, ⟨hh, Nat.le_refl _⟩, 0, ⟨Nat.le_refl _, hc⟩, rfl⟩

/-- The first sample past the end of the buffer is among the reads of the
branch "Rotate 270" of the first definition. -/
theorem rotate270ReadsFirst_outside (t : RawTile) (hw : 0 < t.width) (hh : 0 < t.height)
    (hc : 0 < t.channels) :
    t.width * t.height * t.channels ∈ rotate270ReadsFirst t := by
  simp only [rotate270ReadsFirst, List.mem_flatMap, List.mem_map, mem_countUp, mem_countDown]
  refine ⟨t.width, ⟨hw, Nat.le_refl _⟩, t.height - 1, ⟨Nat.zero_le _, by omega⟩, 0,
    ⟨Nat.le_refl _, hc⟩, ?_⟩
  have e : t.width * (t.height - 1) + t.width = t.width * t.height := by
    have : t.height = (t.height - 1) + 1 := by omega
    conv_rhs => rw [this, Nat.mul_add, Nat.mul_one]
  rw [Nat.add_zero, e]

theorem filter_rotate_first_size (fresh : Nat → Nat) (t : RawTile) (angle : Int) :
    (filter_rotate_first fresh t angle).width = (filter_rotate fresh t angle).width
      ∧ (filter_rotate_first fresh t angle).height = (filter_rotate fresh t angle).height := by
  unfold filter_rotate_first filter_rotate
  split_ifs <;> exact ⟨rfl, rfl⟩

theorem filter_rotate_first_180 (fresh : Nat → Nat) (t : RawTile) :
    filter_rotate_first fresh t 180
      = { t with
          data := (rotate180LoopFirst t
            ⟨0, if hasBranch t then fresh else nullBuffer⟩).buffer } := by
  have h1 : (180 : Int).tmod 90 = 0 := by decide
  have h2 : (180 : Int).tmod 360 = 180 := by decide
  have h3 : (180 : Int).tmod 180 = 0 := by decide
  simp [filter_rotate_first, h1, h2, h3]

theorem wrap_start (x : Nat) (h1 : 1 ≤ x) (h2 : x < 2 ^ 32) :
    (x + 2 ^ 32 - 1) % 2 ^ 32 = x - 1 := by
  have e : x + 2 ^ 32 - 1 = (x - 1) + 2 ^ 32 := by omega
  rw [e, Nat.add_mod_right]
  exact Nat.mod_eq_of_lt (by omega)

theorem rotate180LoopFirst_eq (t : RawTile) (st : Cursor) (h : hasBranch t = true)
    (h1 : 1 ≤ t.width * t.height) (h2 : t.width * t.height < 2 ^ 32) :
    rotate180LoopFirst t st
      = copyFrom t.data ((countDown (t.width * t.height - 1) 0).flatMap (fun i =>
          (countUp 0 t.channels).map (fun k => i * t.channels + k))) st := by
  unfold rotate180LoopFirst
  rw [wrap_start _ h1 h2]
  simp only [h, if_true]
  exact loop_nest2_copyFrom t.data (countDown (t.width * t.height - 1) 0) t.channels
    (fun i k => i * t.channels + k) st

/-- The branch "Rotate 180" of the first definition stops before pixel 0 of
the tile: the last pixel of the new buffer is never written. -/
theorem rotate180_first_last (fresh : Nat → Nat) (t : RawTile) (h : hasBranch t = true)
    (h1 : 1 ≤ t.width * t.height) (h2 : t.width * t.height < 2 ^ 32) (k : Nat) :
    (filter_rotate_first fresh t 180).data ((t.width * t.height - 1) * t.channels + k)
      = fresh ((t.width * t.height - 1) * t.channels + k) := by
  have e := congrArg RawTile.data (filter_rotate_first_180 fresh t)
  have e2 := rotate180LoopFirst_eq t ⟨0, if hasBranch t then fresh else nullBuffer⟩ h h1 h2
  rw [e, e2]
  dsimp only
  rw [copyFrom_outside]
  · simp only [h, if_true]
  right
  rw [length_nest2, length_countDown]
  simp only [Nat.sub_zero, Nat.zero_add]
  omega

/-! ### Claims C31 and C32 -/

/-- C31, the code: the first definition of `filter_rotate` (lines 615-689)
differs from the second (lines 736-810). Its branch for 90 runs `j` from
`height` down to 1 and its branch for 270 runs `i` from `width` down to 1,
each with `index = (width*j + i)*channels`, so both read the sample at
`width*height*channels`, the first one past the end of the buffer; its
branch for 180 stops before pixel 0 and leaves the last pixel of the new
buffer unwritten, where the second definition stores pixel 0. On the
example tile of 3 by 2 pixels with the samples 1 to 6 the two definitions
leave different buffers for each of the three angles; the width and the
height they leave are the same. -/
theorem rotate_definitions_differ :
    (∀ t : RawTile, hasBranch t = true → 0 < t.width → 0 < t.height → 0 < t.channels →
        (∀ st, rotate90LoopFirst t st = copyFrom t.data (rotate90ReadsFirst t) st)
          ∧ t.width * t.height * t.channels ∈ rotate90ReadsFirst t
          ∧ (∀ st, rotate270LoopFirst t st = copyFrom t.data (rotate270ReadsFirst t) st)
          ∧ t.width * t.height * t.channels ∈ rotate270ReadsFirst t)
      ∧ (∀ (fresh : Nat → Nat) (t : RawTile) (k : Nat), hasBranch t = true →
          1 ≤ t.width * t.height → t.width * t.height < 2 ^ 32 → k < t.channels →
          (filter_rotate_first fresh t 180).data ((t.width * t.height - 1) * t.channels + k)
              = fresh ((t.width * t.height - 1) * t.channels + k)
            ∧ (filter_rotate fresh t 180).data ((t.width * t.height - 1) * t.channels + k)
              = t.data k)
      ∧ exampleTile.width * exampleTile.height * exampleTile.channels = 6
      ∧ rotate90ReadsFirst exampleTile = [6, 3, 7, 4, 8, 5]
      ∧ (filter_rotate_first exampleFresh exampleTile 90).data 1 = 4
      ∧ (filter_rotate exampleFresh exampleTile 90).data 1 = 1
      ∧ rotate270ReadsFirst exampleTile = [3, 6, 2, 5, 1, 4]
      ∧ (filter_rotate_first exampleFresh exampleTile 270).data 0 = 4
      ∧ (filter_rotate exampleFresh exampleTile 270).data 0 = 3
      ∧ (filter_rotate_first exampleFresh exampleTile 180).data 5 = 99
      ∧ (filter_rotate exampleFresh exampleTile 180).data 5 = 1
      ∧ (∀ (fresh : Nat → Nat) (t : RawTile) (angle : Int),
          (filter_rotate_first fresh t angle).width = (filter_rotate fresh t angle).width
            ∧ (filter_rotate_first fresh t angle).height
              = (filter_rotate fresh t angle).height) := by
  refine ⟨?_, ?_, by decide, by decide, by decide, by decide, by decide, by decide, by decide,
    by decide, by decide, filter_rotate_first_size⟩
  · intro t h hw hh hc
    exact ⟨fun st => rotate90LoopFirst_eq t st h, rotate90ReadsFirst_outside t hw hh hc,
      fun st => rotate270LoopFirst_eq t st h, rotate270ReadsFirst_outside t hw hh hc⟩
  · intro fresh t k h h1 h2 hk
    refine ⟨rotate180_first_last fresh t h h1 h2 k, ?_⟩
    have e := rotate180_data fresh t h (t.width * t.height - 1) k (by omega) hk
    have z : t.width * t.height - 1 - (t.width * t.height - 1) = 0 := by omega
    rw [z, Nat.zero_mul, Nat.zero_add] at e
    exact e

theorem cmapHOT_range (v : ℚ) :
    (0 ≤ (cmapHOT v).1 ∧ (cmapHOT v).1 ≤ 1) ∧ (0 ≤ (cmapHOT v).2.1 ∧ (cmapHOT v).2.1 ≤ 1)
      ∧ (0 ≤ (cmapHOT v).2.2 ∧ (cmapHOT v).2.2 ≤ 1) := by
  simp only [cmapHOT, max3]
  split_ifs <;> refine ⟨⟨?_, ?_⟩, ⟨?_, ?_⟩, ⟨?_, ?_⟩⟩ <;> simp only <;> linarith

theorem cmapCOLD_range (v : ℚ) :
    (0 ≤ (cmapCOLD v).1 ∧ (cmapCOLD v).1 ≤ 1) ∧ (0 ≤ (cmapCOLD v).2.1 ∧ (cmapCOLD v).2.1 ≤ 1)
      ∧ (0 ≤ (cmapCOLD v).2.2 ∧ (cmapCOLD v).2.2 ≤ 1) := by
  simp only [cmapCOLD, max3]
  split_ifs <;> refine ⟨⟨?_, ?_⟩, ⟨?_, ?_⟩, ⟨?_, ?_⟩⟩ <;> simp only <;> linarith

theorem cmapJET_range (v : ℚ) :
    (0 ≤ (cmapJET v).1 ∧ (cmapJET v).1 ≤ 1) ∧ (0 ≤ (cmapJET v).2.1 ∧ (cmapJET v).2.1 ≤ 1)
      ∧ (0 ≤ (cmapJET v).2.2 ∧ (cmapJET v).2.2 ≤ 1) := by
  simp only [cmapJET, max8]
  split_ifs <;> refine ⟨⟨?_, ?_⟩, ⟨?_, ?_⟩, ⟨?_, ?_⟩⟩ <;> simp only <;> linarith

/-- C32: for each of the colour maps HOT, COLD and JET and every sample `v`,
each of the three components of the colour that `filter_cmap` computes lies
between 0 and 1, both included, and the three floats that it stores for a
pixel are this colour of the sample of the pixel. Arithmetic on floats is
exact here. -/
theorem cmap_in_unit_interval (cmap : cmap_type) (v : ℚ) :
    (0 ≤ (cmapColour cmap v).1 ∧ (cmapColour cmap v).1 ≤ 1)
      ∧ (0 ≤ (cmapColour cmap v).2.1 ∧ (cmapColour cmap v).2.1 ≤ 1)
      ∧ (0 ≤ (cmapColour cmap v).2.2 ∧ (cmapColour cmap v).2.2 ≤ 1)
      ∧ (∀ (fmt : FloatFormat) (fresh : Nat → Nat) (t : RawTile) (n : Nat),
          n < t.dataLength * 8 / t.bpc / t.channels → fmt.toFloat (t.data n) = v →
          pixelOf fmt (filter_cmap fmt fresh t cmap) n = cmapColour cmap v) := by
  have hr : (0 ≤ (cmapColour cmap v).1 ∧ (cmapColour cmap v).1 ≤ 1)
      ∧ (0 ≤ (cmapColour cmap v).2.1 ∧ (cmapColour cmap v).2.1 ≤ 1)
      ∧ (0 ≤ (cmapColour cmap v).2.2 ∧ (cmapColour cmap v).2.2 ≤ 1) := by
    cases cmap
    · exact cmapHOT_range v
    · exact cmapCOLD_range v
    · exact cmapJET_range v
  refine ⟨hr.1, hr.2.1, hr.2.2, ?_⟩
  intro fmt fresh t n hn hv
  rw [cmap_pixel fmt fresh t cmap n hn, hv]

end Transforms
